import Mathlib

/-!
Verification of the Conflux-style GHAST consensus core.

This file gives a shallow embedding, in Lean 4, of the data model and the
operations of the consensus engine found in

  * src/core/src/consensus/mod.rs            (ConsensusGraphInner / ConsensusGraph)
  * src/core/src/sync/synchronization_graph.rs (SynchronizationGraphInner / SynchronizationGraph)

and proves or refutes the specification claims C1 - C10 about them.

Modelling conventions:
  * Rust `usize` / `u64` / `U256` values are modelled as `Nat`; the sentinel
    `NULL = !0usize` is modelled as the concrete constant `NULL = 2^64 - 1`,
    so that comparisons such as `epoch_number > last_in_pivot` behave exactly
    as they do on the Rust bit pattern.
  * Rust `i128` weights are modelled as `Int` (the source uses i128 precisely
    so that the arithmetic never overflows at realistic sizes).
  * Block hashes (`H256`) are modelled as `Nat`; the source only ever compares
    hashes with `>` / `==` and against `H256::default()` (modelled as `0`).
  * `Slab` arenas of the consensus graph are modelled as `List` (the consensus
    arena never frees entries); lookups use `getD` with a default node.
  * Rust loops are modelled by structurally recursive functions on an explicit
    `fuel` argument; a `none` result signals fuel exhaustion, i.e. the loop did
    not terminate within the given bound.
  * `HashSet` / `HashMap` values are modelled as lists of keys (resp. of
    key-value pairs) with the insertion discipline of the source; all places
    where the source result depends on set iteration order are noted.
-/

namespace Conflux

/-- The Rust sentinel `NULL = !0` on 64-bit `usize`. -/
def NULL : Nat := 2 ^ 64 - 1

/-- `H256::default()`, the all-zero hash used as the parent hash of genesis. -/
def zeroHash : Nat := 0

def ANTICONE_BARRIER_CAP : Nat := 1000

def ERA_EPOCH_COUNT : Nat := 10000

def DEFERRED_STATE_EPOCH_COUNT : Nat := 5

def MAX_NUM_MAINTAINED_RISK : Nat := 10

/-- `MIN_MAINTAINED_RISK = 0.000001`.  The f64 risk constants of the source are
modelled as exact rationals; the source only ever compares and selects risk
values (never adds or multiplies them), and on the four constant values
`0.0, 0.000001, 0.0001, 0.9` the f64 order coincides with the rational order. -/
def MIN_MAINTAINED_RISK : ℚ := 1 / 1000000

/-- `ConsensusInnerConfig` (consensus/mod.rs). -/
structure ConsensusInnerConfig where
  adaptive_weight_alpha_num : Nat
  adaptive_weight_alpha_den : Nat
  adaptive_weight_beta : Nat
  heavy_block_difficulty_ratio : Nat
  enable_optimistic_execution : Bool
deriving Repr, DecidableEq

/-!  ## The link-cut trees

The six `MinLinkCutTree` instances come from the external `link_cut_tree`
crate, which is not part of this repository's sources.  Modelled from the
spec (section 3, "Link-Cut Tree") together with the usage documentation in
consensus/mod.rs lines 193-224: a dynamic forest whose link structure mirrors
the parent relation of the arena, supporting `make_tree`, `link`, `set`,
`get`, `path_apply` (add a delta to every node on the root-to-node path),
`path_aggregate` (minimum of the values on the root-to-node path),
`ancestor_at` (the ancestor at a given height, heights counted from the root
at height 0), `lca`, and `catepillar_apply` (per mod.rs lines 220-223: add a
delta to every node that is a child of some node on the root-to-node path).

The model keeps, per tree, the parent pointers and the node values as
functions; the path from a node to its root is computed by walking the parent
pointers with fuel `size`. -/
structure MinLinkCutTree where
  size : Nat
  par : Nat → Nat
  val : Nat → Int

def MinLinkCutTree.new : MinLinkCutTree := ⟨0, fun _ => NULL, fun _ => 0⟩

def MinLinkCutTree.make_tree (t : MinLinkCutTree) (x : Nat) : MinLinkCutTree :=
  { size := max t.size (x + 1)
    par := fun n => if n = x then NULL else t.par n
    val := fun n => if n = x then 0 else t.val n }

def MinLinkCutTree.link (t : MinLinkCutTree) (p c : Nat) : MinLinkCutTree :=
  { t with par := fun n => if n = c then p else t.par n }

def MinLinkCutTree.set (t : MinLinkCutTree) (x : Nat) (v : Int) : MinLinkCutTree :=
  { t with val := fun n => if n = x then v else t.val n }

def MinLinkCutTree.get (t : MinLinkCutTree) (x : Nat) : Int := t.val x

/-- The node-to-root path `[x, parent x, ..., root]`, walking at most `fuel`
parent pointers. -/
def lctPathAux (par : Nat → Nat) : Nat → Nat → List Nat
  | 0, x => [x]
  | fuel + 1, x => if par x = NULL then [x] else x :: lctPathAux par fuel (par x)

def MinLinkCutTree.pathList (t : MinLinkCutTree) (x : Nat) : List Nat :=
  lctPathAux t.par t.size x

def MinLinkCutTree.path_apply (t : MinLinkCutTree) (x : Nat) (delta : Int) :
    MinLinkCutTree :=
  let p := t.pathList x
  { t with val := fun n => if n ∈ p then t.val n + delta else t.val n }

def MinLinkCutTree.catepillar_apply (t : MinLinkCutTree) (x : Nat) (delta : Int) :
    MinLinkCutTree :=
  let p := t.pathList x
  { t with val := fun n => if t.par n ∈ p then t.val n + delta else t.val n }

def MinLinkCutTree.path_aggregate (t : MinLinkCutTree) (x : Nat) : Int :=
  (t.pathList x).foldl (fun m n => min m (t.val n)) (t.val x)

/-- The ancestor of `x` at height `h` (the root has height 0): entry
`length - 1 - h` of the node-to-root path. -/
def MinLinkCutTree.ancestor_at (t : MinLinkCutTree) (x : Nat) (h : Nat) : Nat :=
  let p := t.pathList x
  p.getD (p.length - 1 - h) NULL

/-- Last common element of two equal-direction lists (used for `lca`). -/
def commonPrefixLast : List Nat → List Nat → Nat → Nat
  | x :: xs, y :: ys, acc => if x = y then commonPrefixLast xs ys x else acc
  | _, _, acc => acc

/-- Lowest common ancestor: the deepest common node of the two root-to-node
paths. -/
def MinLinkCutTree.lca (t : MinLinkCutTree) (a b : Nat) : Nat :=
  commonPrefixLast (t.pathList a).reverse (t.pathList b).reverse NULL

/-!  ## The consensus arena -/

/-- `ConsensusGraphNodeData` (consensus/mod.rs lines 131-158). -/
structure ConsensusGraphNodeData where
  epoch_number : Nat
  partial_invalid : Bool
  blockset_in_own_view_of_epoch : List Nat
  ordered_epoch_blocks : List Nat
  min_epoch_in_other_views : Nat
  max_epoch_in_other_views : Nat
  sequence_number : Nat
deriving Repr, DecidableEq

def ConsensusGraphNodeData.new (epoch_number height sequence_number : Nat) :
    ConsensusGraphNodeData :=
  { epoch_number := epoch_number
    partial_invalid := false
    blockset_in_own_view_of_epoch := []
    ordered_epoch_blocks := []
    min_epoch_in_other_views := height
    max_epoch_in_other_views := height
    sequence_number := sequence_number }

/-- `ConsensusGraphNode` (consensus/mod.rs lines 276-294). -/
structure ConsensusGraphNode where
  hash : Nat
  height : Nat
  is_heavy : Bool
  difficulty : Nat
  past_weight : Int
  past_era_weight : Int
  pow_quality : Nat
  stable : Bool
  adaptive : Bool
  parent : Nat
  last_pivot_in_past : Nat
  children : List Nat
  referrers : List Nat
  referees : List Nat
  data : ConsensusGraphNodeData
deriving Repr, DecidableEq

def defaultConsensusNode : ConsensusGraphNode :=
  { hash := 0, height := 0, is_heavy := false, difficulty := 0, past_weight := 0
    past_era_weight := 0, pow_quality := 0, stable := false, adaptive := false
    parent := NULL, last_pivot_in_past := 0, children := [], referrers := []
    referees := [], data := ConsensusGraphNodeData.new NULL 0 0 }

/-- The block data relevant to the consensus layer (from `primitives::Block` /
`BlockHeader`; only the fields the embedded code reads). -/
structure Block where
  hash : Nat
  parent_hash : Nat
  referee_hashes : List Nat
  height : Nat
  difficulty : Nat
  pow_quality : Nat
  adaptive : Bool
  deferred_state_root : Nat
  deferred_receipts_root : Nat
deriving Repr, DecidableEq

/-- The proof-of-work configuration.  The `pow` crate is not among the
sources; `initial_difficulty` and `difficulty_adjustment_epoch_period` are
plain data, and the external function `pow::target_difficulty` (together with
`get_adjustment_bound`) is modelled as an oracle from the hash of the
period-boundary block (resp. the parent difficulty). -/
structure ProofOfWorkConfig where
  initial_difficulty : Nat
  difficulty_adjustment_epoch_period : Nat
  target_difficulty : Nat → Nat
  get_adjustment_bound : Nat → Nat × Nat

/-- `ConsensusGraphInner` (consensus/mod.rs lines 228-274); only the fields
the embedded operations touch.  The anticone cache is kept as an association
list from node index to anticone set. -/
structure ConsensusGraphInner where
  arena : List ConsensusGraphNode
  indices : List (Nat × Nat)
  pivot_chain : List Nat
  pivot_chain_metadata : List (List Nat)
  terminal_hashes : List Nat
  genesis_block_index : Nat
  genesis_block_state_root : Nat
  genesis_block_receipts_root : Nat
  weight_tree : MinLinkCutTree
  inclusive_weight_tree : MinLinkCutTree
  stable_weight_tree : MinLinkCutTree
  stable_tree : MinLinkCutTree
  adaptive_tree : MinLinkCutTree
  inclusive_adaptive_tree : MinLinkCutTree
  pow_config : ProofOfWorkConfig
  current_difficulty : Nat
  optimistic_executed_height : Option Nat
  inner_conf : ConsensusInnerConfig
  anticone_cache : List (Nat × List Nat)
  sequence_number_of_block_entrance : Nat

namespace ConsensusGraphInner

/-- Arena lookup, `self.arena[i]`. -/
def node (s : ConsensusGraphInner) (i : Nat) : ConsensusGraphNode :=
  s.arena.getD i defaultConsensusNode

/-- Arena entry update, `self.arena[i].field = ...`. -/
def setNode (s : ConsensusGraphInner) (i : Nat)
    (f : ConsensusGraphNode → ConsensusGraphNode) : ConsensusGraphInner :=
  { s with arena := s.arena.set i (f (s.node i)) }

/-- `indices.get(hash)`. -/
def indexOfHash (s : ConsensusGraphInner) (h : Nat) : Option Nat :=
  (s.indices.find? (fun p => p.1 = h)).map (·.2)

/-- `ConsensusGraphInner::is_heavier` (consensus/mod.rs lines 397-399). -/
def is_heavier (a : Int × Nat) (b : Int × Nat) : Bool :=
  (a.1 > b.1) || ((a.1 = b.1) && (a.2 > b.2))

/-- `ConsensusGraphInner::get_era_height` (consensus/mod.rs lines 401-411). -/
def get_era_height (parent_height : Nat) (offset : Nat) : Nat :=
  if parent_height > offset then
    (parent_height - offset) / ERA_EPOCH_COUNT * ERA_EPOCH_COUNT
  else 0

/-- `ConsensusGraphInner::get_era_block_with_parent`
(consensus/mod.rs lines 413-417). -/
def get_era_block_with_parent (s : ConsensusGraphInner) (parent offset : Nat) :
    Nat :=
  let height := (s.node parent).height
  let era_height := get_era_height height offset
  s.weight_tree.ancestor_at parent era_height

/-- `ConsensusGraphInner::block_weight` (consensus/mod.rs lines 1859-1875). -/
def block_weight (s : ConsensusGraphInner) (me : Nat) (inclusive : Bool) : Int :=
  if (s.node me).data.partial_invalid && !inclusive then 0
  else
    let is_heavy := (s.node me).is_heavy
    let is_adaptive := (s.node me).adaptive
    if is_adaptive then
      if is_heavy then
        (s.inner_conf.heavy_block_difficulty_ratio : Int) *
          ((s.node me).difficulty : Int)
      else 0
    else ((s.node me).difficulty : Int)

/-- `ConsensusGraphInner::total_weight_in_own_epoch`
(consensus/mod.rs lines 1879-1906). -/
def total_weight_in_own_epoch (s : ConsensusGraphInner)
    (blockset_in_own_epoch : List Nat) (inclusive : Bool)
    (genesis_opt : Option Nat) : Int :=
  let gen_index := genesis_opt.getD s.genesis_block_index
  let gen_height := (s.node gen_index).height
  blockset_in_own_epoch.foldl
    (fun total_weight index =>
      if gen_index ≠ s.genesis_block_index then
        let height := (s.node index).height
        if height < gen_height then total_weight
        else
          let era_index := s.weight_tree.ancestor_at index gen_height
          if gen_index ≠ era_index then total_weight
          else total_weight + s.block_weight index inclusive
      else total_weight + s.block_weight index inclusive)
    0

end ConsensusGraphInner

/-!  ## Association-list helpers (model of `HashMap<usize, _>`) -/

def alGet (l : List (Nat × Nat)) (k : Nat) (d : Nat) : Nat :=
  ((l.find? (fun p => p.1 = k)).map (·.2)).getD d

def alSet (l : List (Nat × Nat)) (k v : Nat) : List (Nat × Nat) :=
  if l.any (fun p => p.1 = k) then
    l.map (fun p => if p.1 = k then (k, v) else p)
  else (k, v) :: l

/-- `entry(k).or_insert(d)` followed by reading the entry. -/
def alEntryOr (l : List (Nat × Nat)) (k d : Nat) : List (Nat × Nat) :=
  if l.any (fun p => p.1 = k) then l else (k, d) :: l

/-- Set-flavoured list insertion (`HashSet::insert`). -/
def slInsert (l : List Nat) (x : Nat) : List Nat :=
  if x ∈ l then l else l ++ [x]

/-- `map.entry(k).or_insert(Vec::new()).push(v)`. -/
def alAppendEntry (l : List (Nat × List Nat)) (k v : Nat) :
    List (Nat × List Nat) :=
  if l.any (fun p => p.1 = k) then
    l.map (fun p => if p.1 = k then (p.1, p.2 ++ [v]) else p)
  else (k, [v]) :: l

namespace ConsensusGraphInner

/-!  ## `topological_sort` (consensus/mod.rs lines 1265-1316) -/

/-- First pass of `topological_sort`: build `num_incoming_edges`.  For every
`me` in the set, ensure an entry for `me`, then increment the entries of its
parent and referees when those lie in the set. -/
def topoCounts (s : ConsensusGraphInner) (index_set : List Nat) :
    List (Nat × Nat) :=
  index_set.foldl
    (fun num_incoming_edges me =>
      let num_incoming_edges := alEntryOr num_incoming_edges me 0
      let parent := (s.node me).parent
      let num_incoming_edges :=
        if parent ∈ index_set then
          alSet num_incoming_edges parent (alGet num_incoming_edges parent 0 + 1)
        else num_incoming_edges
      (s.node me).referees.foldl
        (fun acc referee =>
          if referee ∈ index_set then
            alSet acc referee (alGet acc referee 0 + 1)
          else acc)
        num_incoming_edges)
    []

/-- `candidates.iter().max_by_key(|index| self.arena[**index].hash)`.
`max_by_key` returns the last maximal element of the iteration; block hashes
are distinct in every reachable state, so picking the first maximal element of
the list makes no difference there. -/
def maxByHash (s : ConsensusGraphInner) : List Nat → Nat
  | [] => NULL
  | x :: xs => xs.foldl (fun best c => if (s.node c).hash > (s.node best).hash then c else best) x

/-- The `while !candidates.is_empty()` loop of `topological_sort`. -/
def topoLoop (s : ConsensusGraphInner) (index_set : List Nat) :
    Nat → List (Nat × Nat) → List Nat → List Nat → List Nat
  | 0, _, _, reversed_indices => reversed_indices
  | fuel + 1, num_incoming_edges, candidates, reversed_indices =>
    if candidates.isEmpty then reversed_indices
    else
      let me := maxByHash s candidates
      let candidates := candidates.erase me
      let reversed_indices := reversed_indices ++ [me]
      let parent := (s.node me).parent
      let (num_incoming_edges, candidates) :=
        if parent ∈ index_set then
          let n := alGet num_incoming_edges parent 0 - 1
          let num_incoming_edges := alSet num_incoming_edges parent n
          if n = 0 then (num_incoming_edges, slInsert candidates parent)
          else (num_incoming_edges, candidates)
        else (num_incoming_edges, candidates)
      let (num_incoming_edges, candidates) :=
        (s.node me).referees.foldl
          (fun (acc : List (Nat × Nat) × List Nat) referee =>
            if referee ∈ index_set then
              let n := alGet acc.1 referee 0 - 1
              let acc1 := alSet acc.1 referee n
              if n = 0 then (acc1, slInsert acc.2 referee)
              else (acc1, acc.2)
            else acc)
          (num_incoming_edges, candidates)
      topoLoop s index_set fuel num_incoming_edges candidates reversed_indices

/-- `ConsensusGraphInner::topological_sort` (consensus/mod.rs lines 1265-1316). -/
def topological_sort (s : ConsensusGraphInner) (index_set : List Nat) :
    List Nat :=
  let num_incoming_edges := topoCounts s index_set
  let candidates := index_set.filter (fun me => alGet num_incoming_edges me 0 = 0)
  (topoLoop s index_set (index_set.length + 1) num_incoming_edges candidates []).reverse

/-!  ## `collect_blockset_in_own_view_of_epoch`
(consensus/mod.rs lines 835-910) -/

/-- The inner `loop` of `collect_blockset_in_own_view_of_epoch`
(lines 856-878): walk `parent` down the pivot ancestor chain and decide
whether `index` already lies in an older epoch.  Returns `in_old_epoch`. -/
def collectInOldEpoch (s : ConsensusGraphInner) (index : Nat) :
    Nat → Nat → Bool
  | 0, _ => false
  | fuel + 1, parent =>
    if (s.node parent).height < (s.node index).data.min_epoch_in_other_views
        || (s.node index).data.sequence_number
            > (s.node parent).data.sequence_number then
      false
    else if parent = index
        || index ∈ (s.node parent).data.blockset_in_own_view_of_epoch then
      true
    else collectInOldEpoch s index fuel (s.node parent).parent

/-- The BFS of `collect_blockset_in_own_view_of_epoch` (lines 843-905). -/
def collectLoop (pivot : Nat) :
    Nat → ConsensusGraphInner → List Nat → List Nat → ConsensusGraphInner
  | 0, s, _, _ => s
  | fuel + 1, s, queue, visited =>
    match queue with
    | [] => s
    | index :: queue =>
      let parent0 := (s.node pivot).parent
      let parent :=
        if (s.node parent0).height > (s.node index).data.max_epoch_in_other_views
        then
          s.weight_tree.ancestor_at parent0
            (s.node index).data.max_epoch_in_other_views
        else parent0
      let in_old_epoch := collectInOldEpoch s index (s.arena.length + 1) parent
      if in_old_epoch then collectLoop pivot fuel s queue visited
      else
        let parent' := (s.node index).parent
        let (queue, visited) :=
          if parent' ∈ visited then (queue, visited)
          else (queue ++ [parent'], visited ++ [parent'])
        let (queue, visited) :=
          (s.node index).referees.foldl
            (fun (acc : List Nat × List Nat) referee =>
              if referee ∈ acc.2 then acc
              else (acc.1 ++ [referee], acc.2 ++ [referee]))
            (queue, visited)
        let s := s.setNode index (fun nd =>
          { nd with data :=
              { nd.data with
                min_epoch_in_other_views :=
                  min nd.data.min_epoch_in_other_views (s.node pivot).height
                max_epoch_in_other_views :=
                  max nd.data.max_epoch_in_other_views (s.node pivot).height } })
        let s := s.setNode pivot (fun nd =>
          { nd with data :=
              { nd.data with blockset_in_own_view_of_epoch := slInsert nd.data.blockset_in_own_view_of_epoch index } })
        collectLoop pivot fuel s queue visited

/-- `ConsensusGraphInner::collect_blockset_in_own_view_of_epoch`
(consensus/mod.rs lines 835-910). -/
def collect_blockset_in_own_view_of_epoch (s : ConsensusGraphInner)
    (pivot : Nat) : ConsensusGraphInner :=
  let referees := (s.node pivot).referees
  let s := collectLoop pivot (s.arena.length * s.arena.length + s.arena.length + 1)
    s referees referees
  let sorted := s.topological_sort (s.node pivot).data.blockset_in_own_view_of_epoch
  s.setNode pivot (fun nd =>
    { nd with data := { nd.data with ordered_epoch_blocks := sorted ++ [pivot] } })

/-!  ## `insert` (consensus/mod.rs lines 912-1006) -/

/-- The fresh `ConsensusGraphNode` built by `insert` (lines 939-957). -/
def freshNode (block : Block) (is_heavy : Bool) (parent : Nat)
    (referees : List Nat) (sn : Nat) : ConsensusGraphNode :=
  { hash := block.hash
    height := block.height
    is_heavy := is_heavy
    difficulty := block.difficulty
    past_weight := 0
    past_era_weight := 0
    pow_quality := block.pow_quality
    stable := true
    adaptive := block.adaptive
    parent := parent
    last_pivot_in_past := 0
    children := []
    referees := referees
    referrers := []
    data := ConsensusGraphNodeData.new NULL block.height sn }

/-- First phase of `insert` (lines 913-968): allocate the arena entry, hook up
parent / referee links and maintain `terminal_hashes`.  Returns the state,
the new index and the parent index. -/
def insertArenaPhase (s : ConsensusGraphInner) (block : Block) :
    ConsensusGraphInner × Nat × Nat :=
  let is_heavy :=
    block.pow_quality ≥ s.inner_conf.heavy_block_difficulty_ratio * block.difficulty
  let parent :=
    if block.parent_hash ≠ zeroHash then (s.indexOfHash block.parent_hash).getD NULL
    else NULL
  let referees := block.referee_hashes.map (fun h => (s.indexOfHash h).getD NULL)
  let th0 := referees.foldl (fun th referee => th.erase (s.node referee).hash) s.terminal_hashes
  let sn := s.sequence_number_of_block_entrance
  let index := s.arena.length
  let s1 : ConsensusGraphInner := { s with
    terminal_hashes := th0
    sequence_number_of_block_entrance := sn + 1
    arena := s.arena ++ [freshNode block is_heavy parent referees sn]
    indices := (block.hash, index) :: s.indices }
  let s2 : ConsensusGraphInner :=
    if parent ≠ NULL then
      let s' := { s1 with terminal_hashes := s1.terminal_hashes.erase (s1.node parent).hash }
      s'.setNode parent (fun nd => { nd with children := nd.children ++ [index] })
    else s1
  let s3 : ConsensusGraphInner :=
    { s2 with terminal_hashes := slInsert s2.terminal_hashes block.hash }
  let s4 : ConsensusGraphInner := referees.foldl
    (fun s referee => s.setNode referee (fun nd => { nd with referrers := nd.referrers ++ [index] }))
    s3
  (s4, index, parent)

/-- Last phase of `insert` (lines 972-998): compute and store `past_weight`
and `past_era_weight` for the new node. -/
def insertWeightPhase (s : ConsensusGraphInner) (index parent : Nat) :
    ConsensusGraphInner :=
  if parent ≠ NULL then
    let era_genesis := s.get_era_block_with_parent parent 0
    let weight_in_my_epoch := s.total_weight_in_own_epoch
      (s.node index).data.blockset_in_own_view_of_epoch false none
    let weight_era_in_my_epoch := s.total_weight_in_own_epoch
      (s.node index).data.blockset_in_own_view_of_epoch false (some era_genesis)
    let past_weight := (s.node parent).past_weight
      + s.block_weight parent false + weight_in_my_epoch
    let past_era_weight :=
      if parent ≠ era_genesis then
        (s.node parent).past_era_weight + s.block_weight parent false
          + weight_era_in_my_epoch
      else s.block_weight parent false + weight_era_in_my_epoch
    s.setNode index (fun nd =>
      { nd with past_weight := past_weight, past_era_weight := past_era_weight })
  else s

/-- `ConsensusGraphInner::insert` (consensus/mod.rs lines 912-1006): add a
block to the arena, collect its epoch blockset in its own view, and compute
its `past_weight` / `past_era_weight`.  Returns the state together with
`(index, indices.len())`. -/
def insert (s : ConsensusGraphInner) (block : Block) :
    ConsensusGraphInner × Nat × Nat :=
  let (s1, index, parent) := insertArenaPhase s block
  let s2 := s1.collect_blockset_in_own_view_of_epoch index
  let s3 := insertWeightPhase s2 index parent
  (s3, index, s3.indices.length)

/-!  ## Anticone computation (consensus/mod.rs lines 1131-1263) -/

/-- The BFS of `compute_anticone_bruteforce` (lines 1138-1158): walk backwards
from `me` through parents and referees, entering only nodes whose
`epoch_number` exceeds `last_in_pivot` (`NULL` epoch numbers compare as the
huge sentinel, exactly as the Rust `usize` comparison does). -/
def bruteforceVisitLoop (s : ConsensusGraphInner) (last_in_pivot : Nat) :
    Nat → List Nat → List Nat → List Nat
  | 0, _, visited => visited
  | fuel + 1, queue, visited =>
    match queue with
    | [] => visited
    | index :: queue =>
      let parent := (s.node index).parent
      let (queue, visited) :=
        if (s.node parent).data.epoch_number > last_in_pivot ∧ parent ∉ visited
        then (queue ++ [parent], visited ++ [parent])
        else (queue, visited)
      let (queue, visited) :=
        (s.node index).referees.foldl
          (fun (acc : List Nat × List Nat) referee =>
            if (s.node referee).data.epoch_number > last_in_pivot
                ∧ referee ∉ acc.2
            then (acc.1 ++ [referee], acc.2 ++ [referee])
            else acc)
          (queue, visited)
      bruteforceVisitLoop s last_in_pivot fuel queue visited

/-- `ConsensusGraphInner::compute_anticone_bruteforce`
(consensus/mod.rs lines 1131-1168). -/
def compute_anticone_bruteforce (s : ConsensusGraphInner) (me : Nat) :
    List Nat :=
  let parent := (s.node me).parent
  let last_in_pivot := (s.node me).referees.foldl
    (fun l referee => max l (s.node referee).last_pivot_in_past)
    (s.node parent).last_pivot_in_past
  let visited := bruteforceVisitLoop s last_in_pivot (s.arena.length + 1) [me] [me]
  (List.range s.arena.length).filter
    (fun i => (s.node i).data.epoch_number > last_in_pivot ∧ i ∉ visited)

/-- The future-set BFS of `compute_anticone` (lines 1184-1203): walk forwards
from `parent` through children and referrers; entries other than `parent` and
`me` are collected into `parent_futures`. -/
def futuresLoop (s : ConsensusGraphInner) (parent me : Nat) :
    Nat → List Nat → List Nat → List Nat → List Nat
  | 0, _, _, futures => futures
  | fuel + 1, queue, visited, futures =>
    match queue with
    | [] => futures
    | index :: queue =>
      if index ∈ visited then futuresLoop s parent me fuel queue visited futures
      else
        let futures :=
          if index ≠ parent ∧ index ≠ me then futures ++ [index] else futures
        let visited := visited ++ [index]
        let queue := queue ++ (s.node index).children ++ (s.node index).referrers
        futuresLoop s parent me fuel queue visited futures

/-- The past-set BFS of `compute_anticone` (lines 1205-1235): walk backwards
from `me`, entering only nodes that lie in the parent's anticone or future. -/
def myPastLoop (s : ConsensusGraphInner) (me : Nat)
    (parent_anticone parent_futures : List Nat) :
    Nat → List Nat → List Nat → List Nat
  | 0, _, my_past => my_past
  | fuel + 1, queue, my_past =>
    match queue with
    | [] => my_past
    | index :: queue =>
      if index ∈ my_past then
        myPastLoop s me parent_anticone parent_futures fuel queue my_past
      else
        let my_past := if index ≠ me then my_past ++ [index] else my_past
        let idx_parent := (s.node index).parent
        let queue :=
          if idx_parent ∈ parent_anticone ∨ idx_parent ∈ parent_futures
          then queue ++ [idx_parent] else queue
        let queue := (s.node index).referees.foldl
          (fun q referee =>
            if referee ∈ parent_anticone ∨ referee ∈ parent_futures
            then q ++ [referee] else q)
          queue
        myPastLoop s me parent_anticone parent_futures fuel queue my_past

/-- `AnticoneCache::get`.  The anticone cache module is not among the
sources.  Modelled from the spec (section 3, "AnticoneCache"): a bounded
mapping from block index to the set of indices that are in that block's
anticone (we elide the age-based eviction, which only makes `get` return
`none` more often and is immaterial to the claims). -/
def cacheGet (cache : List (Nat × List Nat)) (i : Nat) : Option (List Nat) :=
  (cache.find? (fun p => p.1 = i)).map (·.2)

/-- `AnticoneCache::update`.  Modelled from the spec (section 3): the entry of
a block holds the set of indices in that block's anticone.  Since the anticone
relation is symmetric, recording the anticone of a newly inserted block `me`
also adds `me` to the stored anticone of every block of that set; this is what
keeps each cached entry equal to its block's current anticone as later blocks
arrive. -/
def cacheUpdate (cache : List (Nat × List Nat)) (me : Nat)
    (anticone : List Nat) : List (Nat × List Nat) :=
  let cache := cache.map
    (fun p => if p.1 ∈ anticone then (p.1, slInsert p.2 me) else p)
  (me, anticone) :: cache

/-- `ConsensusGraphInner::compute_anticone`
(consensus/mod.rs lines 1170-1263).  Returns the anticone barrier and the
state with the refreshed anticone cache. -/
def compute_anticone (s : ConsensusGraphInner) (me : Nat) :
    List Nat × ConsensusGraphInner :=
  let parent := (s.node me).parent
  let parent_anticone_opt := cacheGet s.anticone_cache parent
  let anticone :=
    match parent_anticone_opt with
    | none => compute_anticone_bruteforce s me
    | some parent_anticone =>
      let parent_futures :=
        futuresLoop s parent me
          (s.arena.length * s.arena.length + 2 * s.arena.length + 2)
          [parent] [] []
      let my_past := myPastLoop s me parent_anticone parent_futures
        (s.arena.length * s.arena.length + 2 * s.arena.length + 2) [me] []
      let parent_futures := parent_anticone.foldl slInsert parent_futures
      my_past.foldl (fun pf i => pf.erase i) parent_futures
  let s := { s with anticone_cache := cacheUpdate s.anticone_cache me anticone }
  let anticone_barrier :=
    anticone.filter (fun index => (s.node index).parent ∉ anticone)
  (anticone_barrier, s)

/-!  ## `compute_subtree_weights` (consensus/mod.rs lines 473-516) -/

/-- The two-stage DFS stack loop of `compute_subtree_weights`.  The three
vectors hold, per node, the accumulated subtree weight, inclusive subtree
weight and stable subtree weight. -/
def subtreeWeightsLoop (s : ConsensusGraphInner) (me : Nat)
    (anticone_barrier : List Nat) :
    Nat → List (Nat × Nat) → List Int × List Int × List Int →
    List Int × List Int × List Int
  | 0, _, vecs => vecs
  | fuel + 1, stack, vecs =>
    match stack with
    | [] => vecs
    | (stage, index) :: stack =>
      if stage = 0 then
        let stack := ((s.node index).children.filter
          (fun child => child ∉ anticone_barrier ∧ child ≠ me)).foldl
            (fun st child => (0, child) :: st) ((1, index) :: stack)
        subtreeWeightsLoop s me anticone_barrier fuel stack vecs
      else
        let (w, iw, sw) := vecs
        let sumc := fun (v : List Int) =>
          (s.node index).children.foldl (fun a child => a + v.getD child 0) 0
        let weight := s.block_weight index false
        let w := w.set index (sumc w + weight)
        let iw := iw.set index (sumc iw + s.block_weight index true)
        let sw := sw.set index
          (sumc sw + if (s.node index).stable then weight else 0)
        subtreeWeightsLoop s me anticone_barrier fuel stack (w, iw, sw)

/-- `ConsensusGraphInner::compute_subtree_weights`
(consensus/mod.rs lines 473-516). -/
def compute_subtree_weights (s : ConsensusGraphInner) (me : Nat)
    (anticone_barrier : List Nat) : List Int × List Int × List Int :=
  let n := s.arena.length
  let z : List Int := List.replicate n 0
  subtreeWeightsLoop s me anticone_barrier (4 * n + 4)
    [(0, s.genesis_block_index)] (z, z, z)

/-!  ## `adaptive_weight_impl_brutal` (consensus/mod.rs lines 518-593) -/

/-- The first loop of `adaptive_weight_impl_brutal` (lines 539-555), the
intra-era stability check.  Returns `(parent, stable)` when the loop exits,
`none` when its fuel runs out. -/
def brutalLoop1 (s : ConsensusGraphInner) (subtree_weight : List Int)
    (total_weight : Int) (era_height : Nat) (adjusted_beta : Int) :
    Nat → Nat → Option (Nat × Bool)
  | 0, _ => none
  | fuel + 1, parent =>
    if (s.node parent).height ≠ era_height then
      let grandparent := (s.node parent).parent
      let w := total_weight - (s.node grandparent).past_era_weight
        - s.block_weight grandparent false
      if w > adjusted_beta ∧
          (s.inner_conf.adaptive_weight_alpha_den : Int)
              * subtree_weight.getD parent 0
            - (s.inner_conf.adaptive_weight_alpha_num : Int) * w < 0 then
        some (parent, false)
      else
        brutalLoop1 s subtree_weight total_weight era_height adjusted_beta fuel
          grandparent
    else some (parent, true)

/-- The second loop of `adaptive_weight_impl_brutal` (lines 558-573), the
intra-era adaptivity check.  Returns `(parent, adaptive)`. -/
def brutalLoop2 (s : ConsensusGraphInner)
    (subtree_weight subtree_stable_weight : List Int) (era_height : Nat)
    (adjusted_beta : Int) : Nat → Nat → Option (Nat × Bool)
  | 0, _ => none
  | fuel + 1, parent =>
    if (s.node parent).height ≠ era_height then
      let grandparent := (s.node parent).parent
      let w := subtree_weight.getD grandparent 0
      if w > adjusted_beta ∧
          (s.inner_conf.adaptive_weight_alpha_den : Int)
              * subtree_stable_weight.getD parent 0
            - (s.inner_conf.adaptive_weight_alpha_num : Int) * w < 0 then
        some (parent, true)
      else
        brutalLoop2 s subtree_weight subtree_stable_weight era_height
          adjusted_beta fuel grandparent
    else some (parent, false)

/-- The third loop of `adaptive_weight_impl_brutal` (lines 576-589), the
previous-era inclusive-weight check.  Faithful to the source: the loop body
computes `grandparent` and the weight test but never reassigns `parent`, so a
non-breaking iteration leaves the loop state unchanged. -/
def brutalLoop3 (s : ConsensusGraphInner)
    (subtree_inclusive_weight : List Int) (two_era_height : Nat)
    (adjusted_beta : Int) : Nat → Nat → Option Bool
  | 0, _ => none
  | fuel + 1, parent =>
    if (s.node parent).height ≠ two_era_height then
      let grandparent := (s.node parent).parent
      let w := subtree_inclusive_weight.getD grandparent 0
      if w > adjusted_beta ∧
          (s.inner_conf.adaptive_weight_alpha_den : Int)
              * subtree_inclusive_weight.getD parent 0
            - (s.inner_conf.adaptive_weight_alpha_num : Int) * w < 0 then
        some true
      else
        brutalLoop3 s subtree_inclusive_weight two_era_height adjusted_beta
          fuel parent
    else some false

/-- `ConsensusGraphInner::adaptive_weight_impl_brutal`
(consensus/mod.rs lines 518-593), with an explicit fuel bound on each of its
three loops; `none` means some loop failed to terminate within `fuel` steps. -/
def adaptive_weight_impl_brutal (s : ConsensusGraphInner) (parent_0 : Nat)
    (subtree_weight subtree_inclusive_weight subtree_stable_weight : List Int)
    (difficulty : Int) (fuel : Nat) : Option (Bool × Bool) :=
  let height := (s.node parent_0).height
  let era_height := get_era_height height 0
  let two_era_height := get_era_height height ERA_EPOCH_COUNT
  let era_genesis := s.inclusive_weight_tree.ancestor_at parent_0 era_height
  let total_weight := subtree_weight.getD era_genesis 0
  let adjusted_beta := (s.inner_conf.adaptive_weight_beta : Int) * difficulty
  match brutalLoop1 s subtree_weight total_weight era_height adjusted_beta fuel
      parent_0 with
  | none => none
  | some (parent1, stable) =>
    let afterLoop2 : Option (Nat × Bool) :=
      if !stable then
        brutalLoop2 s subtree_weight subtree_stable_weight era_height
          adjusted_beta fuel parent_0
      else some (parent1, false)
    match afterLoop2 with
    | none => none
    | some (parent2, adaptive) =>
      if !adaptive then
        match brutalLoop3 s subtree_inclusive_weight two_era_height
            adjusted_beta fuel parent2 with
        | none => none
        | some adaptive' => some (stable, adaptive')
      else some (stable, adaptive)

/-!  ## `adaptive_weight_impl`, fast path (consensus/mod.rs lines 595-815) -/

/-- The deltas removed from (and later restored to) the trees: for each
anticone-barrier index, its current value in the weight, inclusive-weight and
stable-weight trees (lines 617-632). -/
def barrierDeltas (s : ConsensusGraphInner) (anticone_barrier : List Nat) :
    List (Nat × Int) × List (Nat × Int) × List (Nat × Int) :=
  (anticone_barrier.map (fun i => (i, s.weight_tree.get i)),
   anticone_barrier.map (fun i => (i, s.inclusive_weight_tree.get i)),
   anticone_barrier.map (fun i => (i, s.stable_weight_tree.get i)))

/-- The three subtraction loops of `adaptive_weight_impl` (lines 634-662). -/
def subtractDeltas (s : ConsensusGraphInner)
    (wd iwd swd : List (Nat × Int)) : ConsensusGraphInner :=
  let num := (s.inner_conf.adaptive_weight_alpha_num : Int)
  let den := (s.inner_conf.adaptive_weight_alpha_den : Int)
  let s := wd.foldl
    (fun s p =>
      let s := { s with weight_tree := s.weight_tree.path_apply p.1 (-p.2) }
      let s := { s with stable_tree := s.stable_tree.path_apply p.1 (-p.2 * den) }
      let parent := (s.node p.1).parent
      { s with adaptive_tree := s.adaptive_tree.catepillar_apply parent (p.2 * num) })
    s
  let s := iwd.foldl
    (fun s p =>
      let parent := (s.node p.1).parent
      let s := { s with inclusive_adaptive_tree :=
        s.inclusive_adaptive_tree.catepillar_apply parent (p.2 * num) }
      { s with inclusive_adaptive_tree :=
        s.inclusive_adaptive_tree.path_apply p.1 (-p.2 * den) })
    s
  swd.foldl
    (fun s p =>
      { s with adaptive_tree := s.adaptive_tree.path_apply p.1 (-p.2 * den) })
    s

/-- The three restoration loops of `adaptive_weight_impl` (lines 784-812). -/
def restoreDeltas (s : ConsensusGraphInner)
    (wd iwd swd : List (Nat × Int)) : ConsensusGraphInner :=
  let num := (s.inner_conf.adaptive_weight_alpha_num : Int)
  let den := (s.inner_conf.adaptive_weight_alpha_den : Int)
  let s := wd.foldl
    (fun s p =>
      let s := { s with weight_tree := s.weight_tree.path_apply p.1 p.2 }
      let s := { s with stable_tree := s.stable_tree.path_apply p.1 (p.2 * den) }
      let parent := (s.node p.1).parent
      { s with adaptive_tree := s.adaptive_tree.catepillar_apply parent (-p.2 * num) })
    s
  let s := iwd.foldl
    (fun s p =>
      let parent := (s.node p.1).parent
      let s := { s with inclusive_adaptive_tree :=
        s.inclusive_adaptive_tree.catepillar_apply parent (-p.2 * num) }
      { s with inclusive_adaptive_tree :=
        s.inclusive_adaptive_tree.path_apply p.1 (p.2 * den) })
    s
  swd.foldl
    (fun s p =>
      { s with adaptive_tree := s.adaptive_tree.path_apply p.1 (p.2 * den) })
    s

/-- The binary searches of `adaptive_weight_impl` (lines 685-698, 728-739,
756-769): find the largest height `best` in `[low, high]` whose ancestor
satisfies `w > adjusted_beta`, where `w` is supplied by `weightAt` for the
ancestor at the probed height. -/
def binarySearchBest (weightAt : Nat → Int) (adjusted_beta : Int) :
    Nat → Nat → Nat → Nat → Nat
  | 0, _, _, best => best
  | fuel + 1, low, high, best =>
    if low ≤ high then
      let mid := (low + high) / 2
      if weightAt mid > adjusted_beta then
        binarySearchBest weightAt adjusted_beta fuel (mid + 1) high mid
      else binarySearchBest weightAt adjusted_beta fuel low (mid - 1) best
    else best

/-- The query phase of `adaptive_weight_impl` (lines 664-782), evaluated on
the tree state with the anticone-barrier contributions already removed.  Pure
reads: it returns `(stable, adaptive)` and does not change the state. -/
def adaptiveWeightQueries (s : ConsensusGraphInner) (parent_0 : Nat)
    (difficulty : Int) : Bool × Bool :=
  let num := (s.inner_conf.adaptive_weight_alpha_num : Int)
  let era_height := get_era_height (s.node parent_0).height 0
  let two_era_height := get_era_height (s.node parent_0).height ERA_EPOCH_COUNT
  let era_genesis := s.inclusive_weight_tree.ancestor_at parent_0 era_height
  let total_weight := s.weight_tree.get era_genesis
  let adjusted_beta := (s.inner_conf.adaptive_weight_beta : Int) * difficulty
  let high := (s.node parent_0).height
  let low := era_height + 1
  let best := binarySearchBest
    (fun mid =>
      let p := s.weight_tree.ancestor_at parent_0 mid
      let gp := (s.node p).parent
      total_weight - (s.node gp).past_era_weight - s.block_weight gp false)
    adjusted_beta (high + 2) low high era_height
  let (stable, parentA) :=
    if best ≠ era_height then
      let parent := s.weight_tree.ancestor_at parent_0 best
      let a := s.stable_tree.path_aggregate parent
      let b := total_weight * num
      (!(a < b), parent)
    else (true, parent_0)
  let (adaptive, parentB) :=
    if !stable then
      let best2 := binarySearchBest
        (fun mid =>
          let p := s.weight_tree.ancestor_at parent_0 mid
          let gp := (s.node p).parent
          s.weight_tree.get gp)
        adjusted_beta (high + 2) low high era_height
      if best2 ≠ era_height then
        let parent := s.weight_tree.ancestor_at parent_0 best2
        (decide (s.adaptive_tree.path_aggregate parent < 0), parent)
      else (false, parent_0)
    else (false, parentA)
  let adaptive :=
    if !adaptive then
      let best3 := binarySearchBest
        (fun mid =>
          let p := s.inclusive_weight_tree.ancestor_at parentB mid
          let gp := (s.node p).parent
          s.inclusive_weight_tree.get gp)
        adjusted_beta (era_height + 2) (two_era_height + 1) era_height
        two_era_height
      if best3 ≠ two_era_height then
        decide (s.inclusive_adaptive_tree.path_aggregate
          (s.inclusive_weight_tree.ancestor_at parentB best3) < 0)
      else adaptive
    else adaptive
  (stable, adaptive)

/-- `ConsensusGraphInner::adaptive_weight_impl`
(consensus/mod.rs lines 595-815).  With `weight_tuple = some _` it delegates
to the brute-force variant (tree state untouched); otherwise it subtracts the
anticone-barrier contributions, runs the queries, and restores the trees.
The brute-force loops receive fuel `s.arena.length + 1`. -/
def adaptive_weight_impl (s : ConsensusGraphInner) (parent_0 : Nat)
    (anticone_barrier : List Nat)
    (weight_tuple : Option (List Int × List Int × List Int))
    (difficulty : Int) : (Option (Bool × Bool)) × ConsensusGraphInner :=
  match weight_tuple with
  | some (sw, siw, ssw) =>
    (adaptive_weight_impl_brutal s parent_0 sw siw ssw difficulty
      (s.arena.length + 1), s)
  | none =>
    let (wd, iwd, swd) := barrierDeltas s anticone_barrier
    let s := subtractDeltas s wd iwd swd
    let result := adaptiveWeightQueries s parent_0 difficulty
    let s := restoreDeltas s wd iwd swd
    (some result, s)

/-- `ConsensusGraphInner::adaptive_weight` (consensus/mod.rs lines 817-833). -/
def adaptive_weight (s : ConsensusGraphInner) (me : Nat)
    (anticone_barrier : List Nat)
    (weight_tuple : Option (List Int × List Int × List Int)) :
    (Option (Bool × Bool)) × ConsensusGraphInner :=
  let parent := (s.node me).parent
  let difficulty := ((s.node me).difficulty : Int)
  adaptive_weight_impl s parent anticone_barrier weight_tuple difficulty

/-!  ## `check_correct_parent` (consensus/mod.rs lines 1008-1129) -/

/-- The body of the pivot-selection check for one epoch-set member, shared by
`check_correct_parent` and its brutal variant (lines 1018-1054 and
1086-1122): returns `false` when `x` witnesses an incorrect parent choice.
`subtreeWeightOf` supplies the subtree weight of a node. -/
def parentCheckOne (s : ConsensusGraphInner) (parent era_height : Nat)
    (subtreeWeightOf : Nat → Int) (x : Nat) : Bool :=
  if (s.node x).data.partial_invalid then true
  else
    let lca := s.weight_tree.lca x parent
    if (s.node lca).height < era_height then true
    else if lca = parent then false
    else
      let fork := s.weight_tree.ancestor_at x ((s.node lca).height + 1)
      let pivot := s.weight_tree.ancestor_at parent ((s.node lca).height + 1)
      !(is_heavier (subtreeWeightOf fork, (s.node fork).hash)
          (subtreeWeightOf pivot, (s.node pivot).hash))

/-- `ConsensusGraphInner::check_correct_parent_brutal`
(consensus/mod.rs lines 1008-1057). -/
def check_correct_parent_brutal (s : ConsensusGraphInner) (me : Nat)
    (subtree_weight : List Int) : Bool :=
  let parent := (s.node me).parent
  let era_height := get_era_height (s.node parent).height 0
  ((s.node me).data.blockset_in_own_view_of_epoch).all
    (parentCheckOne s parent era_height (fun i => subtree_weight.getD i 0))

/-- `ConsensusGraphInner::check_correct_parent`
(consensus/mod.rs lines 1059-1129): with a weight tuple it delegates to the
brutal variant; otherwise it removes the anticone-barrier weights from the
weight tree, checks every member of the epoch set, and restores the tree. -/
def check_correct_parent (s : ConsensusGraphInner) (me : Nat)
    (anticone_barrier : List Nat)
    (weight_tuple : Option (List Int × List Int × List Int)) :
    Bool × ConsensusGraphInner :=
  match weight_tuple with
  | some (sw, _, _) => (check_correct_parent_brutal s me sw, s)
  | none =>
    let parent := (s.node me).parent
    let era_height := get_era_height (s.node parent).height 0
    let weight_delta := anticone_barrier.map (fun i => (i, s.weight_tree.get i))
    let s := weight_delta.foldl
      (fun s p => { s with weight_tree := s.weight_tree.path_apply p.1 (-p.2) })
      s
    let valid := ((s.node me).data.blockset_in_own_view_of_epoch).all
      (parentCheckOne s parent era_height s.weight_tree.get)
    let s := weight_delta.foldl
      (fun s p => { s with weight_tree := s.weight_tree.path_apply p.1 p.2 })
      s
    (valid, s)

/-!  ## Difficulty management (consensus/mod.rs lines 1503-1566) -/

/-- The `while self.arena[cur].height > last_period_upper` walk of
`expected_difficulty` (lines 1516-1519). -/
def walkToHeight (s : ConsensusGraphInner) (last_period_upper : Nat) :
    Nat → Nat → Nat
  | 0, cur => cur
  | fuel + 1, cur =>
    if (s.node cur).height > last_period_upper then
      walkToHeight s last_period_upper fuel (s.node cur).parent
    else cur

/-- `ConsensusGraphInner::expected_difficulty`
(consensus/mod.rs lines 1503-1534). -/
def expected_difficulty (s : ConsensusGraphInner) (parent_hash : Nat) : Nat :=
  let parent_index := (s.indexOfHash parent_hash).getD NULL
  let parent_epoch := (s.node parent_index).height
  if parent_epoch < s.pow_config.difficulty_adjustment_epoch_period then
    s.pow_config.initial_difficulty
  else
    let last_period_upper := parent_epoch
      / s.pow_config.difficulty_adjustment_epoch_period
      * s.pow_config.difficulty_adjustment_epoch_period
    if last_period_upper ≠ parent_epoch then (s.node parent_index).difficulty
    else
      let cur := walkToHeight s last_period_upper (s.arena.length + 1)
        parent_index
      s.pow_config.target_difficulty (s.node cur).hash

/-- `ConsensusGraphInner::adjust_difficulty`
(consensus/mod.rs lines 1536-1566).  The source asserts
`current_difficulty == new_best_difficulty` when the pivot chain was
prolonged; the assertion is a debug check and does not alter the state. -/
def adjust_difficulty (s : ConsensusGraphInner) (new_best_index : Nat) :
    ConsensusGraphInner :=
  let new_best_hash := (s.node new_best_index).hash
  let new_best_difficulty := (s.node new_best_index).difficulty
  let epoch := (s.node new_best_index).height
  if epoch = 0 then
    { s with current_difficulty := s.pow_config.initial_difficulty }
  else if epoch = epoch / s.pow_config.difficulty_adjustment_epoch_period
      * s.pow_config.difficulty_adjustment_epoch_period then
    { s with current_difficulty := s.pow_config.target_difficulty new_best_hash }
  else { s with current_difficulty := new_best_difficulty }

/-!  ## `with_genesis_block` (consensus/mod.rs lines 296-389) -/

/-- `ConsensusGraphInner::with_genesis_block`: the initial consensus state.
The genesis block is inserted with `insert` (its `past_weight` stays 0), the
three weight trees get the genesis difficulty, the three query trees get 0,
genesis is assigned epoch 0 and becomes the whole pivot chain. -/
def with_genesis_block (pow_config : ProofOfWorkConfig)
    (inner_conf : ConsensusInnerConfig) (genesis : Block) :
    ConsensusGraphInner :=
  let s0 : ConsensusGraphInner :=
    { arena := []
      indices := []
      pivot_chain := []
      pivot_chain_metadata := []
      terminal_hashes := []
      genesis_block_index := NULL
      genesis_block_state_root := genesis.deferred_state_root
      genesis_block_receipts_root := genesis.deferred_receipts_root
      weight_tree := MinLinkCutTree.new
      inclusive_weight_tree := MinLinkCutTree.new
      stable_weight_tree := MinLinkCutTree.new
      stable_tree := MinLinkCutTree.new
      adaptive_tree := MinLinkCutTree.new
      inclusive_adaptive_tree := MinLinkCutTree.new
      pow_config := pow_config
      current_difficulty := pow_config.initial_difficulty
      optimistic_executed_height := none
      inner_conf := inner_conf
      anticone_cache := []
      sequence_number_of_block_entrance := 0 }
  let (s, genesis_index, _) := s0.insert genesis
  let s := { s with genesis_block_index := genesis_index }
  let d := (genesis.difficulty : Int)
  let s := { s with weight_tree :=
    (s.weight_tree.make_tree genesis_index).path_apply genesis_index d }
  let s := { s with inclusive_weight_tree :=
    (s.inclusive_weight_tree.make_tree genesis_index).path_apply genesis_index d }
  let s := { s with stable_weight_tree :=
    (s.stable_weight_tree.make_tree genesis_index).path_apply genesis_index d }
  let s := { s with stable_tree :=
    (s.stable_tree.make_tree genesis_index).set genesis_index 0 }
  let s := { s with adaptive_tree :=
    (s.adaptive_tree.make_tree genesis_index).set genesis_index 0 }
  let s := { s with inclusive_adaptive_tree :=
    (s.inclusive_adaptive_tree.make_tree genesis_index).set genesis_index 0 }
  let s := s.setNode genesis_index
    (fun nd => { nd with data := { nd.data with epoch_number := 0 } })
  let s := { s with
    pivot_chain := [genesis_index]
    pivot_chain_metadata := [[genesis_index]] }
  { s with anticone_cache := cacheUpdate s.anticone_cache 0 [] }

end ConsensusGraphInner

/-!  ## The `ConsensusGraph` layer (consensus/mod.rs lines 1965-3436) -/

/-- `ConsensusConfig` (consensus/mod.rs lines 105-116), without the debug
dump directory. -/
structure ConsensusConfig where
  bench_mode : Bool
  inner_conf : ConsensusInnerConfig

/-- `FinalityManager` (consensus/mod.rs lines 1944-1947).  Risks are modelled
as exact rationals, see `MIN_MAINTAINED_RISK`. -/
structure FinalityManager where
  lowest_epoch_num : Nat
  risks_less_than : List ℚ

/-- `TotalWeightInPast` (consensus/mod.rs lines 1949-1953). -/
structure TotalWeightInPast where
  old : Int
  cur : Int
  delta : Int

/-- The facets of the external `BlockDataManager` / storage / executor that
`check_block_full_validity` consults for deferred state roots (they are
external collaborators, spec section 6): whether a state is committed for a
hash, the cached receipts root of a hash, the committed state root of a hash,
and the `(state_root, receipts_root)` that `compute_state_for_block` would
produce for a hash. -/
structure DataManager where
  contains_state : Nat → Bool
  get_receipts_root : Nat → Option Nat
  state_root_of : Nat → Nat
  compute_state_for_block : Nat → Nat × Nat

/-- `ConsensusGraph` (consensus/mod.rs lines 1965-1975); `executionTasks`
records the `(pivot hash, ordered epoch hashes)` of every
`EpochExecutionTask` handed to the external executor, newest last. -/
structure ConsensusGraph where
  conf : ConsensusConfig
  inner : ConsensusGraphInner
  finality_manager : FinalityManager
  total_weight_in_past_2d : TotalWeightInPast
  data_man : DataManager
  executionTasks : List (Nat × List Nat)

namespace ConsensusGraph

/-- `ConsensusGraph::aggregate_total_weight_in_past`
(consensus/mod.rs lines 2080-2083). -/
def aggregate_total_weight_in_past (g : ConsensusGraph) (weight : Int) :
    ConsensusGraph :=
  { g with total_weight_in_past_2d :=
    { g.total_weight_in_past_2d with
      cur := g.total_weight_in_past_2d.cur + weight } }

/-- `ConsensusGraph::get_total_weight_in_past`
(consensus/mod.rs lines 2085-2088). -/
def get_total_weight_in_past (g : ConsensusGraph) : Int :=
  g.total_weight_in_past_2d.delta

/-- `ConsensusGraph::update_lcts_initial`
(consensus/mod.rs lines 2981-3015). -/
def update_lcts_initial (g : ConsensusGraph) (me : Nat) : ConsensusGraph :=
  let s := g.inner
  let parent := (s.node me).parent
  let num := (s.inner_conf.adaptive_weight_alpha_num : Int)
  let s := { s with weight_tree := (s.weight_tree.make_tree me).link parent me }
  let s := { s with inclusive_weight_tree :=
    (s.inclusive_weight_tree.make_tree me).link parent me }
  let s := { s with stable_weight_tree :=
    (s.stable_weight_tree.make_tree me).link parent me }
  let s := { s with stable_tree :=
    (((s.stable_tree.make_tree me).link parent me).set me
      (num * (s.block_weight parent false + (s.node parent).past_era_weight))) }
  let parent_w := s.weight_tree.get parent
  let s := { s with adaptive_tree :=
    (((s.adaptive_tree.make_tree me).link parent me).set me (-parent_w * num)) }
  let parent_iw := s.inclusive_weight_tree.get parent
  let s := { s with inclusive_adaptive_tree :=
    (((s.inclusive_adaptive_tree.make_tree me).link parent me).set me
      (-parent_iw * num)) }
  { g with inner := s }

/-- `ConsensusGraph::update_lcts_finalize`
(consensus/mod.rs lines 3018-3058).  Returns the block weight of `me`. -/
def update_lcts_finalize (g : ConsensusGraph) (me : Nat) (stable : Bool) :
    ConsensusGraph × Int :=
  let s := g.inner
  let parent := (s.node me).parent
  let weight := s.block_weight me false
  let inclusive_weight := s.block_weight me true
  let num := (s.inner_conf.adaptive_weight_alpha_num : Int)
  let den := (s.inner_conf.adaptive_weight_alpha_den : Int)
  let s := { s with weight_tree := s.weight_tree.path_apply me weight }
  let s := { s with inclusive_weight_tree :=
    s.inclusive_weight_tree.path_apply me inclusive_weight }
  let s :=
    if stable then
      { s with stable_weight_tree := s.stable_weight_tree.path_apply me weight }
    else s
  let s := { s with stable_tree := s.stable_tree.path_apply me (den * weight) }
  let s :=
    if stable then
      { s with adaptive_tree := s.adaptive_tree.path_apply me (den * weight) }
    else s
  let s := { s with adaptive_tree :=
    s.adaptive_tree.catepillar_apply parent (-weight * num) }
  let s := { s with inclusive_adaptive_tree :=
    s.inclusive_adaptive_tree.path_apply me (den * inclusive_weight) }
  let s := { s with inclusive_adaptive_tree :=
    s.inclusive_adaptive_tree.catepillar_apply parent (-inclusive_weight * num) }
  ({ g with inner := s }, weight)

/-- `ConsensusGraph::preliminary_check_validity`
(consensus/mod.rs lines 3062-3096). -/
def preliminary_check_validity (g : ConsensusGraph) (me : Nat) : Bool :=
  let s := g.inner
  let last := (s.pivot_chain.getLast? ).getD NULL
  let parent := (s.node me).parent
  if last = parent then true
  else
    let lca := s.weight_tree.lca last me
    let fork_at := (s.node lca).height + 1
    if fork_at ≥ s.pivot_chain.length then true
    else
      let a := s.weight_tree.ancestor_at me fork_at
      let s' := s.pivot_chain.getD fork_at NULL
      let last_pivot := (s.node me).referees.foldl
        (fun l referee => max l (s.node referee).last_pivot_in_past)
        (s.node parent).last_pivot_in_past
      let total_weight := s.weight_tree.get s.genesis_block_index
      let before_last_epoch_weight :=
        (s.node (s.pivot_chain.getD last_pivot NULL)).past_weight
      let subtree_s_weight := s.weight_tree.get s'
      let lower_bound_s_weight :=
        before_last_epoch_weight + subtree_s_weight - total_weight
      if lower_bound_s_weight < 0 then true
      else
        let estimate_weight := s.block_weight me false
        let upper_bound_a_weight := s.weight_tree.get a + estimate_weight
        upper_bound_a_weight ≥ lower_bound_s_weight

/-- The `deferred` walk of `check_block_full_validity` (lines 2658-2661):
follow the parent pointer `DEFERRED_STATE_EPOCH_COUNT` times. -/
def deferredAncestor (s : ConsensusGraphInner) (new : Nat) : Nat :=
  (List.range DEFERRED_STATE_EPOCH_COUNT).foldl
    (fun deferred _ => (s.node deferred).parent) new

/-- `ConsensusGraph::check_block_full_validity`
(consensus/mod.rs lines 2599-2742).  `check_correct_parent` temporarily
mutates the weight tree, so the (restored) state is threaded through. -/
def check_block_full_validity (g : ConsensusGraph) (new : Nat) (block : Block)
    (adaptive : Bool) (anticone_barrier : List Nat)
    (weight_tuple : Option (List Int × List Int × List Int)) :
    Bool × ConsensusGraph :=
  let s := g.inner
  let parent := (s.node new).parent
  if (s.node parent).data.partial_invalid then (false, g)
  else
    let (parentOk, s) := s.check_correct_parent new anticone_barrier weight_tuple
    let g := { g with inner := s }
    if !parentOk then (false, g)
    else if (s.node new).difficulty ≠ s.expected_difficulty (s.node parent).hash
    then (false, g)
    else if !g.conf.bench_mode ∧ (s.node new).adaptive ≠ adaptive then (false, g)
    else
      let state_root_valid :=
        if block.height < DEFERRED_STATE_EPOCH_COUNT then
          block.deferred_state_root = s.genesis_block_state_root
            ∧ block.deferred_receipts_root = s.genesis_block_receipts_root
        else
          let deferred := deferredAncestor s new
          let deferred_hash := (s.node deferred).hash
          let correct_receipts_root := g.data_man.get_receipts_root deferred_hash
          if g.data_man.contains_state deferred_hash
              ∧ correct_receipts_root.isSome then
            block.deferred_state_root = g.data_man.state_root_of deferred_hash
              ∧ block.deferred_receipts_root = correct_receipts_root.getD 0
          else
            let (state_root, receipts_root) :=
              g.data_man.compute_state_for_block deferred_hash
            block.deferred_state_root = state_root
              ∧ block.deferred_receipts_root = receipts_root
      (state_root_valid, g)

end ConsensusGraph

/-- `get_epoch_block_hashes` (consensus/mod.rs lines 452-459). -/
def get_epoch_block_hashes (s : ConsensusGraphInner) (epoch_index : Nat) :
    List Nat :=
  ((s.node epoch_index).data.ordered_epoch_blocks).map (fun idx => (s.node idx).hash)

/-- The heaviest-child selection of the pivot walk-down loops
(consensus/mod.rs lines 2812-2825 and 3255-3271): fold over the children,
keeping the first child and replacing it whenever a later child `is_heavier`.
Returns `NULL` when there are no children. -/
def heaviestChild (s : ConsensusGraphInner) (u : Nat) : Nat :=
  ((s.node u).children.foldl
    (fun (acc : Nat × Int) index =>
      let weight := s.weight_tree.get index
      if acc.1 = NULL
          || ConsensusGraphInner.is_heavier (weight, (s.node index).hash)
              (acc.2, (s.node acc.1).hash) then
        (index, weight)
      else acc)
    (NULL, 0)).1

/-- The pivot walk-down `loop` (consensus/mod.rs lines 3252-3276): starting
from `u`, repeatedly append the current node and descend to its heaviest
child until a childless node is reached. -/
def pivotWalkdown (s : ConsensusGraphInner) :
    Nat → Nat → List Nat → List Nat
  | 0, _, acc => acc
  | fuel + 1, u, acc =>
    let acc := acc ++ [u]
    let heaviest := heaviestChild s u
    if heaviest = NULL then acc
    else pivotWalkdown s fuel heaviest acc

/-- The epoch-clearing BFS of `on_new_block` (consensus/mod.rs lines
3286-3311): from the old pivot tip, reset to `NULL` the epoch number of every
backward-reachable block whose epoch number is at least `fork_at`. -/
def clearObsoleteLoop (fork_at : Nat) :
    Nat → ConsensusGraphInner → List Nat → ConsensusGraphInner
  | 0, s, _ => s
  | fuel + 1, s, queue =>
    match queue with
    | [] => s
    | me :: queue =>
      let step := fun (acc : ConsensusGraphInner × List Nat) (index : Nat) =>
        let epoch_number := (acc.1.node index).data.epoch_number
        if epoch_number ≠ NULL ∧ epoch_number ≥ fork_at then
          (acc.1.setNode index (fun nd =>
            { nd with data := { nd.data with epoch_number := NULL } }),
           acc.2 ++ [index])
        else acc
      let (s, queue) := (s.node me).referees.foldl step (s, queue)
      let (s, queue) := step (s, queue) (s.node me).parent
      clearObsoleteLoop fork_at fuel s queue

/-- The epoch-assignment BFS of `on_new_block` (consensus/mod.rs lines
3319-3352): from one pivot block, stamp `copy_of_fork_at` as the epoch number
of every backward-reachable block whose epoch number is still `NULL`. -/
def assignEpochBfs (copy_of_fork_at : Nat) :
    Nat → ConsensusGraphInner → List Nat → ConsensusGraphInner
  | 0, s, _ => s
  | fuel + 1, s, queue =>
    match queue with
    | [] => s
    | me :: queue =>
      let enqueue_if_new := fun (acc : ConsensusGraphInner × List Nat) (index : Nat) =>
        if (acc.1.node index).data.epoch_number = NULL then
          (acc.1.setNode index (fun nd =>
            { nd with data := { nd.data with epoch_number := copy_of_fork_at } }),
           acc.2 ++ [index])
        else acc
      let (s, queue) := (s.node me).referees.foldl enqueue_if_new (s, queue)
      let (s, queue) := enqueue_if_new (s, queue) (s.node me).parent
      assignEpochBfs copy_of_fork_at fuel s queue

/-- Seed of `assignEpochBfs`: the `enqueue_if_new` call on the pivot block
itself (lines 3333-3338). -/
def assignEpochAt (s : ConsensusGraphInner) (pivot_index : Nat) :
    ConsensusGraphInner :=
  let start := s.pivot_chain.getD pivot_index NULL
  if (s.node start).data.epoch_number = NULL then
    let s := s.setNode start (fun nd =>
      { nd with data := { nd.data with epoch_number := pivot_index } })
    assignEpochBfs pivot_index (s.arena.length + 1) s [start]
  else s

/-- The `while pivot_index < inner.pivot_chain.len()` epoch-construction loop
(lines 3316-3354). -/
def assignEpochsFrom (s : ConsensusGraphInner) (fork_at : Nat) :
    ConsensusGraphInner :=
  ((List.range s.pivot_chain.length).filter (fun i => fork_at ≤ i)).foldl
    assignEpochAt s

/-- `resize_with(n, Default::default)` on the pivot metadata. -/
def resizeMetadata (l : List (List Nat)) (n : Nat) : List (List Nat) :=
  if l.length ≥ n then l.take n
  else l ++ List.replicate (n - l.length) []

namespace ConsensusGraph

/-- Phase one of `recompute_metadata` (consensus/mod.rs lines 2750-2763):
refresh the pivot positions from `start_at` on and drop them from
`to_update`. -/
def recomputeMetadataPivotPhase (s : ConsensusGraphInner) (start_at : Nat)
    (to_update : List Nat) : ConsensusGraphInner × List Nat :=
  let md0 := resizeMetadata s.pivot_chain_metadata s.pivot_chain.length
  let s := { s with pivot_chain_metadata := md0 }
  ((List.range s.pivot_chain.length).filter (fun i => start_at ≤ i)).foldl
    (fun (acc : ConsensusGraphInner × List Nat) i =>
      let (s, to_update) := acc
      let me := s.pivot_chain.getD i NULL
      let s := s.setNode me (fun nd => { nd with last_pivot_in_past := i })
      let s := { s with pivot_chain_metadata :=
        s.pivot_chain_metadata.set i [me] }
      (s, to_update.erase me))
    (s, to_update)

/-- The stage-stack DFS of `recompute_metadata` (consensus/mod.rs lines
2764-2795): recompute `last_pivot_in_past` bottom-up over the `to_update`
set. -/
def recomputeMetadataStack (to_visit : List Nat) :
    Nat → ConsensusGraphInner → List (Nat × Nat) → List Nat →
    ConsensusGraphInner
  | 0, s, _, _ => s
  | fuel + 1, s, stack, to_update =>
    match stack with
    | [] => s
    | (stage, me) :: stack =>
      if me ∉ to_visit then
        recomputeMetadataStack to_visit fuel s stack to_update
      else
        let parent := (s.node me).parent
        if stage = 0 then
          if me ∈ to_update then
            let to_update := to_update.erase me
            let stack := (1, me) :: (0, parent) ::
              ((s.node me).referees.map (fun r => (0, r))) ++ stack
            recomputeMetadataStack to_visit fuel s stack to_update
          else recomputeMetadataStack to_visit fuel s stack to_update
        else if stage = 1 ∧ me ≠ 0 then
          let last_pivot := (s.node me).referees.foldl
            (fun l referee => max l (s.node referee).last_pivot_in_past)
            (s.node parent).last_pivot_in_past
          let s := s.setNode me (fun nd => { nd with last_pivot_in_past := last_pivot })
          let md := s.pivot_chain_metadata.set last_pivot
            (slInsert (s.pivot_chain_metadata.getD last_pivot []) me)
          let s := { s with pivot_chain_metadata := md }
          recomputeMetadataStack to_visit fuel s stack to_update
        else recomputeMetadataStack to_visit fuel s stack to_update

/-- `ConsensusGraph::recompute_metadata` (consensus/mod.rs lines 2745-2796). -/
def recompute_metadata (s : ConsensusGraphInner) (start_at : Nat)
    (to_update : List Nat) : ConsensusGraphInner :=
  let (s, to_update) := recomputeMetadataPivotPhase s start_at to_update
  let to_visit := to_update
  let stack := to_update.map (fun i => (0, i))
  recomputeMetadataStack to_visit
    (4 * s.arena.length * s.arena.length + 2 * s.arena.length + 4) s stack
    to_update

/-- `ConsensusGraph::confirmation_risk` (consensus/mod.rs lines 2090-2157).
All weights involved are nonnegative in reachable states and the source
clamps the subtractions, so the truncated `i128` divisions coincide with the
integer divisions used here. -/
def confirmation_risk (s : ConsensusGraphInner) (w_0 w_4 : Int)
    (epoch_num : Nat) : ℚ :=
  let idx := s.pivot_chain.getD epoch_num NULL
  let w_1 := s.block_weight idx false
  let parent := (s.node idx).parent
  let w_2 := (s.node parent).children.foldl
    (fun max_weight child =>
      if child = idx ∨ (s.node child).data.partial_invalid then max_weight
      else
        let child_weight := s.block_weight child false
        if child_weight > max_weight then child_weight else max_weight)
    0
  let w_3 := (s.node idx).past_weight
  let d := (s.current_difficulty : Int)
  let w_2_4 := w_2 + w_4
  let n := if w_1 ≥ w_2_4 then w_1 - w_2_4 else 0
  let n := n / d + 1
  let m := if w_0 ≥ w_3 then w_0 - w_3 else 0
  let m := m / d
  let m_2 := 2 * m
  let e_1 := m_2 / 5
  let e_2 := m_2 / 7
  let n_min_1 := e_1 + 13
  let n_min_2 := e_2 + 36
  let n_min := if n_min_1 < n_min_2 then n_min_1 else n_min_2
  if n ≤ n_min then (9 : ℚ) / 10
  else
    let n_min_1 := e_1 + 19
    let n_min_2 := e_2 + 57
    let n_min := if n_min_1 < n_min_2 then n_min_1 else n_min_2
    if n ≤ n_min then (1 : ℚ) / 10000
    else (1 : ℚ) / 1000000

/-- The `while epoch_num > 0 && count < MAX_NUM_MAINTAINED_RISK` loop of
`update_confirmation_risks` (lines 2168-2176).  Returns the final
`(epoch_num, risks)`. -/
def riskLoop (s : ConsensusGraphInner) (w_0 w_4 : Int) :
    Nat → Nat → Nat → List ℚ → Nat × List ℚ
  | 0, epoch_num, _, risks => (epoch_num, risks)
  | fuel + 1, epoch_num, count, risks =>
    if epoch_num > 0 ∧ count < MAX_NUM_MAINTAINED_RISK then
      let risk := confirmation_risk s w_0 w_4 epoch_num
      if risk ≤ MIN_MAINTAINED_RISK then (epoch_num, risks)
      else riskLoop s w_0 w_4 fuel (epoch_num - 1) (count + 1) (risk :: risks)
    else (epoch_num, risks)

/-- `ConsensusGraph::update_confirmation_risks`
(consensus/mod.rs lines 2159-2188). -/
def update_confirmation_risks (g : ConsensusGraph) (w_4 : Int) :
    ConsensusGraph :=
  let s := g.inner
  if s.pivot_chain.length > DEFERRED_STATE_EPOCH_COUNT then
    let w_0 := s.weight_tree.get s.genesis_block_index
    let epoch_num := s.pivot_chain.length - DEFERRED_STATE_EPOCH_COUNT
    let (epoch_num, risks) := riskLoop s w_0 w_4
      (MAX_NUM_MAINTAINED_RISK + 1) epoch_num 0 []
    let epoch_num := if risks.isEmpty then 0 else epoch_num + 1
    { g with finality_manager :=
      { lowest_epoch_num := epoch_num, risks_less_than := risks } }
  else g

/-- The pivot-chain update step of `on_new_block` (consensus/mod.rs lines
3231-3283), entered only for fully valid blocks: either extend the chain by
`me`, or compare the forked subtrees at the LCA and reorganize by the
heaviest-child walk.  Returns `(state, fork_at, extend_pivot)`. -/
def pivotChainUpdate (s : ConsensusGraphInner) (me : Nat)
    (old_pivot_chain_len : Nat) : ConsensusGraphInner × Nat × Bool :=
  let last := (s.pivot_chain.getLast?).getD NULL
  if (s.node me).parent = last then
    let s := { s with
      pivot_chain := s.pivot_chain ++ [me]
      pivot_chain_metadata := s.pivot_chain_metadata ++ [[]] }
    (s, old_pivot_chain_len, true)
  else
    let lca := s.weight_tree.lca last me
    let fork_at := (s.node lca).height + 1
    let prev := s.pivot_chain.getD fork_at NULL
    let prev_weight := s.weight_tree.get prev
    let new := s.weight_tree.ancestor_at me fork_at
    let new_weight := s.weight_tree.get new
    if ConsensusGraphInner.is_heavier (new_weight, (s.node new).hash)
        (prev_weight, (s.node prev).hash) then
      let s := { s with pivot_chain := s.pivot_chain.take fork_at }
      let chain := pivotWalkdown s (s.arena.length + 1) new []
      let s := { s with pivot_chain := s.pivot_chain ++ chain }
      (s, fork_at, false)
    else (s, old_pivot_chain_len, false)

/-- The deferred-execution enqueue loop of `on_new_block` (lines 3409-3424):
for every settled pivot position, record the `EpochExecutionTask` handed to
the external executor (its pivot hash and ordered epoch hashes; the reward
info is built from external block data and flows only to the executor). -/
def enqueueTasks (g : ConsensusGraph) (state_at to_state_pos : Nat) :
    ConsensusGraph :=
  ((List.range to_state_pos).filter (fun i => state_at ≤ i)).foldl
    (fun g i =>
      let epoch_index := g.inner.pivot_chain.getD i NULL
      { g with executionTasks := g.executionTasks ++
        [((g.inner.node epoch_index).hash, get_epoch_block_hashes g.inner epoch_index)] })
    g

/-- The metadata step of `on_new_block` (lines 3357-3382), run for valid and
partially invalid blocks alike. -/
def onNewBlockMetadata (g : ConsensusGraph) (me fork_at old_pivot_chain_len : Nat)
    (extend_pivot : Bool) : ConsensusGraph :=
  if !extend_pivot then
    let update_at := fork_at - 1
    let last_pivot_to_update :=
      ((List.range old_pivot_chain_len).filter (fun i => update_at ≤ i)).foldl
        (fun acc i =>
          (g.inner.pivot_chain_metadata.getD i []).foldl slInsert acc)
        [me]
    { g with inner := recompute_metadata g.inner fork_at last_pivot_to_update }
  else
    let height := (g.inner.node me).height
    let s := g.inner.setNode me (fun nd => { nd with last_pivot_in_past := height })
    let md := s.pivot_chain_metadata.set height
      (slInsert (s.pivot_chain_metadata.getD height []) me)
    let s := { s with pivot_chain_metadata := md }
    { g with inner := s }

/-- The tail of `on_new_block` for fully valid blocks (lines 3389-3434):
deferred-execution scheduling, difficulty adjustment, confirmation risks and
the optimistic execution height. -/
def onNewBlockTail (g : ConsensusGraph) (fork_at old_pivot_chain_len : Nat) :
    ConsensusGraph :=
  let to_state_pos :=
    if g.inner.pivot_chain.length < DEFERRED_STATE_EPOCH_COUNT then 0
    else g.inner.pivot_chain.length - DEFERRED_STATE_EPOCH_COUNT + 1
  let state_at :=
    if fork_at + DEFERRED_STATE_EPOCH_COUNT > old_pivot_chain_len then
      if old_pivot_chain_len > DEFERRED_STATE_EPOCH_COUNT then
        old_pivot_chain_len - DEFERRED_STATE_EPOCH_COUNT + 1
      else 1
    else fork_at
  let g := enqueueTasks g state_at to_state_pos
  let g := { g with inner :=
    g.inner.adjust_difficulty ((g.inner.pivot_chain.getLast?).getD NULL) }
  let g := update_confirmation_risks g g.get_total_weight_in_past
  let oeh := if to_state_pos > 0 then some to_state_pos else none
  { g with inner := { g.inner with optimistic_executed_height := oeh } }

/-- `ConsensusGraph::on_new_block` (consensus/mod.rs lines 3161-3436), taking
the block itself in place of the `block_by_hash` lookup.  Returns `none` when
the brute-force adaptive-weight computation fails to terminate within its
fuel (it is only entered when the anticone barrier reaches
`ANTICONE_BARRIER_CAP`). -/
def on_new_block (g : ConsensusGraph) (block : Block) : Option ConsensusGraph :=
  let (inner, me, _) := g.inner.insert block
  let (anticone_barrier, inner) := inner.compute_anticone me
  let weight_tuple :=
    if anticone_barrier.length ≥ ANTICONE_BARRIER_CAP then
      some (inner.compute_subtree_weights me anticone_barrier)
    else none
  let g := update_lcts_initial { g with inner := inner } me
  match g.inner.adaptive_weight me anticone_barrier weight_tuple with
  | (none, _) => none
  | (some (stable, adaptive), inner) =>
    let g := { g with inner := inner }
    let (fully_valid, g) :=
      if g.preliminary_check_validity me then
        g.check_block_full_validity me block adaptive anticone_barrier
          weight_tuple
      else (false, g)
    let g :=
      if !fully_valid then
        { g with inner := g.inner.setNode me (fun nd =>
          { nd with data := { nd.data with partial_invalid := true } }) }
      else g
    let g := { g with inner := g.inner.setNode me (fun nd =>
      { nd with stable := stable, adaptive := adaptive }) }
    let old_pivot_chain_len := g.inner.pivot_chain.length
    let last := (g.inner.pivot_chain.getLast?).getD NULL
    let (g, fork_at, extend_pivot) :=
      if fully_valid then
        let (g, my_weight) := g.update_lcts_finalize me stable
        let g := g.aggregate_total_weight_in_past my_weight
        let (inner, fork_at, extend_pivot) :=
          pivotChainUpdate g.inner me old_pivot_chain_len
        let inner :=
          if fork_at < old_pivot_chain_len then
            let (inner, queue) :=
              let epoch_number := (inner.node last).data.epoch_number
              if epoch_number ≠ NULL ∧ epoch_number ≥ fork_at then
                (inner.setNode last (fun nd =>
                  { nd with data := { nd.data with epoch_number := NULL } }),
                 [last])
              else (inner, [])
            clearObsoleteLoop fork_at (inner.arena.length + 1) inner queue
          else inner
        let inner := assignEpochsFrom inner fork_at
        ({ g with inner := inner }, fork_at, extend_pivot)
      else (g, old_pivot_chain_len + 1, false)
    let g := onNewBlockMetadata g me fork_at old_pivot_chain_len extend_pivot
    if !fully_valid then some g
    else some (onNewBlockTail g fork_at old_pivot_chain_len)

end ConsensusGraph

/-!  ## The synchronization graph (sync/synchronization_graph.rs) -/

def BLOCK_INVALID : Nat := 0

def BLOCK_HEADER_ONLY : Nat := 1

def BLOCK_HEADER_PARENTAL_TREE_READY : Nat := 2

def BLOCK_HEADER_GRAPH_READY : Nat := 3

def BLOCK_GRAPH_READY : Nat := 4

/-- The header fields the synchronization graph reads
(`primitives::BlockHeader`). -/
structure SyncBlockHeader where
  hash : Nat
  parent_hash : Nat
  referee_hashes : List Nat
  height : Nat
  timestamp : Nat
  gas_limit : Nat
  difficulty : Nat
deriving Repr, DecidableEq

/-- `SynchronizationGraphNode` (synchronization_graph.rs lines 56-77). -/
structure SynchronizationGraphNode where
  block_header : SyncBlockHeader
  graph_status : Nat
  block_ready : Bool
  parent_reclaimed : Bool
  parent : Nat
  children : List Nat
  referees : List Nat
  pending_referee_count : Nat
  referrers : List Nat
  timestamp : Nat
deriving Repr, DecidableEq

def defaultSyncHeader : SyncBlockHeader :=
  { hash := 0, parent_hash := 0, referee_hashes := [], height := 0
    timestamp := 0, gas_limit := 0, difficulty := 0 }

def defaultSyncNode : SynchronizationGraphNode :=
  { block_header := defaultSyncHeader
    graph_status := BLOCK_INVALID, block_ready := false
    parent_reclaimed := false, parent := NULL, children := [], referees := []
    pending_referee_count := 0, referrers := [], timestamp := 0 }

/-- The parameters of the external `machine::new_machine()` that
`verify_header_graph_ready_block` consults: the gas-limit bound divisor and
the minimum gas limit. -/
structure MachineParams where
  gas_limit_bound_divisor : Nat
  min_gas_limit : Nat

/-- `SynchronizationGraphInner` (synchronization_graph.rs lines 79-91).  The
slab arena can free entries (`remove_blocks`), hence `Option` slots.  The
external `BlockDataManager::block_header_by_hash` lookup used by
`get_parent_and_referee_info` is carried as the oracle
`data_man_header_by_hash`. -/
structure SynchronizationGraphInner where
  arena : List (Option SynchronizationGraphNode)
  indices : List (Nat × Nat)
  genesis_block_index : Nat
  children_by_hash : List (Nat × List Nat)
  referrers_by_hash : List (Nat × List Nat)
  pow_config : ProofOfWorkConfig
  machine_params : MachineParams
  data_man_header_by_hash : Nat → SyncBlockHeader
  not_ready_block_indices : List Nat
  old_era_blocks_frontier : List Nat
  old_era_blocks_frontier_set : List Nat

namespace SynchronizationGraphInner

/-- Arena lookup, `self.arena[i]`. -/
def node (s : SynchronizationGraphInner) (i : Nat) : SynchronizationGraphNode :=
  (s.arena.getD i none).getD defaultSyncNode

/-- Arena entry update. -/
def setNode (s : SynchronizationGraphInner) (i : Nat)
    (f : SynchronizationGraphNode → SynchronizationGraphNode) :
    SynchronizationGraphInner :=
  { s with arena := s.arena.set i (some (f (s.node i))) }

def indexOfHash (s : SynchronizationGraphInner) (h : Nat) : Option Nat :=
  (s.indices.find? (fun p => p.1 = h)).map (·.2)

/-- `Slab::insert`: occupy the first free slot, or grow the slab. -/
def slabInsert (arena : List (Option SynchronizationGraphNode))
    (nd : SynchronizationGraphNode) :
    List (Option SynchronizationGraphNode) × Nat :=
  match arena.findIdx? (fun o => o.isNone) with
  | some i => (arena.set i (some nd), i)
  | none => (arena ++ [some nd], arena.length)

/-- The tail of `insert` and `insert_invalid` (lines 232-249 resp. 306-323):
adopt the pending children and referrers that were waiting for this hash. -/
def adoptPending (s : SynchronizationGraphInner) (hash me : Nat) :
    SynchronizationGraphInner :=
  let s : SynchronizationGraphInner :=
    match (s.children_by_hash.find? (fun p => p.1 = hash)).map (·.2) with
    | some children =>
      let s := children.foldl
        (fun (s : SynchronizationGraphInner) child =>
          s.setNode child (fun nd => { nd with parent := me }))
        s
      let s := s.setNode me (fun nd => { nd with children := children })
      let cbh := s.children_by_hash.filter (fun p => p.1 ≠ hash)
      { s with children_by_hash := cbh }
    | none => s
  match (s.referrers_by_hash.find? (fun p => p.1 = hash)).map (·.2) with
  | some referrers =>
    let s := referrers.foldl
      (fun (s : SynchronizationGraphInner) referrer =>
        s.setNode referrer (fun nd =>
          { nd with referees := nd.referees ++ [me],
                    pending_referee_count := nd.pending_referee_count - 1 }))
      s
    let s := s.setNode me (fun nd => { nd with referrers := referrers })
    let rbh := s.referrers_by_hash.filter (fun p => p.1 ≠ hash)
    { s with referrers_by_hash := rbh }
  | none => s

/-- `SynchronizationGraphInner::insert_invalid`
(synchronization_graph.rs lines 213-252).  `now` stands for the
`SystemTime::now()` reading. -/
def insert_invalid (s : SynchronizationGraphInner) (header : SyncBlockHeader)
    (now : Nat) : SynchronizationGraphInner × Nat :=
  let hash := header.hash
  let (arena, me) := slabInsert s.arena
    { block_header := header, graph_status := BLOCK_INVALID
      block_ready := false, parent_reclaimed := false, parent := NULL
      children := [], referees := [], pending_referee_count := 0
      referrers := [], timestamp := now }
  let s := { s with arena := arena, indices := (hash, me) :: s.indices }
  (adoptPending s hash me, me)

/-- The fresh `SynchronizationGraphNode` built by `insert` (lines 259-277):
genesis headers, recognized by the all-zero parent hash, start `GRAPH_READY`
with `block_ready`; all others start `HEADER_ONLY`. -/
def freshSyncNode (header : SyncBlockHeader) (now : Nat) :
    SynchronizationGraphNode :=
  { block_header := header
    graph_status :=
      if header.parent_hash = zeroHash then BLOCK_GRAPH_READY
      else BLOCK_HEADER_ONLY
    block_ready := header.parent_hash = zeroHash
    parent_reclaimed := false, parent := NULL
    children := [], referees := [], pending_referee_count := 0
    referrers := [], timestamp := now }

/-- The parent-linking step of `insert` (lines 280-291). -/
def insertLinkParent (s : SynchronizationGraphInner) (header : SyncBlockHeader)
    (me : Nat) : SynchronizationGraphInner :=
  if header.parent_hash ≠ zeroHash then
    match s.indexOfHash header.parent_hash with
    | some parent =>
      let s := s.setNode me (fun nd => { nd with parent := parent })
      s.setNode parent (fun nd => { nd with children := nd.children ++ [me] })
    | none =>
      { s with children_by_hash :=
        alAppendEntry s.children_by_hash header.parent_hash me }
  else s

/-- One referee-linking step of `insert` (lines 292-304). -/
def insertRefereeStep (me : Nat) (s : SynchronizationGraphInner)
    (referee_hash : Nat) : SynchronizationGraphInner :=
  match s.indexOfHash referee_hash with
  | some referee =>
    let s := s.setNode me (fun nd => { nd with referees := nd.referees ++ [referee] })
    s.setNode referee (fun nd => { nd with referrers := nd.referrers ++ [me] })
  | none =>
    let s := s.setNode me (fun nd =>
      { nd with pending_referee_count := nd.pending_referee_count + 1 })
    { s with referrers_by_hash :=
      alAppendEntry s.referrers_by_hash referee_hash me }

/-- `SynchronizationGraphInner::insert`
(synchronization_graph.rs lines 255-326): create the node, link the present
parent and referees, record the pending ones, and adopt waiting
children/referrers. -/
def insert (s : SynchronizationGraphInner) (header : SyncBlockHeader)
    (now : Nat) : SynchronizationGraphInner × Nat :=
  let hash := header.hash
  let res := slabInsert s.arena (freshSyncNode header now)
  let me := res.2
  let s := { s with arena := res.1, indices := (hash, me) :: s.indices }
  let s := insertLinkParent s header me
  let s := header.referee_hashes.foldl (insertRefereeStep me) s
  (adoptPending s hash me, me)

/-- `new_to_be_header_parental_tree_ready`
(synchronization_graph.rs lines 330-341). -/
def new_to_be_header_parental_tree_ready (s : SynchronizationGraphInner)
    (index : Nat) : Bool :=
  if (s.node index).graph_status ≥ BLOCK_HEADER_PARENTAL_TREE_READY then false
  else
    let parent := (s.node index).parent
    (s.node index).parent_reclaimed
      || (parent ≠ NULL
          && (s.node parent).graph_status ≥ BLOCK_HEADER_PARENTAL_TREE_READY)

/-- `new_to_be_header_graph_ready` (synchronization_graph.rs lines 343-360). -/
def new_to_be_header_graph_ready (s : SynchronizationGraphInner)
    (index : Nat) : Bool :=
  if (s.node index).graph_status ≥ BLOCK_HEADER_GRAPH_READY then false
  else if (s.node index).pending_referee_count > 0 then false
  else
    let parent := (s.node index).parent
    ((s.node index).parent_reclaimed
      || (parent ≠ NULL
          && (s.node parent).graph_status ≥ BLOCK_HEADER_GRAPH_READY))
      && !((s.node index).referees.any (fun referee =>
          (s.node referee).graph_status < BLOCK_HEADER_GRAPH_READY))

/-- `new_to_be_block_graph_ready` (synchronization_graph.rs lines 362-380). -/
def new_to_be_block_graph_ready (s : SynchronizationGraphInner)
    (index : Nat) : Bool :=
  if !(s.node index).block_ready then false
  else if (s.node index).graph_status ≥ BLOCK_GRAPH_READY then false
  else
    let parent := (s.node index).parent
    (s.node index).graph_status ≥ BLOCK_HEADER_GRAPH_READY
      && ((s.node index).parent_reclaimed
          || (parent ≠ NULL
              && (s.node parent).graph_status ≥ BLOCK_GRAPH_READY))
      && !((s.node index).referees.any (fun referee =>
          (s.node referee).graph_status < BLOCK_GRAPH_READY))

/-- `get_parent_and_referee_info` (synchronization_graph.rs lines 385-448). -/
def get_parent_and_referee_info (s : SynchronizationGraphInner) (index : Nat) :
    Nat × Nat × Nat × Nat × List Nat :=
  let parent := (s.node index).parent
  let pinfo :=
    if parent ≠ NULL then
      let h := (s.node parent).block_header
      (h.height, h.timestamp, h.gas_limit, h.difficulty)
    else
      let h := s.data_man_header_by_hash (s.node index).block_header.parent_hash
      (h.height, h.timestamp, h.gas_limit, h.difficulty)
  let referee_timestamps :=
    if (s.node index).referees.length
        = (s.node index).block_header.referee_hashes.length then
      (s.node index).referees.map (fun referee =>
        (s.node referee).block_header.timestamp)
    else
      let in_mem := (s.node index).referees.map (fun referee =>
        (s.node referee).block_header.hash)
      ((s.node index).referees.map (fun referee =>
        (s.node referee).block_header.timestamp))
        ++ (((s.node index).block_header.referee_hashes.filter
              (fun h => h ∉ in_mem)).map
            (fun h => (s.data_man_header_by_hash h).timestamp))
  (pinfo.1, pinfo.2.1, pinfo.2.2.1, pinfo.2.2.2, referee_timestamps)

end SynchronizationGraphInner

/-- The header-level error taxonomy of `verify_header_graph_ready_block`
(`error::BlockError`); each variant carries the out-of-bounds data of the
source. -/
inductive SyncBlockError where
  | InvalidHeight (expected found : Nat)
  | InvalidTimestamp (lo found : Nat)
  | InvalidGasLimit (lo hi found : Nat)
  | InvalidDifficulty (lo hi found : Nat)
deriving Repr, DecidableEq

namespace SynchronizationGraphInner

/-- `verify_header_graph_ready_block`
(synchronization_graph.rs lines 450-579). -/
def verify_header_graph_ready_block (s : SynchronizationGraphInner)
    (index : Nat) : Except SyncBlockError Unit :=
  let epoch := (s.node index).block_header.height
  let (parent_height, parent_timestamp, parent_gas_limit, parent_difficulty,
      referee_timestamps) := s.get_parent_and_referee_info index
  if parent_height + 1 ≠ epoch then
    Except.error (SyncBlockError.InvalidHeight (parent_height + 1) epoch)
  else
    let my_timestamp := (s.node index).block_header.timestamp
    if parent_timestamp > my_timestamp then
      Except.error (SyncBlockError.InvalidTimestamp parent_timestamp my_timestamp)
    else
      match referee_timestamps.find? (fun rt => rt > my_timestamp) with
      | some rt => Except.error (SyncBlockError.InvalidTimestamp rt my_timestamp)
      | none =>
        let gas_limit_divisor := s.machine_params.gas_limit_bound_divisor
        let min_gas_limit := s.machine_params.min_gas_limit
        let gas_lower := max (parent_gas_limit - parent_gas_limit / gas_limit_divisor)
          min_gas_limit
        let gas_upper := parent_gas_limit + parent_gas_limit / gas_limit_divisor
        let self_gas_limit := (s.node index).block_header.gas_limit
        if self_gas_limit ≤ gas_lower ∨ self_gas_limit ≥ gas_upper then
          Except.error
            (SyncBlockError.InvalidGasLimit gas_lower gas_upper self_gas_limit)
        else
          let my_diff := (s.node index).block_header.difficulty
          let initial_difficulty := s.pow_config.initial_difficulty
          let check :=
            if parent_height < s.pow_config.difficulty_adjustment_epoch_period
            then
              if my_diff ≠ initial_difficulty then
                some (initial_difficulty, initial_difficulty)
              else none
            else
              let last_period_upper := parent_height
                / s.pow_config.difficulty_adjustment_epoch_period
                * s.pow_config.difficulty_adjustment_epoch_period
              if last_period_upper ≠ parent_height then
                if my_diff ≠ parent_difficulty then
                  some (parent_difficulty, parent_difficulty)
                else none
              else
                let (lower, upper) :=
                  s.pow_config.get_adjustment_bound parent_difficulty
                if my_diff < lower ∨ my_diff > upper then some (lower, upper)
                else none
          match check with
          | some (lo, hi) =>
            Except.error (SyncBlockError.InvalidDifficulty lo hi my_diff)
          | none => Except.ok ()

/-- `remove_blocks` (synchronization_graph.rs lines 591-649): unlink and free
every arena entry of the set (the `data_man` removals are external). -/
def remove_blocks (s : SynchronizationGraphInner) (invalid_set : List Nat) :
    SynchronizationGraphInner :=
  invalid_set.foldl
    (fun (s : SynchronizationGraphInner) index =>
      let hash := (s.node index).block_header.hash
      let s := { s with
        not_ready_block_indices := s.not_ready_block_indices.erase index
        old_era_blocks_frontier_set := s.old_era_blocks_frontier_set.erase index }
      let parent := (s.node index).parent
      let s :=
        if parent ≠ NULL then
          s.setNode parent (fun nd =>
            { nd with children := nd.children.filter (fun x => x ≠ index) })
        else s
      let parent_hash := (s.node index).block_header.parent_hash
      let cbh := s.children_by_hash.map
        (fun p => if p.1 = parent_hash then (p.1, p.2.filter (fun x => x ≠ index)) else p)
      let s := { s with children_by_hash := cbh }
      let s := (s.node index).referees.foldl
        (fun (s : SynchronizationGraphInner) referee =>
          s.setNode referee (fun nd =>
            { nd with referrers := nd.referrers.filter (fun x => x ≠ index) }))
        s
      let referee_hashes := (s.node index).block_header.referee_hashes
      let rbh := s.referrers_by_hash.map
        (fun p => if p.1 ∈ referee_hashes then (p.1, p.2.filter (fun x => x ≠ index)) else p)
      let s := { s with referrers_by_hash := rbh }
      let s := (s.node index).children.foldl
        (fun (s : SynchronizationGraphInner) child =>
          s.setNode child (fun nd => { nd with parent := NULL }))
        s
      let s := (s.node index).referrers.foldl
        (fun (s : SynchronizationGraphInner) referrer =>
          s.setNode referrer (fun nd =>
            { nd with referees := nd.referees.filter (fun x => x ≠ index) }))
        s
      { s with
        arena := s.arena.set index none
        indices := s.indices.filter (fun p => p.1 ≠ hash) })
    s

/-- `set_and_propagate_invalid` (synchronization_graph.rs lines 651-676). -/
def set_and_propagate_invalid (s : SynchronizationGraphInner)
    (queue : List Nat) (invalid_set : List Nat) (index : Nat) :
    SynchronizationGraphInner × List Nat × List Nat :=
  let step := fun (acc : SynchronizationGraphInner × List Nat × List Nat) n =>
    let (s, queue, invalid_set) := acc
    if n ∉ invalid_set then
      (s.setNode n (fun nd => { nd with graph_status := BLOCK_INVALID }),
       queue ++ [n], invalid_set ++ [n])
    else acc
  let acc := (s.node index).children.foldl step (s, queue, invalid_set)
  (s.node index).referrers.foldl step acc

end SynchronizationGraphInner

/-- The outcome of the external body verification `verify_block_basic`
(`verification.rs`, an external collaborator): passed, failed on the
transactions root, or failed otherwise.  It is an input to `insert_block`. -/
inductive BodyVerifyOutcome where
  | ok
  | invalidTransactionsRoot
  | otherInvalid
deriving Repr, DecidableEq

/-- `SynchronizationGraph` (synchronization_graph.rs lines 679-689):
`verified_invalid_set` is the `data_man` invalid-block memo (hashes), and
`sent_to_consensus` records, oldest first, every hash handed to the Consensus
worker (the `consensus_sender` channel, or the synchronous
`on_new_block_construction_only` call in construction mode). -/
structure SynchronizationGraph where
  inner : SynchronizationGraphInner
  verified_invalid_set : List Nat
  sent_to_consensus : List Nat

namespace SynchronizationGraph

/-- `process_invalid_blocks` (synchronization_graph.rs lines 581-589):
memoize every member as invalid, then remove them from the graph. -/
def process_invalid_blocks (G : SynchronizationGraph)
    (invalid_set : List Nat) : SynchronizationGraph :=
  let G := invalid_set.foldl
    (fun (G : SynchronizationGraph) index =>
      let vis := slInsert G.verified_invalid_set ((G.inner.node index).block_header.hash)
      { G with verified_invalid_set := vis })
    G
  { G with inner := G.inner.remove_blocks invalid_set }

/-- The `while let Some(index) = queue.pop_front()` loop of `insert_block`
(synchronization_graph.rs lines 1194-1235): propagate invalidity, or promote
to `BLOCK_GRAPH_READY` exactly the nodes satisfying
`new_to_be_block_graph_ready`, handing each promoted hash to the Consensus
worker and exploring its children and referrers. -/
def insertBlockLoop (me : Nat) :
    Nat → SynchronizationGraphInner → List Nat → List Nat → List Nat →
    SynchronizationGraphInner × List Nat × List Nat
  | 0, s, _, invalid_set, sent => (s, invalid_set, sent)
  | fuel + 1, s, queue, invalid_set, sent =>
    match queue with
    | [] => (s, invalid_set, sent)
    | index :: queue =>
      if (s.node index).graph_status = BLOCK_INVALID then
        let invalid_set :=
          if index = me then slInsert invalid_set me else invalid_set
        let (s, queue, invalid_set) :=
          s.set_and_propagate_invalid queue invalid_set index
        insertBlockLoop me fuel s queue invalid_set sent
      else if s.new_to_be_block_graph_ready index then
        let s := s.setNode index (fun nd =>
          { nd with graph_status := BLOCK_GRAPH_READY })
        let s :=
          if (s.node index).parent_reclaimed then
            { s with
              old_era_blocks_frontier := s.old_era_blocks_frontier ++ [index]
              old_era_blocks_frontier_set :=
                slInsert s.old_era_blocks_frontier_set index }
          else s
        let s := { s with not_ready_block_indices :=
          s.not_ready_block_indices.erase index }
        let h := (s.node index).block_header.hash
        let sent := sent ++ [h]
        let queue := queue ++ (s.node index).children ++ (s.node index).referrers
        insertBlockLoop me fuel s queue invalid_set sent
      else insertBlockLoop me fuel s queue invalid_set sent

/-- `SynchronizationGraph::insert_block`
(synchronization_graph.rs lines 1118-1255).  The block body itself only feeds
the external `verify_block_basic` and the external data-manager writes, so it
is represented by its hash together with the verification outcome; returns
`(insert_success, need_to_relay)`. -/
def insert_block (G : SynchronizationGraph) (block_hash : Nat)
    (need_to_verify : Bool) (verify_result : BodyVerifyOutcome)
    (_persistent _sync_graph_only : Bool) :
    (Bool × Bool) × SynchronizationGraph :=
  if block_hash ∈ G.verified_invalid_set then ((false, false), G)
  else
    let contains_block :=
      match G.inner.indexOfHash block_hash with
      | some index => (G.inner.node index).block_ready
      | none => false
    if contains_block then ((true, false), G)
    else
      let me := (G.inner.indexOfHash block_hash).getD NULL
      let inner := G.inner.setNode me (fun nd => { nd with block_ready := true })
      let G := { G with inner := inner }
      match need_to_verify, verify_result with
      | true, BodyVerifyOutcome.invalidTransactionsRoot => ((false, false), G)
      | nv, vr =>
        let G :=
          if nv ∧ vr = BodyVerifyOutcome.otherInvalid then
            { G with inner := G.inner.setNode me (fun nd =>
              { nd with graph_status := BLOCK_INVALID }) }
          else G
        let insert_success := (G.inner.node me).graph_status ≠ BLOCK_INVALID
        let (inner, invalid_set, sent) := insertBlockLoop me
          (4 * G.inner.arena.length * G.inner.arena.length
            + 2 * G.inner.arena.length + 4)
          G.inner [me] [] []
        let G := { G with
          inner := inner
          sent_to_consensus := G.sent_to_consensus ++ sent }
        let need_to_relay :=
          (G.inner.node me).graph_status ≥ BLOCK_HEADER_GRAPH_READY
        let G := G.process_invalid_blocks invalid_set
        ((insert_success, need_to_relay), G)

end SynchronizationGraph

/-!  ## The readiness invariant of the synchronization graph

The promotion loop of `insert_block` only ever raises `graph_status` to
`BLOCK_GRAPH_READY` and appends the promoted hash to the consensus channel;
the predicates below capture the states it preserves. -/

namespace SynchronizationGraphInner

/-- The body of the `BLOCK_GRAPH_READY`-promotion branch of the
`insert_block` queue loop (synchronization_graph.rs lines 1210-1226), minus
the send: raise the status, maintain the old-era frontier and the
not-ready set. -/
def promoteAt (s : SynchronizationGraphInner) (index : Nat) :
    SynchronizationGraphInner :=
  let s := s.setNode index (fun nd =>
    { nd with graph_status := BLOCK_GRAPH_READY })
  let s :=
    if (s.node index).parent_reclaimed then
      { s with
        old_era_blocks_frontier := s.old_era_blocks_frontier ++ [index]
        old_era_blocks_frontier_set :=
          slInsert s.old_era_blocks_frontier_set index }
    else s
  { s with not_ready_block_indices := s.not_ready_block_indices.erase index }

/-- Every `BLOCK_GRAPH_READY` node has a ready parent (or no parent at all,
as the genesis, or a reclaimed one) and only ready referees. -/
@[reducible] def ReadyInv (s : SynchronizationGraphInner) : Prop :=
  ∀ x, x < s.arena.length →
    BLOCK_GRAPH_READY ≤ (s.node x).graph_status →
    ((s.node x).parent = NULL ∨ (s.node x).parent_reclaimed = true ∨
      BLOCK_GRAPH_READY ≤ (s.node (s.node x).parent).graph_status) ∧
    ∀ r ∈ (s.node x).referees,
      BLOCK_GRAPH_READY ≤ (s.node r).graph_status

/-- `s` differs from `s0` by status promotions only: same arena footprint,
every per-node field except `graph_status` unchanged, statuses never
lowered. -/
@[reducible] def StatusStep (s0 s : SynchronizationGraphInner) : Prop :=
  s.arena.length = s0.arena.length ∧
  ∀ x, (s0.node x).graph_status ≤ (s.node x).graph_status ∧
    (s.node x).block_header = (s0.node x).block_header ∧
    (s.node x).parent = (s0.node x).parent ∧
    (s.node x).parent_reclaimed = (s0.node x).parent_reclaimed ∧
    (s.node x).referees = (s0.node x).referees ∧
    (s.node x).children = (s0.node x).children ∧
    (s.node x).referrers = (s0.node x).referrers

/-- Every node that is ready in `s` but was not ready in `s0` has had its
hash handed to the Consensus worker during this call. -/
@[reducible] def SentCover (s0 s : SynchronizationGraphInner)
    (sent : List Nat) : Prop :=
  ∀ x, x < s.arena.length →
    BLOCK_GRAPH_READY ≤ (s.node x).graph_status →
    BLOCK_GRAPH_READY ≤ (s0.node x).graph_status ∨
      (s.node x).block_header.hash ∈ sent

/-- Every hash in `sent` names a ready arena node whose parent (unless
reclaimed) and referees were already ready when the loop started or appear
strictly earlier in `sent`: ancestors are handed over first. -/
@[reducible] def SentAncestorsOk (s0 s : SynchronizationGraphInner)
    (sent : List Nat) : Prop :=
  ∀ i, i < sent.length → ∃ x, x < s.arena.length ∧
    sent.getD i 0 = (s.node x).block_header.hash ∧
    BLOCK_GRAPH_READY ≤ (s.node x).graph_status ∧
    ((s.node x).parent_reclaimed = true ∨
      ((s.node x).parent ≠ NULL ∧
        (BLOCK_GRAPH_READY ≤ (s0.node (s.node x).parent).graph_status ∨
          (s.node (s.node x).parent).block_header.hash ∈ sent.take i))) ∧
    ∀ r ∈ (s.node x).referees,
      BLOCK_GRAPH_READY ≤ (s0.node r).graph_status ∨
        (s.node r).block_header.hash ∈ sent.take i

end SynchronizationGraphInner

/-- `ConsensusGraph::confirmation_risk_by_hash`
(consensus/mod.rs lines 1979-2011, the `ConfirmationTrait` impl). -/
def ConsensusGraph.confirmation_risk_by_hash (g : ConsensusGraph) (hash : Nat) :
    Option ℚ :=
  match g.inner.indexOfHash hash with
  | none => none
  | some index =>
    let epoch_num := (g.inner.node index).data.epoch_number
    if epoch_num = NULL then none
    else if epoch_num = 0 then some 0
    else if epoch_num < g.finality_manager.lowest_epoch_num then
      some MIN_MAINTAINED_RISK
    else
      let idx := epoch_num - g.finality_manager.lowest_epoch_num
      if idx < g.finality_manager.risks_less_than.length then
        some (((g.finality_manager.risks_less_than.take (idx + 1))).foldl
          (fun max_risk risk => if max_risk < risk then risk else max_risk) 0)
      else none

/-!  ## Concrete instances used by the claims

`c3Inner` is the failing input of claim C3: a parent chain of length
`ERA_EPOCH_COUNT + 1` (heights 0 .. 10000, so that the current era height is
10000 while the two-era height is 0), difficulty 1 everywhere, and all-zero
subtree-weight vectors (as produced by `compute_subtree_weights` when every
block in the chain is adaptive and non-heavy). -/

def c3Conf : ConsensusInnerConfig :=
  { adaptive_weight_alpha_num := 2, adaptive_weight_alpha_den := 3
    adaptive_weight_beta := 1000, heavy_block_difficulty_ratio := 240
    enable_optimistic_execution := false }

def c3Pow : ProofOfWorkConfig :=
  { initial_difficulty := 1, difficulty_adjustment_epoch_period := 1000000
    target_difficulty := fun _ => 1, get_adjustment_bound := fun d => (d, d) }

def c3ChainLen : Nat := ERA_EPOCH_COUNT + 1

def c3Node (i : Nat) : ConsensusGraphNode :=
  { defaultConsensusNode with
    hash := i + 1
    height := i
    difficulty := 1
    adaptive := true
    parent := if i = 0 then NULL else i - 1
    children := if i + 1 < c3ChainLen then [i + 1] else []
    data := ConsensusGraphNodeData.new i i i }

/-- A link-cut tree mirroring the `c3Node` parent chain, with all values 0. -/
def c3Tree : MinLinkCutTree :=
  { size := c3ChainLen
    par := fun n => if n = 0 ∨ ¬ n < c3ChainLen then NULL else n - 1
    val := fun _ => 0 }

def c3Inner : ConsensusGraphInner :=
  { arena := (List.range c3ChainLen).map c3Node
    indices := (List.range c3ChainLen).map (fun i => (i + 1, i))
    pivot_chain := List.range c3ChainLen
    pivot_chain_metadata := (List.range c3ChainLen).map (fun i => [i])
    terminal_hashes := [c3ChainLen]
    genesis_block_index := 0
    genesis_block_state_root := 0
    genesis_block_receipts_root := 0
    weight_tree := c3Tree
    inclusive_weight_tree := c3Tree
    stable_weight_tree := c3Tree
    stable_tree := c3Tree
    adaptive_tree := c3Tree
    inclusive_adaptive_tree := c3Tree
    pow_config := c3Pow
    current_difficulty := 1
    optimistic_executed_height := none
    inner_conf := c3Conf
    anticone_cache := []
    sequence_number_of_block_entrance := c3ChainLen }

def c3Zeros : List Int := List.replicate c3ChainLen 0

/-!  ## Concrete synchronization-graph states for exercising `insert` -/

def c9Machine : MachineParams :=
  { gas_limit_bound_divisor := 1024, min_gas_limit := 10000000 }

/-- An empty synchronization graph, as built before the genesis block is
inserted. -/
def c9S : SynchronizationGraphInner :=
  { arena := [], indices := [], genesis_block_index := NULL
    children_by_hash := [], referrers_by_hash := []
    pow_config := c3Pow, machine_params := c9Machine
    data_man_header_by_hash := fun _ => defaultSyncHeader
    not_ready_block_indices := [], old_era_blocks_frontier := []
    old_era_blocks_frontier_set := [] }

/-- A genesis header: its parent hash is the all-zero `H256::default()`. -/
def c9GenesisHeader : SyncBlockHeader :=
  { defaultSyncHeader with hash := 7, parent_hash := 0 }

/-!  ## A concrete two-node sync graph exercising the promotion loop -/

/-- A ready genesis node with one child. -/
def c4Node0 : SynchronizationGraphNode :=
  { defaultSyncNode with
    block_header := { defaultSyncHeader with hash := 21 }
    graph_status := BLOCK_GRAPH_READY
    block_ready := true
    children := [1] }

/-- A header-graph-ready child of the genesis whose body just arrived. -/
def c4Node1 : SynchronizationGraphNode :=
  { defaultSyncNode with
    block_header :=
      { defaultSyncHeader with hash := 22, parent_hash := 21, height := 1 }
    graph_status := BLOCK_HEADER_GRAPH_READY
    block_ready := true
    parent := 0 }

def c4S : SynchronizationGraphInner :=
  { arena := [some c4Node0, some c4Node1]
    indices := [(21, 0), (22, 1)]
    genesis_block_index := 0
    children_by_hash := []
    referrers_by_hash := []
    pow_config := c3Pow
    machine_params := c9Machine
    data_man_header_by_hash := fun _ => defaultSyncHeader
    not_ready_block_indices := [1]
    old_era_blocks_frontier := []
    old_era_blocks_frontier_set := [] }

/-!  ## A concrete two-node sync graph exercising the gas-limit check -/

def c8Machine : MachineParams :=
  { gas_limit_bound_divisor := 1024, min_gas_limit := 1 }

def c8ParentHeader : SyncBlockHeader :=
  { hash := 1, parent_hash := 0, referee_hashes := [], height := 0
    timestamp := 0, gas_limit := 2048000, difficulty := 1 }

/-- The child's gas limit sits exactly at
`parent + parent / gas_limit_bound_divisor = 2048000 + 2000`. -/
def c8ChildHeader : SyncBlockHeader :=
  { hash := 2, parent_hash := 1, referee_hashes := [], height := 1
    timestamp := 5, gas_limit := 2050000, difficulty := 1 }

def c8Node0 : SynchronizationGraphNode :=
  { defaultSyncNode with
    block_header := c8ParentHeader
    graph_status := BLOCK_GRAPH_READY
    block_ready := true
    children := [1] }

def c8Node1 : SynchronizationGraphNode :=
  { defaultSyncNode with
    block_header := c8ChildHeader
    graph_status := BLOCK_HEADER_PARENTAL_TREE_READY
    parent := 0 }

def c8S : SynchronizationGraphInner :=
  { arena := [some c8Node0, some c8Node1], indices := [(1, 0), (2, 1)]
    genesis_block_index := 0, children_by_hash := [], referrers_by_hash := []
    pow_config := c3Pow, machine_params := c8Machine
    data_man_header_by_hash := fun _ => defaultSyncHeader
    not_ready_block_indices := [], old_era_blocks_frontier := []
    old_era_blocks_frontier_set := [] }

/-!  ## A concrete consensus graph with a populated finality window -/

/-- A small consensus arena: five chain nodes, hash `i + 1` at index `i`,
epoch number `i`. -/
def c10Inner : ConsensusGraphInner :=
  { c3Inner with
    arena := (List.range 5).map c3Node
    indices := (List.range 5).map (fun i => (i + 1, i)) }

def c10G : ConsensusGraph :=
  { conf := { bench_mode := false, inner_conf := c3Conf }
    inner := c10Inner
    finality_manager := { lowest_epoch_num := 2, risks_less_than := [1/2, 1/4] }
    total_weight_in_past_2d := { old := 0, cur := 0, delta := 0 }
    data_man :=
      { contains_state := fun _ => true
        get_receipts_root := fun _ => none
        state_root_of := fun _ => 0
        compute_state_for_block := fun _ => (0, 0) }
    executionTasks := [] }

/-!  ## A one-node consensus state and a child block for `insert` -/

def c5S : ConsensusGraphInner :=
  { c3Inner with
    arena := [{ defaultConsensusNode with hash := 10, difficulty := 1 }]
    indices := [(10, 0)]
    pivot_chain := [0]
    pivot_chain_metadata := [[0]] }

def c5Block : Block :=
  { hash := 11, parent_hash := 10, referee_hashes := [], height := 1
    difficulty := 1, pow_quality := 0, adaptive := false
    deferred_state_root := 0, deferred_receipts_root := 0 }

/-!  ## Named forms of the subtract/restore loop bodies

The six loop bodies of `subtractDeltas` / `restoreDeltas` (consensus/mod.rs
lines 634-662 and 784-812) and the two of `check_correct_parent` (lines
1069-1075 and 1123-1127), written as named functions so the cancellation
argument can speak about them.  Each is definitionally equal to the
corresponding anonymous fold body. -/

def subWStep (num den : Int) (s : ConsensusGraphInner) (p : Nat × Int) :
    ConsensusGraphInner :=
  let s := { s with weight_tree := s.weight_tree.path_apply p.1 (-p.2) }
  let s := { s with stable_tree := s.stable_tree.path_apply p.1 (-p.2 * den) }
  let parent := (s.node p.1).parent
  { s with adaptive_tree := s.adaptive_tree.catepillar_apply parent (p.2 * num) }

def subIStep (num den : Int) (s : ConsensusGraphInner) (p : Nat × Int) :
    ConsensusGraphInner :=
  let parent := (s.node p.1).parent
  let s := { s with inclusive_adaptive_tree :=
    s.inclusive_adaptive_tree.catepillar_apply parent (p.2 * num) }
  { s with inclusive_adaptive_tree :=
    s.inclusive_adaptive_tree.path_apply p.1 (-p.2 * den) }

def subSStep (den : Int) (s : ConsensusGraphInner) (p : Nat × Int) :
    ConsensusGraphInner :=
  { s with adaptive_tree := s.adaptive_tree.path_apply p.1 (-p.2 * den) }

def resWStep (num den : Int) (s : ConsensusGraphInner) (p : Nat × Int) :
    ConsensusGraphInner :=
  let s := { s with weight_tree := s.weight_tree.path_apply p.1 p.2 }
  let s := { s with stable_tree := s.stable_tree.path_apply p.1 (p.2 * den) }
  let parent := (s.node p.1).parent
  { s with adaptive_tree := s.adaptive_tree.catepillar_apply parent (-p.2 * num) }

def resIStep (num den : Int) (s : ConsensusGraphInner) (p : Nat × Int) :
    ConsensusGraphInner :=
  let parent := (s.node p.1).parent
  let s := { s with inclusive_adaptive_tree :=
    s.inclusive_adaptive_tree.catepillar_apply parent (-p.2 * num) }
  { s with inclusive_adaptive_tree :=
    s.inclusive_adaptive_tree.path_apply p.1 (p.2 * den) }

def resSStep (den : Int) (s : ConsensusGraphInner) (p : Nat × Int) :
    ConsensusGraphInner :=
  { s with adaptive_tree := s.adaptive_tree.path_apply p.1 (p.2 * den) }

def cpSubStep (s : ConsensusGraphInner) (p : Nat × Int) :
    ConsensusGraphInner :=
  { s with weight_tree := s.weight_tree.path_apply p.1 (-p.2) }

def cpResStep (s : ConsensusGraphInner) (p : Nat × Int) :
    ConsensusGraphInner :=
  { s with weight_tree := s.weight_tree.path_apply p.1 p.2 }

/-!  ## Kahn-invariant vocabulary for `topological_sort` -/

/-- The number of set members not yet emitted that still depend on `y`
(have `y` as parent or referee); the meaning of `num_incoming_edges[y]`. -/
def remDeps (s : ConsensusGraphInner) (index_set done : List Nat) (y : Nat) :
    Nat :=
  (index_set.filter (fun x => x ∉ done
    ∧ ((s.node x).parent = y ∨ y ∈ (s.node x).referees))).length

/-- The loop invariant of `topological_sort`'s Kahn loop: counts agree with
`remDeps`, `candidates` are exactly the unemitted members with no remaining
dependants, the emitted list is a duplicate-free subset of the set closed
under dependants, and emits children before their parents/referees. -/
def TopoInv (s : ConsensusGraphInner) (S : List Nat)
    (N : List (Nat × Nat)) (C R : List Nat) : Prop :=
  (∀ y ∈ S, alGet N y 0 = remDeps s S R y)
  ∧ C.Nodup
  ∧ (∀ c ∈ C, c ∈ S ∧ c ∉ R ∧ remDeps s S R c = 0)
  ∧ (∀ y ∈ S, y ∉ R → remDeps s S R y = 0 → y ∈ C)
  ∧ R.Nodup
  ∧ (∀ a ∈ R, a ∈ S)
  ∧ (∀ a ∈ R, ∀ x ∈ S,
      ((s.node x).parent = a ∨ a ∈ (s.node x).referees) → x ∈ R)
  ∧ R.Pairwise (fun a b =>
      ¬((s.node b).parent = a ∨ a ∈ (s.node b).referees))

/-!  ## A four-block consensus state exercising `topological_sort` ties -/

def c7S : ConsensusGraphInner :=
  { c3Inner with
    arena := [
      { defaultConsensusNode with
        hash := 9
        height := 1
        parent := 3
        difficulty := 1
        data := ConsensusGraphNodeData.new NULL 1 1 },
      { defaultConsensusNode with
        hash := 3
        height := 1
        parent := 3
        difficulty := 1
        data := ConsensusGraphNodeData.new NULL 1 2 },
      { defaultConsensusNode with
        hash := 5
        height := 2
        parent := 3
        referees := [0, 1]
        difficulty := 1
        data := ConsensusGraphNodeData.new NULL 2 3 },
      { defaultConsensusNode with
        hash := 1
        height := 0
        parent := NULL
        difficulty := 1
        data := ConsensusGraphNodeData.new 0 0 0 } ]
    indices := [(9, 0), (3, 1), (5, 2), (1, 3)]
    pivot_chain := [3]
    pivot_chain_metadata := [[3]] }

/-!  ## Reachability vocabulary for the anticone equivalence (claim C2)

Spec-side definitions: the DAG reachability sets that the spec's words
("parent's future set", "backward-reachable", "anticone") denote, built as a
bounded closure iteration, to be compared with the source-side BFS loops. -/

/-- Backward neighbours (parent and referees) of `x`, kept inside the arena. -/
def backNbrB (s : ConsensusGraphInner) (n x : Nat) : List Nat :=
  ((s.node x).parent :: (s.node x).referees).filter (fun y => y < n)

/-- Forward neighbours (children and referrers) of `x`, inside the arena. -/
def fwdNbrB (s : ConsensusGraphInner) (n x : Nat) : List Nat :=
  ((s.node x).children ++ (s.node x).referrers).filter (fun y => y < n)

/-- One closure expansion: add every neighbour of every current member. -/
def expandOnce (nbr : Nat → List Nat) (cur : List Nat) : List Nat :=
  cur.foldl (fun acc x => (nbr x).foldl slInsert acc) cur

/-- `fuel`-fold closure expansion from a single source. -/
def reachList (nbr : Nat → List Nat) : Nat → Nat → List Nat
  | 0, src => [src]
  | fuel + 1, src => expandOnce nbr (reachList nbr fuel src)

/-- The cache-based anticone derivation: the `some`-branch of
`compute_anticone` (consensus/mod.rs lines 1182-1243), verbatim. -/
def cachedAnticone (s : ConsensusGraphInner) (me : Nat)
    (parent_anticone : List Nat) : List Nat :=
  let parent := (s.node me).parent
  let parent_futures :=
    ConsensusGraphInner.futuresLoop s parent me
      (s.arena.length * s.arena.length + 2 * s.arena.length + 2)
      [parent] [] []
  let my_past := ConsensusGraphInner.myPastLoop s me parent_anticone
    parent_futures
    (s.arena.length * s.arena.length + 2 * s.arena.length + 2) [me] []
  let parent_futures := parent_anticone.foldl slInsert parent_futures
  my_past.foldl (fun pf i => pf.erase i) parent_futures

/-- `last_in_pivot` as `compute_anticone_bruteforce` computes it. -/
def lastInPivot (s : ConsensusGraphInner) (me : Nat) : Nat :=
  (s.node me).referees.foldl
    (fun l referee => max l (s.node referee).last_pivot_in_past)
    (s.node (s.node me).parent).last_pivot_in_past

/-- The fork height of `pivotChainUpdate`'s reorganization branch
(`(s.node lca).height + 1` for the lca of the chain tip and `me`). -/
def pivotForkAt (s : ConsensusGraphInner) (me : Nat) : Nat :=
  (s.node (s.weight_tree.lca ((s.pivot_chain.getLast?).getD NULL) me)).height + 1

/-- `new` in `pivotChainUpdate`: the fork-height ancestor of `me`. -/
def pivotNewAncestor (s : ConsensusGraphInner) (me : Nat) : Nat :=
  s.weight_tree.ancestor_at me (pivotForkAt s me)

/-- `prev` in `pivotChainUpdate`: the chain block at the fork height. -/
def pivotPrev (s : ConsensusGraphInner) (me : Nat) : Nat :=
  s.pivot_chain.getD (pivotForkAt s me) NULL

/-- The step function of `heaviestChild`'s fold, named for the proofs. -/
def heaviestFoldStep (s : ConsensusGraphInner) (acc : Nat × Int)
    (index : Nat) : Nat × Int :=
  let weight := s.weight_tree.get index
  if acc.1 = NULL
      || ConsensusGraphInner.is_heavier (weight, (s.node index).hash)
          (acc.2, (s.node acc.1).hash) then
    (index, weight)
  else acc

/-!  ## A concrete consensus graph exercising `on_new_block` -/

def c1PowConfig : ProofOfWorkConfig :=
  { initial_difficulty := 1
    difficulty_adjustment_epoch_period := 10
    target_difficulty := fun _ => 1
    get_adjustment_bound := fun d => (d, d) }

def c1InnerConf : ConsensusInnerConfig :=
  { adaptive_weight_alpha_num := 2
    adaptive_weight_alpha_den := 3
    adaptive_weight_beta := 1000
    heavy_block_difficulty_ratio := 240
    enable_optimistic_execution := false }

def c1Genesis : Block :=
  { hash := 10
    parent_hash := zeroHash
    referee_hashes := []
    height := 0
    difficulty := 1
    pow_quality := 1
    adaptive := false
    deferred_state_root := 100
    deferred_receipts_root := 101 }

/-- A genesis-only consensus graph, built through `with_genesis_block`. -/
def c1G : ConsensusGraph :=
  { conf := { bench_mode := false, inner_conf := c1InnerConf }
    inner := ConsensusGraphInner.with_genesis_block c1PowConfig c1InnerConf
      c1Genesis
    finality_manager := { lowest_epoch_num := 0, risks_less_than := [] }
    total_weight_in_past_2d := { old := 0, cur := 0, delta := 0 }
    data_man :=
      { contains_state := fun _ => false
        get_receipts_root := fun _ => none
        state_root_of := fun _ => 0
        compute_state_for_block := fun _ => (0, 0) }
    executionTasks := [] }

/-- A child of genesis whose `deferred_state_root` disagrees with the genesis
state root, so `check_block_full_validity` rejects it and it is marked
partially invalid. -/
def c1Block : Block :=
  { hash := 7
    parent_hash := 10
    referee_hashes := []
    height := 1
    difficulty := 1
    pow_quality := 1
    adaptive := false
    deferred_state_root := 999
    deferred_receipts_root := 101 }

/-- The consensus graph after `on_new_block` processes `c1Block` on `c1G`. -/
def c1After : ConsensusGraph :=
  (ConsensusGraph.on_new_block c1G c1Block).getD c1G

/-- Two sibling children of genesis, grown on `c1G` for the anticone
equivalence witness. -/
def c2Blocks : List Block :=
  [{ hash := 11
     parent_hash := 10
     referee_hashes := []
     height := 1
     difficulty := 1
     pow_quality := 1
     adaptive := false
     deferred_state_root := 100
     deferred_receipts_root := 101 },
   { hash := 12
     parent_hash := 10
     referee_hashes := []
     height := 1
     difficulty := 1
     pow_quality := 1
     adaptive := false
     deferred_state_root := 100
     deferred_receipts_root := 101 }]

def c2G : ConsensusGraph :=
  c2Blocks.foldl (fun g b => (ConsensusGraph.on_new_block g b).getD g) c1G

/-- A child of block 11; block 12 is in its anticone. -/
def c2Block : Block :=
  { hash := 13
    parent_hash := 11
    referee_hashes := []
    height := 2
    difficulty := 1
    pow_quality := 1
    adaptive := false
    deferred_state_root := 100
    deferred_receipts_root := 101 }

/-- The consensus state right after `insert c2Block`, where `on_new_block`
would call `compute_anticone`. -/
def c2S : ConsensusGraphInner := (c2G.inner.insert c2Block).1

def c2Me : Nat := (c2G.inner.insert c2Block).2.1

/-- The cached anticone of `c2Block`'s parent in `c2S`. -/
def c2PA : List Nat := [2]

/-- The state of `c7S` after `collect_blockset_in_own_view_of_epoch`'s BFS
phase at pivot 2, just before its `topological_sort` call. -/
def c7S1 : ConsensusGraphInner :=
  ConsensusGraphInner.collectLoop 2
    (c7S.arena.length * c7S.arena.length + c7S.arena.length + 1)
    c7S (c7S.node 2).referees (c7S.node 2).referees

/-- The pivot's `blockset_in_own_view_of_epoch` in `c7S1`. -/
def c7Set : List Nat := (c7S1.node 2).data.blockset_in_own_view_of_epoch

/-!  # Theorems -/

/-!  ## Basic state-access lemmas -/

theorem ConsensusGraphInner.node_setNode (s : ConsensusGraphInner) (i j : Nat)
    (f : ConsensusGraphNode → ConsensusGraphNode) :
    (s.setNode i f).node j =
      if i = j ∧ i < s.arena.length then f (s.node i) else s.node j := by
  unfold ConsensusGraphInner.node ConsensusGraphInner.setNode
  by_cases hij : i = j
  · subst hij
    by_cases hlen : i < s.arena.length
    · simp only [List.getD_eq_getElem?_getD, List.getElem?_set_self hlen, hlen,
        and_true, if_true, Option.getD_some]
      congr 1
      unfold ConsensusGraphInner.node
      rw [List.getD_eq_getElem?_getD, List.getElem?_eq_getElem hlen]
    · simp only [List.getD_eq_getElem?_getD, List.getElem?_set, hlen, if_true,
        if_false, and_false, ite_self]
      rw [List.getElem?_eq_none (by omega)]
  · simp [List.getD_eq_getElem?_getD, List.getElem?_set_ne hij, hij]

theorem foldl_preserve {α σ : Type _} (P : σ → Prop) (f : σ → α → σ)
    (hf : ∀ s a, P s → P (f s a)) :
    ∀ (l : List α) (s : σ), P s → P (l.foldl f s) := by
  intro l
  induction l with
  | nil => intro s h; exact h
  | cons a l ih => intro s h; exact ih (f s a) (hf s a h)

theorem sync_node_setNode (s : SynchronizationGraphInner)
    (i j : Nat) (f : SynchronizationGraphNode → SynchronizationGraphNode) :
    (s.setNode i f).node j =
      if i = j ∧ i < s.arena.length then f (s.node i) else s.node j := by
  unfold SynchronizationGraphInner.node SynchronizationGraphInner.setNode
  by_cases hij : i = j
  · subst hij
    by_cases hlen : i < s.arena.length
    · simp only [List.getD_eq_getElem?_getD, List.getElem?_set_self hlen, hlen,
        and_true, if_true, Option.getD_some]
      congr 2
      unfold SynchronizationGraphInner.node
      rw [List.getD_eq_getElem?_getD, List.getElem?_eq_getElem hlen]
    · simp only [List.getD_eq_getElem?_getD, List.getElem?_set, hlen, if_true,
        if_false, and_false, ite_self]
      rw [List.getElem?_eq_none (by omega)]
  · simp [List.getD_eq_getElem?_getD, List.getElem?_set_ne hij, hij]

theorem SynchronizationGraphInner.slabInsert_spec
    (arena : List (Option SynchronizationGraphNode))
    (nd : SynchronizationGraphNode) :
    (SynchronizationGraphInner.slabInsert arena nd).1.getD
        (SynchronizationGraphInner.slabInsert arena nd).2 none = some nd
    ∧ arena.getD (SynchronizationGraphInner.slabInsert arena nd).2 none = none
    ∧ (∀ j, j ≠ (SynchronizationGraphInner.slabInsert arena nd).2 →
        (SynchronizationGraphInner.slabInsert arena nd).1.getD j none
          = arena.getD j none) := by
  unfold SynchronizationGraphInner.slabInsert
  cases hf : arena.findIdx? (fun o => o.isNone) with
  | some i =>
    rw [List.findIdx?_eq_some_iff_findIdx_eq] at hf
    obtain ⟨hlt, hidx⟩ := hf
    have hw : arena.findIdx (fun o => o.isNone) < arena.length := by omega
    have hnone : arena[i].isNone := by
      have := List.findIdx_getElem (w := hw)
      simp only [hidx] at this
      exact this
    refine ⟨?_, ?_, ?_⟩
    · simp [List.getD_eq_getElem?_getD, List.getElem?_set_self hlt]
    · rw [List.getD_eq_getElem?_getD, List.getElem?_eq_getElem hlt]
      simpa [Option.isNone_iff_eq_none] using hnone
    · intro j hj
      simp [List.getD_eq_getElem?_getD, List.getElem?_set_ne (Ne.symm hj)]
  | none =>
    refine ⟨?_, ?_, ?_⟩
    · simp [List.getD_eq_getElem?_getD, List.getElem?_concat_length]
    · rw [List.getD_eq_getElem?_getD, List.getElem?_eq_none (le_refl _)]
      rfl
    · intro j hj
      simp only at hj
      rcases Nat.lt_or_ge j arena.length with h | h
      · rw [List.getD_eq_getElem?_getD, List.getD_eq_getElem?_getD,
          List.getElem?_append_left h]
      · rw [List.getD_eq_getElem?_getD, List.getD_eq_getElem?_getD,
          List.getElem?_eq_none (l := arena) h,
          List.getElem?_eq_none (by simp only [List.length_append,
            List.length_cons, List.length_nil]; omega)]

/-!  ## Lemmas on association-list lookups -/

theorem find?_map_keyfix {β : Type _} (l : List (Nat × β))
    (g : Nat × β → Nat × β) (k : Nat)
    (hkeys : ∀ p, (g p).1 = p.1) (hfix : ∀ p, p.1 = k → g p = p) :
    (l.map g).find? (fun p => p.1 = k) = l.find? (fun p => p.1 = k) := by
  induction l with
  | nil => rfl
  | cons a l ih =>
    simp only [List.map_cons, List.find?_cons]
    by_cases hk : a.1 = k
    · rw [hfix a hk]
      simp [hk]
    · have hg : ¬((g a).1 = k) := by rw [hkeys]; exact hk
      simp only [hg, hk, decide_eq_true_eq, decide_False]
      simpa using ih

theorem find?_alAppendEntry (l : List (Nat × List Nat)) (k v hash : Nat)
    (h : k ≠ hash) :
    (alAppendEntry l k v).find? (fun p => p.1 = hash)
      = l.find? (fun p => p.1 = hash) := by
  unfold alAppendEntry
  by_cases ha : l.any (fun p => p.1 = k)
  · simp only [ha, if_true]
    refine find?_map_keyfix l _ hash ?_ ?_
    · intro p
      by_cases hp : p.1 = k <;> simp [hp]
    · intro p hp
      have : ¬(p.1 = k) := by rw [hp]; exact fun hc => h hc.symm
      simp [this]
  · simp only [ha, if_false, List.find?_cons]
    have : ¬(k = hash) := h
    simp [this]

/-!  ## Claim C3: termination of `adaptive_weight_impl_brutal` -/

theorem brutalLoop3_stationary (s : ConsensusGraphInner)
    (v : List Int) (teh : Nat) (b : Int) (parent : Nat)
    (hguard : (s.node parent).height ≠ teh)
    (hnb : ¬(v.getD ((s.node parent).parent) 0 > b ∧
      (s.inner_conf.adaptive_weight_alpha_den : Int) * v.getD parent 0
        - (s.inner_conf.adaptive_weight_alpha_num : Int)
          * v.getD ((s.node parent).parent) 0 < 0)) :
    ∀ fuel, ConsensusGraphInner.brutalLoop3 s v teh b fuel parent = none := by
  intro fuel
  induction fuel with
  | zero => rfl
  | succ n ih =>
    rw [show ConsensusGraphInner.brutalLoop3 s v teh b (n + 1) parent
        = if (s.node parent).height ≠ teh then
            if v.getD ((s.node parent).parent) 0 > b ∧
                (s.inner_conf.adaptive_weight_alpha_den : Int) * v.getD parent 0
                  - (s.inner_conf.adaptive_weight_alpha_num : Int)
                    * v.getD ((s.node parent).parent) 0 < 0 then
              some true
            else ConsensusGraphInner.brutalLoop3 s v teh b n parent
          else some false from rfl]
    rw [if_pos hguard, if_neg hnb]
    exact ih

theorem c3Inner_node (i : Nat) (h : i < c3ChainLen) :
    c3Inner.node i = c3Node i := by
  unfold ConsensusGraphInner.node c3Inner
  simp [List.getD_eq_getElem?_getD, List.getElem?_map, List.getElem?_range, h]

theorem c3_height : (c3Inner.node ERA_EPOCH_COUNT).height = ERA_EPOCH_COUNT := by
  rw [c3Inner_node ERA_EPOCH_COUNT (by unfold c3ChainLen; omega)]
  rfl

theorem c3_loop1 (tw ab : Int) (f : Nat) :
    ConsensusGraphInner.brutalLoop1 c3Inner c3Zeros tw ERA_EPOCH_COUNT ab
      (f + 1) ERA_EPOCH_COUNT = some (ERA_EPOCH_COUNT, true) := by
  rw [show ConsensusGraphInner.brutalLoop1 c3Inner c3Zeros tw ERA_EPOCH_COUNT
      ab (f + 1) ERA_EPOCH_COUNT
      = if (c3Inner.node ERA_EPOCH_COUNT).height ≠ ERA_EPOCH_COUNT then
          let grandparent := (c3Inner.node ERA_EPOCH_COUNT).parent
          let w := tw - (c3Inner.node grandparent).past_era_weight
            - c3Inner.block_weight grandparent false
          if w > ab ∧
              (c3Inner.inner_conf.adaptive_weight_alpha_den : Int)
                  * c3Zeros.getD ERA_EPOCH_COUNT 0
                - (c3Inner.inner_conf.adaptive_weight_alpha_num : Int) * w < 0
          then some (ERA_EPOCH_COUNT, false)
          else ConsensusGraphInner.brutalLoop1 c3Inner c3Zeros tw
            ERA_EPOCH_COUNT ab f grandparent
        else some (ERA_EPOCH_COUNT, true) from rfl]
  rw [if_neg (by rw [c3_height]; simp)]

theorem c3Zeros_getD (i : Nat) : c3Zeros.getD i 0 = 0 := by
  unfold c3Zeros
  simp only [List.getD_eq_getElem?_getD, List.getElem?_replicate]
  by_cases h : i < c3ChainLen <;> simp [h]

/-!  ## Claim C9: genesis handling in `SynchronizationGraphInner::insert`

The proofs track the status, body-readiness and parent pointer of the fresh
node through the linking phases of `insert`.  The two well-formedness
hypotheses say that the pending-children and pending-referrer maps only
mention occupied arena slots — which holds in every reachable state because
`remove_blocks` scrubs both maps before freeing a slot — so the freshly
allocated slot cannot be adopted as its own child or referrer. -/

theorem node_with_rbh (s : SynchronizationGraphInner)
    (r : List (Nat × List Nat)) (j : Nat) :
    SynchronizationGraphInner.node { s with referrers_by_hash := r } j
      = s.node j := rfl

theorem node_with_cbh (s : SynchronizationGraphInner)
    (r : List (Nat × List Nat)) (j : Nat) :
    SynchronizationGraphInner.node { s with children_by_hash := r } j
      = s.node j := rfl

theorem node_setNode_field {α : Type _} (proj : SynchronizationGraphNode → α)
    (s : SynchronizationGraphInner) (i j : Nat)
    (f : SynchronizationGraphNode → SynchronizationGraphNode)
    (hf : ∀ nd, proj (f nd) = proj nd) :
    proj ((s.setNode i f).node j) = proj (s.node j) := by
  rw [sync_node_setNode]
  by_cases h : i = j ∧ i < s.arena.length
  · rw [if_pos h, hf, h.1]
  · rw [if_neg h]

theorem insertRefereeStep_frame (me : Nat) (s : SynchronizationGraphInner)
    (rh : Nat) :
    ((SynchronizationGraphInner.insertRefereeStep me s rh).node me).graph_status
        = (s.node me).graph_status
    ∧ ((SynchronizationGraphInner.insertRefereeStep me s rh).node me).block_ready
        = (s.node me).block_ready
    ∧ ((SynchronizationGraphInner.insertRefereeStep me s rh).node me).parent
        = (s.node me).parent
    ∧ (SynchronizationGraphInner.insertRefereeStep me s rh).indices = s.indices
    ∧ (SynchronizationGraphInner.insertRefereeStep me s rh).children_by_hash
        = s.children_by_hash
    ∧ (s.indexOfHash rh = none →
        (SynchronizationGraphInner.insertRefereeStep me s rh).referrers_by_hash
          = alAppendEntry s.referrers_by_hash rh me)
    ∧ (s.indexOfHash rh ≠ none →
        (SynchronizationGraphInner.insertRefereeStep me s rh).referrers_by_hash
          = s.referrers_by_hash) := by
  unfold SynchronizationGraphInner.insertRefereeStep
  cases hidx : s.indexOfHash rh with
  | some referee =>
    dsimp only
    refine ⟨?_, ?_, ?_, rfl, rfl, ?_, ?_⟩
    · rw [node_setNode_field (fun nd => nd.graph_status) _ _ _ _ (by intro nd; rfl),
        node_setNode_field (fun nd => nd.graph_status) _ _ _ _ (by intro nd; rfl)]
    · rw [node_setNode_field (fun nd => nd.block_ready) _ _ _ _ (by intro nd; rfl),
        node_setNode_field (fun nd => nd.block_ready) _ _ _ _ (by intro nd; rfl)]
    · rw [node_setNode_field (fun nd => nd.parent) _ _ _ _ (by intro nd; rfl),
        node_setNode_field (fun nd => nd.parent) _ _ _ _ (by intro nd; rfl)]
    · intro hc; exact absurd hc (by simp)
    · intro _; rfl
  | none =>
    dsimp only
    refine ⟨?_, ?_, ?_, rfl, rfl, ?_, ?_⟩
    · rw [node_with_rbh,
        node_setNode_field (fun nd => nd.graph_status) _ _ _ _ (by intro nd; rfl)]
    · rw [node_with_rbh,
        node_setNode_field (fun nd => nd.block_ready) _ _ _ _ (by intro nd; rfl)]
    · rw [node_with_rbh,
        node_setNode_field (fun nd => nd.parent) _ _ _ _ (by intro nd; rfl)]
    · intro _; rfl
    · intro hc; exact absurd rfl hc

theorem foldl_preserve_mem {α σ : Type _} (P : σ → Prop) (f : σ → α → σ)
    (l : List α) (hf : ∀ s a, a ∈ l → P s → P (f s a)) :
    ∀ s, P s → P (l.foldl f s) := by
  induction l with
  | nil => intro s h; exact h
  | cons a l ih =>
    intro s h
    exact ih (fun s b hb hs => hf s b (List.mem_cons_of_mem a hb) hs) (f s a)
      (hf s a (List.mem_cons_self a l) h)

theorem insertLinkParent_frame (s : SynchronizationGraphInner)
    (header : SyncBlockHeader) (me : Nat) :
    ((SynchronizationGraphInner.insertLinkParent s header me).node me).graph_status
        = (s.node me).graph_status
    ∧ ((SynchronizationGraphInner.insertLinkParent s header me).node me).block_ready
        = (s.node me).block_ready
    ∧ (SynchronizationGraphInner.insertLinkParent s header me).indices = s.indices
    ∧ (SynchronizationGraphInner.insertLinkParent s header me).referrers_by_hash
        = s.referrers_by_hash
    ∧ (∀ k, s.indexOfHash k ≠ none →
        (SynchronizationGraphInner.insertLinkParent s header me).children_by_hash.find?
            (fun p => p.1 = k)
          = s.children_by_hash.find? (fun p => p.1 = k))
    ∧ (header.parent_hash = zeroHash →
        SynchronizationGraphInner.insertLinkParent s header me = s) := by
  unfold SynchronizationGraphInner.insertLinkParent
  by_cases hg : header.parent_hash ≠ zeroHash
  · rw [if_pos hg]
    cases hidx : s.indexOfHash header.parent_hash with
    | some parent =>
      dsimp only
      refine ⟨?_, ?_, rfl, rfl, fun k _ => rfl, fun hc => absurd hc hg⟩
      · rw [node_setNode_field (fun nd => nd.graph_status) _ _ _ _ (by intro nd; rfl),
          node_setNode_field (fun nd => nd.graph_status) _ _ _ _ (by intro nd; rfl)]
      · rw [node_setNode_field (fun nd => nd.block_ready) _ _ _ _ (by intro nd; rfl),
          node_setNode_field (fun nd => nd.block_ready) _ _ _ _ (by intro nd; rfl)]
    | none =>
      dsimp only
      refine ⟨?_, ?_, rfl, rfl, ?_, fun hc => absurd hc hg⟩
      · rw [node_with_cbh]
      · rw [node_with_cbh]
      · intro k hk
        refine find?_alAppendEntry _ _ _ _ ?_
        intro hc
        rw [hc] at hidx
        exact hk hidx
  · rw [if_neg hg]
    exact ⟨rfl, rfl, rfl, rfl, fun k _ => rfl, fun _ => rfl⟩

theorem adoptPending_core (s : SynchronizationGraphInner) (hash me : Nat)
    (hC : ∀ q, s.children_by_hash.find? (fun p => p.1 = hash) = some q →
      ∀ x ∈ q.2, x ≠ me) :
    ((SynchronizationGraphInner.adoptPending s hash me).node me).graph_status
        = (s.node me).graph_status
    ∧ ((SynchronizationGraphInner.adoptPending s hash me).node me).block_ready
        = (s.node me).block_ready
    ∧ ((SynchronizationGraphInner.adoptPending s hash me).node me).parent
        = (s.node me).parent := by
  unfold SynchronizationGraphInner.adoptPending
  have key : ∀ (t : SynchronizationGraphInner),
      (t.node me).graph_status = (s.node me).graph_status →
      (t.node me).block_ready = (s.node me).block_ready →
      (t.node me).parent = (s.node me).parent →
      (((match (t.referrers_by_hash.find? (fun p => p.1 = hash)).map (·.2) with
          | some referrers =>
            let t' := referrers.foldl
              (fun (s' : SynchronizationGraphInner) referrer =>
                s'.setNode referrer (fun nd =>
                  { nd with referees := nd.referees ++ [me],
                            pending_referee_count := nd.pending_referee_count - 1 }))
              t
            let t' := t'.setNode me (fun nd => { nd with referrers := referrers })
            let rbh := t'.referrers_by_hash.filter (fun p => p.1 ≠ hash)
            { t' with referrers_by_hash := rbh }
          | none => t : SynchronizationGraphInner)).node me).graph_status
          = (s.node me).graph_status
        ∧ (((match (t.referrers_by_hash.find? (fun p => p.1 = hash)).map (·.2) with
          | some referrers =>
            let t' := referrers.foldl
              (fun (s' : SynchronizationGraphInner) referrer =>
                s'.setNode referrer (fun nd =>
                  { nd with referees := nd.referees ++ [me],
                            pending_referee_count := nd.pending_referee_count - 1 }))
              t
            let t' := t'.setNode me (fun nd => { nd with referrers := referrers })
            let rbh := t'.referrers_by_hash.filter (fun p => p.1 ≠ hash)
            { t' with referrers_by_hash := rbh }
          | none => t : SynchronizationGraphInner)).node me).block_ready
          = (s.node me).block_ready
        ∧ (((match (t.referrers_by_hash.find? (fun p => p.1 = hash)).map (·.2) with
          | some referrers =>
            let t' := referrers.foldl
              (fun (s' : SynchronizationGraphInner) referrer =>
                s'.setNode referrer (fun nd =>
                  { nd with referees := nd.referees ++ [me],
                            pending_referee_count := nd.pending_referee_count - 1 }))
              t
            let t' := t'.setNode me (fun nd => { nd with referrers := referrers })
            let rbh := t'.referrers_by_hash.filter (fun p => p.1 ≠ hash)
            { t' with referrers_by_hash := rbh }
          | none => t : SynchronizationGraphInner)).node me).parent
          = (s.node me).parent := by
    intro t h1 h2 h3
    cases hfr : (t.referrers_by_hash.find? (fun p => p.1 = hash)).map (·.2) with
    | none => exact ⟨h1, h2, h3⟩
    | some referrers =>
      dsimp only
      have hfold := foldl_preserve
        (fun (t' : SynchronizationGraphInner) =>
          (t'.node me).graph_status = (s.node me).graph_status
          ∧ (t'.node me).block_ready = (s.node me).block_ready
          ∧ (t'.node me).parent = (s.node me).parent)
        (fun (s' : SynchronizationGraphInner) referrer =>
          s'.setNode referrer (fun nd =>
            { nd with referees := nd.referees ++ [me],
                      pending_referee_count := nd.pending_referee_count - 1 }))
        (by
          intro s' a hP
          refine ⟨?_, ?_, ?_⟩
          · rw [node_setNode_field (fun nd => nd.graph_status) _ _ _ _
              (by intro nd; rfl)]
            exact hP.1
          · rw [node_setNode_field (fun nd => nd.block_ready) _ _ _ _
              (by intro nd; rfl)]
            exact hP.2.1
          · rw [node_setNode_field (fun nd => nd.parent) _ _ _ _
              (by intro nd; rfl)]
            exact hP.2.2)
        referrers t ⟨h1, h2, h3⟩
      refine ⟨?_, ?_, ?_⟩
      · simp only [node_with_rbh, sync_node_setNode]
        split
        · exact hfold.1
        · exact hfold.1
      · simp only [node_with_rbh, sync_node_setNode]
        split
        · exact hfold.2.1
        · exact hfold.2.1
      · simp only [node_with_rbh, sync_node_setNode]
        split
        · exact hfold.2.2
        · exact hfold.2.2
  cases hfc : (s.children_by_hash.find? (fun p => p.1 = hash)) with
  | none =>
    simp only [hfc, Option.map_none]
    exact key s rfl rfl rfl
  | some q =>
    simp only [hfc, Option.map_some]
    have hne : ∀ x ∈ q.2, x ≠ me := hC q hfc
    have hfold := foldl_preserve_mem
      (fun (t' : SynchronizationGraphInner) =>
        (t'.node me).graph_status = (s.node me).graph_status
        ∧ (t'.node me).block_ready = (s.node me).block_ready
        ∧ (t'.node me).parent = (s.node me).parent)
      (fun (s' : SynchronizationGraphInner) child =>
        s'.setNode child (fun nd => { nd with parent := me }))
      q.2
      (by
        intro s' a ha hP
        have hane : ¬(a = me ∧ a < s'.arena.length) := by
          intro hc
          exact hne a ha hc.1
        refine ⟨?_, ?_, ?_⟩
        · rw [sync_node_setNode, if_neg hane]
          exact hP.1
        · rw [sync_node_setNode, if_neg hane]
          exact hP.2.1
        · rw [sync_node_setNode, if_neg hane]
          exact hP.2.2)
      s ⟨rfl, rfl, rfl⟩
    refine key _ ?_ ?_ ?_
    · simp only [Option.map_some']
      simp only [node_with_cbh, sync_node_setNode]
      split
      · exact hfold.1
      · exact hfold.1
    · simp only [Option.map_some']
      simp only [node_with_cbh, sync_node_setNode]
      split
      · exact hfold.2.1
      · exact hfold.2.1
    · simp only [Option.map_some']
      simp only [node_with_cbh, sync_node_setNode]
      split
      · exact hfold.2.2
      · exact hfold.2.2

theorem insertTail_frame (s1 : SynchronizationGraphInner)
    (header : SyncBlockHeader) (me : Nat)
    (hC1 : ∀ q, s1.children_by_hash.find? (fun p => p.1 = header.hash) = some q →
      ∀ x ∈ q.2, x ≠ me)
    (hidx : s1.indexOfHash header.hash ≠ none) :
    ((SynchronizationGraphInner.adoptPending
        (header.referee_hashes.foldl
          (SynchronizationGraphInner.insertRefereeStep me)
          (SynchronizationGraphInner.insertLinkParent s1 header me))
        header.hash me).node me).graph_status = (s1.node me).graph_status
    ∧ ((SynchronizationGraphInner.adoptPending
        (header.referee_hashes.foldl
          (SynchronizationGraphInner.insertRefereeStep me)
          (SynchronizationGraphInner.insertLinkParent s1 header me))
        header.hash me).node me).block_ready = (s1.node me).block_ready
    ∧ (header.parent_hash = zeroHash →
      ((SynchronizationGraphInner.adoptPending
        (header.referee_hashes.foldl
          (SynchronizationGraphInner.insertRefereeStep me)
          (SynchronizationGraphInner.insertLinkParent s1 header me))
        header.hash me).node me).parent = (s1.node me).parent) := by
  obtain ⟨hg2, hb2, hi2, hr2, hc2, hgen2⟩ := insertLinkParent_frame s1 header me
  have hfold := foldl_preserve
    (fun (t : SynchronizationGraphInner) =>
      ((t.node me).graph_status
        = ((SynchronizationGraphInner.insertLinkParent s1 header me).node
            me).graph_status)
      ∧ ((t.node me).block_ready
        = ((SynchronizationGraphInner.insertLinkParent s1 header me).node
            me).block_ready)
      ∧ ((t.node me).parent
        = ((SynchronizationGraphInner.insertLinkParent s1 header me).node
            me).parent)
      ∧ (t.children_by_hash
        = (SynchronizationGraphInner.insertLinkParent s1 header
            me).children_by_hash))
    (SynchronizationGraphInner.insertRefereeStep me)
    (by
      intro t rh hP
      obtain ⟨h1, h2, h3, h4, h5, h6, h7⟩ := insertRefereeStep_frame me t rh
      exact ⟨h1.trans hP.1, h2.trans hP.2.1, h3.trans hP.2.2.1,
        h5.trans hP.2.2.2⟩)
    header.referee_hashes
    (SynchronizationGraphInner.insertLinkParent s1 header me)
    ⟨rfl, rfl, rfl, rfl⟩
  have hC3 : ∀ q, (header.referee_hashes.foldl
      (SynchronizationGraphInner.insertRefereeStep me)
      (SynchronizationGraphInner.insertLinkParent s1 header
        me)).children_by_hash.find? (fun p => p.1 = header.hash) = some q →
      ∀ x ∈ q.2, x ≠ me := by
    intro q hq
    refine hC1 q ?_
    rw [hfold.2.2.2, hc2 header.hash hidx] at hq
    exact hq
  obtain ⟨ha1, ha2, ha3⟩ := adoptPending_core _ header.hash me hC3
  refine ⟨ha1.trans (hfold.1.trans hg2), ha2.trans (hfold.2.1.trans hb2), ?_⟩
  intro hgz
  refine ha3.trans ((hfold.2.2.1).trans ?_)
  rw [hgen2 hgz]

/-- Claim C9: in `SynchronizationGraphInner::insert`
(synchronization_graph.rs lines 255-326), a header whose parent hash equals
the all-zero `H256::default()` is treated as a genesis block: its node is
created with `graph_status = BLOCK_GRAPH_READY`, `block_ready = true`, and
no parent edge (`parent` stays `NULL`); every other header starts in
`BLOCK_HEADER_ONLY` with `block_ready = false`.  The hypothesis is the slab
well-formedness of reachable states: pending children recorded under this
hash point at occupied arena slots. -/
theorem c9_sync_insert_genesis (s : SynchronizationGraphInner)
    (header : SyncBlockHeader) (now : Nat)
    (hch : ∀ q, s.children_by_hash.find? (fun p => p.1 = header.hash) = some q →
      ∀ x ∈ q.2, s.arena.getD x none ≠ none) :
    (((SynchronizationGraphInner.insert s header now).1.node
        (SynchronizationGraphInner.insert s header now).2).graph_status
      = if header.parent_hash = zeroHash then BLOCK_GRAPH_READY
        else BLOCK_HEADER_ONLY)
    ∧ (((SynchronizationGraphInner.insert s header now).1.node
        (SynchronizationGraphInner.insert s header now).2).block_ready
      = decide (header.parent_hash = zeroHash))
    ∧ (header.parent_hash = zeroHash →
        ((SynchronizationGraphInner.insert s header now).1.node
          (SynchronizationGraphInner.insert s header now).2).parent = NULL) := by
  obtain ⟨hme, hfree, -⟩ := SynchronizationGraphInner.slabInsert_spec s.arena
    (SynchronizationGraphInner.freshSyncNode header now)
  have hnode1 : SynchronizationGraphInner.node
      { s with
        arena := (SynchronizationGraphInner.slabInsert s.arena
          (SynchronizationGraphInner.freshSyncNode header now)).1
        indices := (header.hash, (SynchronizationGraphInner.slabInsert s.arena
          (SynchronizationGraphInner.freshSyncNode header now)).2) :: s.indices }
      (SynchronizationGraphInner.slabInsert s.arena
        (SynchronizationGraphInner.freshSyncNode header now)).2
      = SynchronizationGraphInner.freshSyncNode header now := by
    show ((SynchronizationGraphInner.slabInsert s.arena
        (SynchronizationGraphInner.freshSyncNode header now)).1.getD
        (SynchronizationGraphInner.slabInsert s.arena
          (SynchronizationGraphInner.freshSyncNode header now)).2 none).getD
        defaultSyncNode
      = SynchronizationGraphInner.freshSyncNode header now
    rw [hme]
    rfl
  have hidx1 : SynchronizationGraphInner.indexOfHash
      { s with
        arena := (SynchronizationGraphInner.slabInsert s.arena
          (SynchronizationGraphInner.freshSyncNode header now)).1
        indices := (header.hash, (SynchronizationGraphInner.slabInsert s.arena
          (SynchronizationGraphInner.freshSyncNode header now)).2) :: s.indices }
      header.hash ≠ none := by
    simp [SynchronizationGraphInner.indexOfHash]
  have hC1 : ∀ q, s.children_by_hash.find? (fun p => p.1 = header.hash) = some q →
      ∀ x ∈ q.2, x ≠ (SynchronizationGraphInner.slabInsert s.arena
        (SynchronizationGraphInner.freshSyncNode header now)).2 := by
    intro q hq x hx hxm
    apply hch q hq x hx
    rw [hxm]
    exact hfree
  have htail := insertTail_frame
    { s with
      arena := (SynchronizationGraphInner.slabInsert s.arena
        (SynchronizationGraphInner.freshSyncNode header now)).1
      indices := (header.hash, (SynchronizationGraphInner.slabInsert s.arena
        (SynchronizationGraphInner.freshSyncNode header now)).2) :: s.indices }
    header
    (SynchronizationGraphInner.slabInsert s.arena
      (SynchronizationGraphInner.freshSyncNode header now)).2
    hC1 hidx1
  refine ⟨?_, ?_, ?_⟩
  · exact htail.1.trans (by rw [hnode1]; rfl)
  · exact htail.2.1.trans (by rw [hnode1]; rfl)
  · intro hgz
    exact (htail.2.2 hgz).trans (by rw [hnode1]; rfl)

/-- Witness for C9: inserting a genesis header (hash 7, zero parent hash)
into the empty synchronization graph yields a `BLOCK_GRAPH_READY`,
`block_ready` node with `parent = NULL`. -/
theorem c9_sync_insert_genesis_witness :
    (∀ q, c9S.children_by_hash.find?
        (fun p => p.1 = c9GenesisHeader.hash) = some q →
      ∀ x ∈ q.2, c9S.arena.getD x none ≠ none)
    ∧ ((((SynchronizationGraphInner.insert c9S c9GenesisHeader 0).1.node
        (SynchronizationGraphInner.insert c9S c9GenesisHeader 0).2).graph_status
      = if c9GenesisHeader.parent_hash = zeroHash then BLOCK_GRAPH_READY
        else BLOCK_HEADER_ONLY)
    ∧ (((SynchronizationGraphInner.insert c9S c9GenesisHeader 0).1.node
        (SynchronizationGraphInner.insert c9S c9GenesisHeader 0).2).block_ready
      = decide (c9GenesisHeader.parent_hash = zeroHash))
    ∧ (c9GenesisHeader.parent_hash = zeroHash →
        ((SynchronizationGraphInner.insert c9S c9GenesisHeader 0).1.node
          (SynchronizationGraphInner.insert c9S c9GenesisHeader 0).2).parent
          = NULL)) := by
  have hch : ∀ q, c9S.children_by_hash.find?
      (fun p => p.1 = c9GenesisHeader.hash) = some q →
      ∀ x ∈ q.2, c9S.arena.getD x none ≠ none := by
    intro q hq
    simp [c9S] at hq
  exact ⟨hch, c9_sync_insert_genesis c9S c9GenesisHeader 0 hch⟩

/-- Claim C8 (amended): the gas-limit validation of
`verify_header_graph_ready_block` (synchronization_graph.rs lines 513-530)
passes iff `gas_lower < gas_limit < gas_upper` with BOTH bounds strict,
where `gas_lower = max(parent - parent/divisor, min_gas_limit)` and
`gas_upper = parent + parent/divisor`; otherwise the block is rejected with
`InvalidGasLimit`.  The hypotheses state that the height and timestamp
checks, which run first, pass. -/
theorem c8_gas_limit_check (s : SynchronizationGraphInner)
    (index ph pts pgl pd : Nat) (rts : List Nat)
    (hpi : s.get_parent_and_referee_info index = (ph, pts, pgl, pd, rts))
    (hh : ph + 1 = (s.node index).block_header.height)
    (hts : pts ≤ (s.node index).block_header.timestamp)
    (hrts : rts.find? (fun rt => rt > (s.node index).block_header.timestamp)
      = none) :
    (∀ lo hi g, s.verify_header_graph_ready_block index
        ≠ Except.error (SyncBlockError.InvalidGasLimit lo hi g))
      ↔ (max (pgl - pgl / s.machine_params.gas_limit_bound_divisor)
            s.machine_params.min_gas_limit
          < (s.node index).block_header.gas_limit
        ∧ (s.node index).block_header.gas_limit
          < pgl + pgl / s.machine_params.gas_limit_bound_divisor) := by
  unfold SynchronizationGraphInner.verify_header_graph_ready_block
  rw [hpi]
  dsimp only
  rw [if_neg (by omega : ¬ ph + 1 ≠ (s.node index).block_header.height)]
  rw [if_neg (by omega : ¬ pts > (s.node index).block_header.timestamp)]
  rw [hrts]
  dsimp only
  by_cases hg : (s.node index).block_header.gas_limit
      ≤ max (pgl - pgl / s.machine_params.gas_limit_bound_divisor)
          s.machine_params.min_gas_limit
    ∨ (s.node index).block_header.gas_limit
      ≥ pgl + pgl / s.machine_params.gas_limit_bound_divisor
  · rw [if_pos hg]
    constructor
    · intro h
      exact absurd rfl (h _ _ _)
    · intro h
      rcases hg with hg | hg
      · exact absurd hg (not_le.mpr h.1)
      · exact absurd hg (not_le.mpr h.2)
  · rw [if_neg hg]
    push_neg at hg
    constructor
    · intro _
      exact hg
    · intro _ lo hi g
      split
      · intro hc
        simp at hc
      · intro hc
        simp at hc

/-- Counterexample to C8 as stated: a child block whose gas limit is exactly
`parent + parent/divisor` (2050000 = 2048000 + 2000) is within
plus-or-minus `parent/divisor` of the parent's gas limit and above the
machine minimum, yet `verify_header_graph_ready_block` rejects it with
`InvalidGasLimit` because the code compares with `<= gas_lower || >=
gas_upper`, excluding the boundary. -/
theorem c8_counterexample :
    c8ParentHeader.gas_limit
        - c8ParentHeader.gas_limit / c8S.machine_params.gas_limit_bound_divisor
      ≤ (c8S.node 1).block_header.gas_limit
    ∧ (c8S.node 1).block_header.gas_limit
      ≤ c8ParentHeader.gas_limit
        + c8ParentHeader.gas_limit / c8S.machine_params.gas_limit_bound_divisor
    ∧ c8S.machine_params.min_gas_limit ≤ (c8S.node 1).block_header.gas_limit
    ∧ c8S.verify_header_graph_ready_block 1
      = Except.error (SyncBlockError.InvalidGasLimit 2046000 2050000 2050000) :=
  ⟨by decide, by decide, by decide, rfl⟩

/-- Witness for the amended C8 theorem at the concrete two-node state. -/
theorem c8_gas_limit_check_witness :
    c8S.get_parent_and_referee_info 1 = (0, 0, 2048000, 1, [])
    ∧ ((∀ lo hi g, c8S.verify_header_graph_ready_block 1
        ≠ Except.error (SyncBlockError.InvalidGasLimit lo hi g))
      ↔ (max (2048000 - 2048000 / c8S.machine_params.gas_limit_bound_divisor)
            c8S.machine_params.min_gas_limit
          < (c8S.node 1).block_header.gas_limit
        ∧ (c8S.node 1).block_header.gas_limit
          < 2048000 + 2048000 / c8S.machine_params.gas_limit_bound_divisor)) :=
  ⟨by decide,
    c8_gas_limit_check c8S 1 0 0 2048000 1 [] (by decide) (by decide)
      (by decide) (by decide)⟩

theorem foldlMax_spec (l : List ℚ) : ∀ a : ℚ,
    a ≤ l.foldl (fun m r => if m < r then r else m) a
    ∧ (∀ r ∈ l, r ≤ l.foldl (fun m r => if m < r then r else m) a)
    ∧ (l.foldl (fun m r => if m < r then r else m) a = a
        ∨ l.foldl (fun m r => if m < r then r else m) a ∈ l) := by
  induction l with
  | nil =>
    intro a
    refine ⟨le_refl a, ?_, Or.inl rfl⟩
    intro r hr
    cases hr
  | cons b l ih =>
    intro a
    simp only [List.foldl_cons]
    obtain ⟨h1, h2, h3⟩ := ih (if a < b then b else a)
    have hab : a ≤ (if a < b then b else a) := by
      by_cases h : a < b
      · rw [if_pos h]; exact le_of_lt h
      · rw [if_neg h]
    have hbb : b ≤ (if a < b then b else a) := by
      by_cases h : a < b
      · rw [if_pos h]
      · rw [if_neg h]; exact le_of_not_lt h
    refine ⟨hab.trans h1, ?_, ?_⟩
    · intro r hr
      rcases List.mem_cons.mp hr with h | h
      · rw [h]; exact hbb.trans h1
      · exact h2 r h
    · rcases h3 with h | h
      · by_cases hcase : a < b
        · rw [if_pos hcase] at h ⊢
          rw [h]
          exact Or.inr (List.mem_cons_self b l)
        · rw [if_neg hcase] at h ⊢
          exact Or.inl h
      · exact Or.inr (List.mem_cons_of_mem b h)

theorem foldlMax_mem (l : List ℚ) (hne : l ≠ []) (hnn : ∀ r ∈ l, 0 ≤ r) :
    l.foldl (fun m r => if m < r then r else m) 0 ∈ l := by
  obtain ⟨h1, h2, h3⟩ := foldlMax_spec l 0
  rcases h3 with h | h
  · rcases List.exists_mem_of_ne_nil l hne with ⟨b, hb⟩
    have hb0 : b = 0 := le_antisymm (h ▸ h2 b hb) (hnn b hb)
    rw [h, ← hb0]
    exact hb
  · exact h

/-- Claim C10: `confirmation_risk_by_hash` (consensus/mod.rs lines
1979-2011) returns `none` for an unknown hash, for an unassigned
(`NULL`) epoch, and for epochs at or beyond the end of the maintained risk
window; `some 0` for epoch 0; `some MIN_MAINTAINED_RISK` for assigned
nonzero epochs strictly below the window; and, inside the window, the
maximum of the maintained risks up to the epoch's offset (the risks are
nonnegative, hypothesis `hnn`). -/
theorem c10_confirmation_risk_cases (g : ConsensusGraph) (hash : Nat)
    (hnn : ∀ r ∈ g.finality_manager.risks_less_than, (0 : ℚ) ≤ r) :
    (g.inner.indexOfHash hash = none →
      g.confirmation_risk_by_hash hash = none)
    ∧ ∀ index, g.inner.indexOfHash hash = some index →
      ((g.inner.node index).data.epoch_number = NULL →
        g.confirmation_risk_by_hash hash = none)
      ∧ ((g.inner.node index).data.epoch_number = 0 →
        g.confirmation_risk_by_hash hash = some 0)
      ∧ ((g.inner.node index).data.epoch_number ≠ NULL →
        (g.inner.node index).data.epoch_number ≠ 0 →
        (g.inner.node index).data.epoch_number
            < g.finality_manager.lowest_epoch_num →
        g.confirmation_risk_by_hash hash = some MIN_MAINTAINED_RISK)
      ∧ ((g.inner.node index).data.epoch_number ≠ NULL →
        (g.inner.node index).data.epoch_number ≠ 0 →
        g.finality_manager.lowest_epoch_num
            + g.finality_manager.risks_less_than.length
          ≤ (g.inner.node index).data.epoch_number →
        g.confirmation_risk_by_hash hash = none)
      ∧ ((g.inner.node index).data.epoch_number ≠ NULL →
        (g.inner.node index).data.epoch_number ≠ 0 →
        g.finality_manager.lowest_epoch_num
          ≤ (g.inner.node index).data.epoch_number →
        (g.inner.node index).data.epoch_number
          < g.finality_manager.lowest_epoch_num
            + g.finality_manager.risks_less_than.length →
        ∃ m, g.confirmation_risk_by_hash hash = some m
          ∧ m ∈ g.finality_manager.risks_less_than.take
              ((g.inner.node index).data.epoch_number
                - g.finality_manager.lowest_epoch_num + 1)
          ∧ ∀ r ∈ g.finality_manager.risks_less_than.take
              ((g.inner.node index).data.epoch_number
                - g.finality_manager.lowest_epoch_num + 1), r ≤ m) := by
  unfold ConsensusGraph.confirmation_risk_by_hash
  constructor
  · intro h
    rw [h]
  · intro index hidx
    rw [hidx]
    dsimp only
    refine ⟨?_, ?_, ?_, ?_, ?_⟩
    · intro hN
      rw [if_pos hN]
    · intro h0
      rw [h0, if_neg (by decide : ¬((0 : Nat) = NULL)), if_pos rfl]
    · intro hN h0 hlt
      rw [if_neg hN, if_neg h0, if_pos hlt]
    · intro hN h0 hge
      rw [if_neg hN, if_neg h0, if_neg (by omega :
          ¬((g.inner.node index).data.epoch_number
            < g.finality_manager.lowest_epoch_num)),
        if_neg (by omega :
          ¬((g.inner.node index).data.epoch_number
              - g.finality_manager.lowest_epoch_num
            < g.finality_manager.risks_less_than.length))]
    · intro hN h0 hge hlt
      rw [if_neg hN, if_neg h0, if_neg (by omega :
          ¬((g.inner.node index).data.epoch_number
            < g.finality_manager.lowest_epoch_num)),
        if_pos (by omega :
          (g.inner.node index).data.epoch_number
              - g.finality_manager.lowest_epoch_num
            < g.finality_manager.risks_less_than.length)]
      refine ⟨_, rfl, ?_, ?_⟩
      · refine foldlMax_mem _ ?_ ?_
        · intro hc
          have hlen := congrArg List.length hc
          simp only [List.length_take, List.length_nil] at hlen
          omega
        · intro r hr
          exact hnn r (List.take_subset _ _ hr)
      · intro r hr
        exact (foldlMax_spec _ 0).2.1 r hr

/-- Witness for C10: in the concrete graph `c10G`, hash 1 names the node
of epoch 0, and the theorem yields `some 0` for it. -/
theorem c10_confirmation_risk_cases_witness :
    (∀ r ∈ c10G.finality_manager.risks_less_than, (0 : ℚ) ≤ r)
    ∧ c10G.inner.indexOfHash 1 = some 0
    ∧ (c10G.inner.node 0).data.epoch_number = 0
    ∧ c10G.confirmation_risk_by_hash 1 = some 0 := by
  have hnn : ∀ r ∈ c10G.finality_manager.risks_less_than, (0 : ℚ) ≤ r := by
    intro r hr
    simp only [c10G, List.mem_cons, List.mem_singleton,
      List.not_mem_nil, or_false] at hr
    rcases hr with h | h <;> rw [h] <;> norm_num
  refine ⟨hnn, by decide, by decide, ?_⟩
  exact ((c10_confirmation_risk_cases c10G 1 hnn).2 0
    (by decide)).2.1 (by decide)

/-!  ## Frame lemmas on the consensus arena and `insert`'s phases -/

theorem cnode_with_th (s : ConsensusGraphInner) (th : List Nat) (j : Nat) :
    ConsensusGraphInner.node { s with terminal_hashes := th } j = s.node j := rfl

theorem cnode_setNode_field {α : Type _} (proj : ConsensusGraphNode → α)
    (s : ConsensusGraphInner) (i j : Nat)
    (f : ConsensusGraphNode → ConsensusGraphNode)
    (hf : ∀ nd, proj (f nd) = proj nd) :
    proj ((s.setNode i f).node j) = proj (s.node j) := by
  rw [ConsensusGraphInner.node_setNode]
  by_cases h : i = j ∧ i < s.arena.length
  · rw [if_pos h, hf, h.1]
  · rw [if_neg h]

theorem collectLoop_arena_length (pivot : Nat) : ∀ fuel
    (s : ConsensusGraphInner) (queue visited : List Nat),
    (ConsensusGraphInner.collectLoop pivot fuel s queue visited).arena.length
      = s.arena.length := by
  intro fuel
  induction fuel with
  | zero => intro s queue visited; rfl
  | succ f ih =>
    intro s queue visited
    unfold ConsensusGraphInner.collectLoop
    cases queue with
    | nil => rfl
    | cons index queue =>
      dsimp only
      split
      · split
        · exact ih s queue visited
        · refine (ih _ _ _).trans ?_
          simp [ConsensusGraphInner.setNode]
      · split
        · exact ih s queue visited
        · refine (ih _ _ _).trans ?_
          simp [ConsensusGraphInner.setNode]

theorem collectLoop_node_proj {α : Type _} (proj : ConsensusGraphNode → α)
    (hproj : ∀ nd d, proj { nd with data := d } = proj nd) (pivot j : Nat) :
    ∀ fuel (s : ConsensusGraphInner) (queue visited : List Nat),
    proj ((ConsensusGraphInner.collectLoop pivot fuel s queue visited).node j)
      = proj (s.node j) := by
  intro fuel
  induction fuel with
  | zero => intro s queue visited; rfl
  | succ f ih =>
    intro s queue visited
    unfold ConsensusGraphInner.collectLoop
    cases queue with
    | nil => rfl
    | cons index queue =>
      dsimp only
      split
      · split
        · exact ih s queue visited
        · refine (ih _ _ _).trans ?_
          rw [cnode_setNode_field proj _ _ _ _ (by intro nd; exact hproj nd _),
            cnode_setNode_field proj _ _ _ _ (by intro nd; exact hproj nd _)]
      · split
        · exact ih s queue visited
        · refine (ih _ _ _).trans ?_
          rw [cnode_setNode_field proj _ _ _ _ (by intro nd; exact hproj nd _),
            cnode_setNode_field proj _ _ _ _ (by intro nd; exact hproj nd _)]

theorem collect_arena_length (s : ConsensusGraphInner) (pivot : Nat) :
    (s.collect_blockset_in_own_view_of_epoch pivot).arena.length
      = s.arena.length := by
  unfold ConsensusGraphInner.collect_blockset_in_own_view_of_epoch
  dsimp only
  rw [show ∀ (t : ConsensusGraphInner) i f,
        (t.setNode i f).arena.length = t.arena.length from
      fun t i f => by simp [ConsensusGraphInner.setNode]]
  exact collectLoop_arena_length _ _ _ _ _

theorem collect_node_proj {α : Type _} (proj : ConsensusGraphNode → α)
    (hproj : ∀ nd d, proj { nd with data := d } = proj nd)
    (s : ConsensusGraphInner) (pivot j : Nat) :
    proj ((s.collect_blockset_in_own_view_of_epoch pivot).node j)
      = proj (s.node j) := by
  unfold ConsensusGraphInner.collect_blockset_in_own_view_of_epoch
  dsimp only
  rw [cnode_setNode_field proj _ _ _ _ (by intro nd; exact hproj nd _)]
  exact collectLoop_node_proj proj hproj _ _ _ _ _ _

theorem insertArenaPhase_arena_length (s : ConsensusGraphInner)
    (block : Block) :
    (ConsensusGraphInner.insertArenaPhase s block).1.arena.length
      = s.arena.length + 1 := by
  unfold ConsensusGraphInner.insertArenaPhase
  dsimp only
  refine foldl_preserve (fun (t : ConsensusGraphInner) =>
      t.arena.length = s.arena.length + 1) _ ?_ _ _ ?_
  · intro t a hP
    simpa [ConsensusGraphInner.setNode] using hP
  · dsimp only
    split
    · split <;> simp [ConsensusGraphInner.setNode]
    · simp [ConsensusGraphInner.setNode]

theorem insertArenaPhase_parent (s : ConsensusGraphInner) (block : Block) :
    ((ConsensusGraphInner.insertArenaPhase s block).1.node
        (ConsensusGraphInner.insertArenaPhase s block).2.1).parent
      = (ConsensusGraphInner.insertArenaPhase s block).2.2 := by
  unfold ConsensusGraphInner.insertArenaPhase
  dsimp only
  generalize (if block.parent_hash ≠ zeroHash then
      (s.indexOfHash block.parent_hash).getD NULL
    else NULL) = p
  refine foldl_preserve (fun (t : ConsensusGraphInner) =>
      (t.node s.arena.length).parent = p) _ ?_ _ _ ?_
  · intro t a hP
    rw [cnode_setNode_field (fun nd => nd.parent) _ _ _ _ (by intro nd; rfl)]
    exact hP
  · dsimp only
    rw [cnode_with_th]
    split
    · rw [cnode_setNode_field (fun nd => nd.parent) _ _ _ _ (by intro nd; rfl)]
      show ((s.arena ++ [_]).getD s.arena.length defaultConsensusNode).parent = p
      rw [List.getD_eq_getElem?_getD, List.getElem?_concat_length]
      rfl
    · show ((s.arena ++ [_]).getD s.arena.length defaultConsensusNode).parent = p
      rw [List.getD_eq_getElem?_getD, List.getElem?_concat_length]
      rfl

theorem total_weight_none (s : ConsensusGraphInner) (bs : List Nat)
    (incl : Bool) :
    s.total_weight_in_own_epoch bs incl none
      = bs.foldl (fun acc x => acc + s.block_weight x incl) 0 := by
  unfold ConsensusGraphInner.total_weight_in_own_epoch
  dsimp only
  congr 1
  funext acc x
  rw [if_neg]
  intro hc
  exact hc rfl

theorem insertWeightPhase_spec (s2 : ConsensusGraphInner) (index parent : Nat)
    (hp : parent ≠ NULL) (hlt : index < s2.arena.length)
    (hne : parent ≠ index) :
    (((s2.insertWeightPhase index parent).node index).parent
        = (s2.node index).parent)
    ∧ (((s2.insertWeightPhase index parent).node index).data
        = (s2.node index).data)
    ∧ (((s2.insertWeightPhase index parent).node index).past_weight
      = ((s2.insertWeightPhase index parent).node parent).past_weight
        + (s2.insertWeightPhase index parent).block_weight parent false
        + (List.foldl
            (fun acc x =>
              acc + (s2.insertWeightPhase index parent).block_weight x false)
            0
            ((s2.insertWeightPhase index parent).node
              index).data.blockset_in_own_view_of_epoch)) := by
  unfold ConsensusGraphInner.insertWeightPhase
  rw [if_pos hp]
  dsimp only
  have hbw : ∀ x b,
      (s2.setNode index (fun nd =>
        { nd with
          past_weight := (s2.node parent).past_weight
            + s2.block_weight parent false
            + s2.total_weight_in_own_epoch
                (s2.node index).data.blockset_in_own_view_of_epoch false none
          past_era_weight :=
            if parent ≠ s2.get_era_block_with_parent parent 0 then
              (s2.node parent).past_era_weight + s2.block_weight parent false
                + s2.total_weight_in_own_epoch
                    (s2.node index).data.blockset_in_own_view_of_epoch false
                    (some (s2.get_era_block_with_parent parent 0))
            else s2.block_weight parent false
              + s2.total_weight_in_own_epoch
                  (s2.node index).data.blockset_in_own_view_of_epoch false
                  (some (s2.get_era_block_with_parent parent 0)) })).block_weight
          x b
        = s2.block_weight x b := by
    intro x b
    unfold ConsensusGraphInner.block_weight
    rw [cnode_setNode_field (fun nd => nd.data.partial_invalid) _ _ _ _
        (by intro nd; rfl),
      cnode_setNode_field (fun nd => nd.is_heavy) _ _ _ _ (by intro nd; rfl),
      cnode_setNode_field (fun nd => nd.adaptive) _ _ _ _ (by intro nd; rfl),
      cnode_setNode_field (fun nd => nd.difficulty) _ _ _ _ (by intro nd; rfl)]
    rfl
  refine ⟨?_, ?_, ?_⟩
  · rw [cnode_setNode_field (fun nd => nd.parent) _ _ _ _ (by intro nd; rfl)]
  · rw [cnode_setNode_field (fun nd => nd.data) _ _ _ _ (by intro nd; rfl)]
  · rw [ConsensusGraphInner.node_setNode, if_pos ⟨rfl, hlt⟩]
    dsimp only
    rw [ConsensusGraphInner.node_setNode,
      if_neg (fun hc => hne hc.1.symm)]
    rw [hbw]
    rw [show ∀ l : List Nat, (l.foldl (fun acc x => acc
        + (s2.setNode index _).block_weight x false) 0)
        = l.foldl (fun acc x => acc + s2.block_weight x false) 0 from
      fun l => by congr 1; funext acc x; rw [hbw]]
    rw [total_weight_none]

/-- Claim C5: for every non-genesis block inserted by
`ConsensusGraphInner::insert` (consensus/mod.rs lines 972-998), the stored
`past_weight` equals `past_weight(parent) + block_weight(parent, false) +
the sum of block_weight(x, false) over the block's
blockset_in_own_view_of_epoch` (all read in the resulting state), where
`block_weight` is 0 for partial-invalid blocks, the difficulty for
non-adaptive blocks, `heavy_block_difficulty_ratio * difficulty` for
adaptive heavy blocks, and 0 for adaptive non-heavy ones.  `hp` states that
the block is non-genesis with a known parent; `hplt` that the parent is a
live arena index. -/
theorem c5_past_weight (s : ConsensusGraphInner) (block : Block)
    (hp : (ConsensusGraphInner.insertArenaPhase s block).2.2 ≠ NULL)
    (hplt : (ConsensusGraphInner.insertArenaPhase s block).2.2
      < s.arena.length) :
    ((ConsensusGraphInner.insert s block).1.node
        (ConsensusGraphInner.insert s block).2.1).parent
      = (ConsensusGraphInner.insertArenaPhase s block).2.2
    ∧ ((ConsensusGraphInner.insert s block).1.node
        (ConsensusGraphInner.insert s block).2.1).past_weight
      = ((ConsensusGraphInner.insert s block).1.node
          (ConsensusGraphInner.insertArenaPhase s block).2.2).past_weight
        + (ConsensusGraphInner.insert s block).1.block_weight
            (ConsensusGraphInner.insertArenaPhase s block).2.2 false
        + (List.foldl
            (fun acc x => acc
              + (ConsensusGraphInner.insert s block).1.block_weight x false)
            0
            (((ConsensusGraphInner.insert s block).1.node
              (ConsensusGraphInner.insert s block).2.1).data.blockset_in_own_view_of_epoch)) := by
  have hidx : (ConsensusGraphInner.insertArenaPhase s block).2.1
      = s.arena.length := rfl
  have hlen2 : ((ConsensusGraphInner.insertArenaPhase s
        block).1.collect_blockset_in_own_view_of_epoch
        (ConsensusGraphInner.insertArenaPhase s block).2.1).arena.length
      = s.arena.length + 1 := by
    rw [collect_arena_length, insertArenaPhase_arena_length]
  have hlt : (ConsensusGraphInner.insertArenaPhase s block).2.1
      < ((ConsensusGraphInner.insertArenaPhase s
          block).1.collect_blockset_in_own_view_of_epoch
          (ConsensusGraphInner.insertArenaPhase s block).2.1).arena.length := by
    rw [hlen2, hidx]
    omega
  have hne : (ConsensusGraphInner.insertArenaPhase s block).2.2
      ≠ (ConsensusGraphInner.insertArenaPhase s block).2.1 := by
    rw [hidx]
    omega
  obtain ⟨hsp1, hsp2, hsp3⟩ := insertWeightPhase_spec
    ((ConsensusGraphInner.insertArenaPhase s
        block).1.collect_blockset_in_own_view_of_epoch
        (ConsensusGraphInner.insertArenaPhase s block).2.1)
    (ConsensusGraphInner.insertArenaPhase s block).2.1
    (ConsensusGraphInner.insertArenaPhase s block).2.2 hp hlt hne
  refine ⟨?_, ?_⟩
  · exact hsp1.trans ((collect_node_proj (fun nd => nd.parent)
      (by intro nd d; rfl) _ _ _).trans (insertArenaPhase_parent s block))
  · exact hsp3

/-- Witness for C5 at the one-genesis-node state and a child block. -/
theorem c5_past_weight_witness :
    (ConsensusGraphInner.insertArenaPhase c5S c5Block).2.2 ≠ NULL
    ∧ (ConsensusGraphInner.insertArenaPhase c5S c5Block).2.2
      < c5S.arena.length
    ∧ (((ConsensusGraphInner.insert c5S c5Block).1.node
        (ConsensusGraphInner.insert c5S c5Block).2.1).parent
      = (ConsensusGraphInner.insertArenaPhase c5S c5Block).2.2
    ∧ ((ConsensusGraphInner.insert c5S c5Block).1.node
        (ConsensusGraphInner.insert c5S c5Block).2.1).past_weight
      = ((ConsensusGraphInner.insert c5S c5Block).1.node
          (ConsensusGraphInner.insertArenaPhase c5S c5Block).2.2).past_weight
        + (ConsensusGraphInner.insert c5S c5Block).1.block_weight
            (ConsensusGraphInner.insertArenaPhase c5S c5Block).2.2 false
        + (List.foldl
            (fun acc x => acc
              + (ConsensusGraphInner.insert c5S c5Block).1.block_weight x false)
            0
            (((ConsensusGraphInner.insert c5S c5Block).1.node
              (ConsensusGraphInner.insert c5S c5Block).2.1).data.blockset_in_own_view_of_epoch))) :=
  ⟨by decide, by decide, c5_past_weight c5S c5Block (by decide) (by decide)⟩

/-!  ## Pointwise algebra of `path_apply` / `catepillar_apply` -/

theorem lct_ext (t u : MinLinkCutTree) (h1 : t.size = u.size)
    (h2 : t.par = u.par) (h3 : t.val = u.val) : t = u := by
  cases t
  cases u
  cases h1
  cases h2
  cases h3
  rfl

theorem pa_pa_comm (t : MinLinkCutTree) (x y : Nat) (d e : Int) :
    (t.path_apply x d).path_apply y e = (t.path_apply y e).path_apply x d := by
  refine lct_ext _ _ rfl rfl ?_
  funext n
  show (if n ∈ t.pathList y then
          (if n ∈ t.pathList x then t.val n + d else t.val n) + e
        else (if n ∈ t.pathList x then t.val n + d else t.val n))
      = (if n ∈ t.pathList x then
          (if n ∈ t.pathList y then t.val n + e else t.val n) + d
        else (if n ∈ t.pathList y then t.val n + e else t.val n))
  by_cases h1 : n ∈ t.pathList x <;> by_cases h2 : n ∈ t.pathList y <;>
    simp [h1, h2] <;> ring

theorem pa_ca_comm (t : MinLinkCutTree) (x y : Nat) (d e : Int) :
    (t.path_apply x d).catepillar_apply y e
      = (t.catepillar_apply y e).path_apply x d := by
  refine lct_ext _ _ rfl rfl ?_
  funext n
  show (if t.par n ∈ t.pathList y then
          (if n ∈ t.pathList x then t.val n + d else t.val n) + e
        else (if n ∈ t.pathList x then t.val n + d else t.val n))
      = (if n ∈ t.pathList x then
          (if t.par n ∈ t.pathList y then t.val n + e else t.val n) + d
        else (if t.par n ∈ t.pathList y then t.val n + e else t.val n))
  by_cases h1 : n ∈ t.pathList x <;> by_cases h2 : t.par n ∈ t.pathList y <;>
    simp [h1, h2] <;> ring

theorem ca_ca_comm (t : MinLinkCutTree) (x y : Nat) (d e : Int) :
    (t.catepillar_apply x d).catepillar_apply y e
      = (t.catepillar_apply y e).catepillar_apply x d := by
  refine lct_ext _ _ rfl rfl ?_
  funext n
  show (if t.par n ∈ t.pathList y then
          (if t.par n ∈ t.pathList x then t.val n + d else t.val n) + e
        else (if t.par n ∈ t.pathList x then t.val n + d else t.val n))
      = (if t.par n ∈ t.pathList x then
          (if t.par n ∈ t.pathList y then t.val n + e else t.val n) + d
        else (if t.par n ∈ t.pathList y then t.val n + e else t.val n))
  by_cases h1 : t.par n ∈ t.pathList x <;>
    by_cases h2 : t.par n ∈ t.pathList y <;> simp [h1, h2] <;> ring

theorem pa_add (t : MinLinkCutTree) (x : Nat) (d e : Int) :
    (t.path_apply x d).path_apply x e = t.path_apply x (d + e) := by
  refine lct_ext _ _ rfl rfl ?_
  funext n
  show (if n ∈ t.pathList x then
          (if n ∈ t.pathList x then t.val n + d else t.val n) + e
        else (if n ∈ t.pathList x then t.val n + d else t.val n))
      = (if n ∈ t.pathList x then t.val n + (d + e) else t.val n)
  by_cases h : n ∈ t.pathList x <;> simp [h] <;> ring

theorem ca_add (t : MinLinkCutTree) (x : Nat) (d e : Int) :
    (t.catepillar_apply x d).catepillar_apply x e
      = t.catepillar_apply x (d + e) := by
  refine lct_ext _ _ rfl rfl ?_
  funext n
  show (if t.par n ∈ t.pathList x then
          (if t.par n ∈ t.pathList x then t.val n + d else t.val n) + e
        else (if t.par n ∈ t.pathList x then t.val n + d else t.val n))
      = (if t.par n ∈ t.pathList x then t.val n + (d + e) else t.val n)
  by_cases h : t.par n ∈ t.pathList x <;> simp [h] <;> ring

theorem pa_zero (t : MinLinkCutTree) (x : Nat) : t.path_apply x 0 = t := by
  refine lct_ext _ _ rfl rfl ?_
  funext n
  show (if n ∈ t.pathList x then t.val n + 0 else t.val n) = t.val n
  by_cases h : n ∈ t.pathList x <;> simp [h]

theorem ca_zero (t : MinLinkCutTree) (x : Nat) :
    t.catepillar_apply x 0 = t := by
  refine lct_ext _ _ rfl rfl ?_
  funext n
  show (if t.par n ∈ t.pathList x then t.val n + 0 else t.val n) = t.val n
  by_cases h : t.par n ∈ t.pathList x <;> simp [h]

/-!  ## Fold commutation and cancellation -/

theorem foldl_comm_single {σ α β : Type _} (f : σ → α → σ) (g : σ → β → σ)
    (h : ∀ (t : σ) (a : α) (b : β), g (f t a) b = f (g t b) a) :
    ∀ (l : List α) (t : σ) (b : β), g (l.foldl f t) b = l.foldl f (g t b) := by
  intro l
  induction l with
  | nil => intro t b; rfl
  | cons a l ih =>
    intro t b
    simp only [List.foldl_cons]
    rw [ih (f t a) b, h]

theorem foldl_foldl_comm {σ α β : Type _} (f : σ → α → σ) (g : σ → β → σ)
    (h : ∀ (t : σ) (a : α) (b : β), g (f t a) b = f (g t b) a) :
    ∀ (lb : List β) (la : List α) (t : σ),
      lb.foldl g (la.foldl f t) = la.foldl f (lb.foldl g t) := by
  intro lb
  induction lb with
  | nil => intro la t; rfl
  | cons b lb ih =>
    intro la t
    simp only [List.foldl_cons]
    rw [foldl_comm_single f g h la t b]
    exact ih la (g t b)

theorem foldl_cancel {σ α : Type _} (f g : σ → α → σ)
    (hcomm : ∀ (t : σ) (a b : α), g (f t a) b = f (g t b) a)
    (hcancel : ∀ (t : σ) (a : α), g (f t a) a = t) :
    ∀ (l : List α) (t : σ), l.foldl g (l.foldl f t) = t := by
  intro l
  induction l with
  | nil => intro t; rfl
  | cons a l ih =>
    intro t
    simp only [List.foldl_cons]
    rw [foldl_comm_single f g hcomm l (f t a) a, hcancel]
    exact ih t

/-!  ## Commutation and cancellation of the concrete loop bodies -/

theorem cnode_trees (t : ConsensusGraphInner)
    (w iw sw st ad iad : MinLinkCutTree) (j : Nat) :
    ConsensusGraphInner.node
      { t with
        weight_tree := w
        inclusive_weight_tree := iw
        stable_weight_tree := sw
        stable_tree := st
        adaptive_tree := ad
        inclusive_adaptive_tree := iad } j = t.node j := rfl

theorem comm_ww (num den : Int) (t : ConsensusGraphInner) (a b : Nat × Int) :
    resWStep num den (subWStep num den t a) b
      = subWStep num den (resWStep num den t b) a := by
  unfold resWStep subWStep
  dsimp only
  simp only [cnode_trees]
  rw [pa_pa_comm t.weight_tree, pa_pa_comm t.stable_tree,
    ca_ca_comm t.adaptive_tree]

theorem comm_ws (num den : Int) (t : ConsensusGraphInner) (a b : Nat × Int) :
    resWStep num den (subSStep den t a) b
      = subSStep den (resWStep num den t b) a := by
  unfold resWStep subSStep
  dsimp only
  simp only [cnode_trees]
  rw [pa_ca_comm t.adaptive_tree]

theorem comm_wi (num den : Int) (t : ConsensusGraphInner) (a b : Nat × Int) :
    resWStep num den (subIStep num den t a) b
      = subIStep num den (resWStep num den t b) a := rfl

theorem comm_is (num den : Int) (t : ConsensusGraphInner) (a b : Nat × Int) :
    resIStep num den (subSStep den t a) b
      = subSStep den (resIStep num den t b) a := rfl

theorem comm_ii (num den : Int) (t : ConsensusGraphInner) (a b : Nat × Int) :
    resIStep num den (subIStep num den t a) b
      = subIStep num den (resIStep num den t b) a := by
  unfold resIStep subIStep
  dsimp only
  simp only [cnode_trees]
  rw [pa_ca_comm (t.inclusive_adaptive_tree.catepillar_apply
      ((t.node a.1).parent) (a.2 * num)),
    ca_ca_comm t.inclusive_adaptive_tree,
    pa_ca_comm (t.inclusive_adaptive_tree.catepillar_apply
      ((t.node b.1).parent) (-b.2 * num)),
    pa_pa_comm]

theorem comm_ss (den : Int) (t : ConsensusGraphInner) (a b : Nat × Int) :
    resSStep den (subSStep den t a) b
      = subSStep den (resSStep den t b) a := by
  unfold resSStep subSStep
  dsimp only
  rw [pa_pa_comm t.adaptive_tree]

theorem cancel_w (num den : Int) (t : ConsensusGraphInner) (a : Nat × Int) :
    resWStep num den (subWStep num den t a) a = t := by
  unfold resWStep subWStep
  dsimp only
  simp only [cnode_trees]
  rw [pa_add, ca_add, pa_add]
  rw [show -a.2 + a.2 = 0 by ring, show -a.2 * den + a.2 * den = 0 by ring,
    show a.2 * num + -a.2 * num = 0 by ring]
  rw [pa_zero, ca_zero, pa_zero]

theorem cancel_i (num den : Int) (t : ConsensusGraphInner) (a : Nat × Int) :
    resIStep num den (subIStep num den t a) a = t := by
  unfold resIStep subIStep
  dsimp only
  simp only [cnode_trees]
  rw [pa_ca_comm (t.inclusive_adaptive_tree.catepillar_apply
      ((t.node a.1).parent) (a.2 * num))]
  rw [ca_add, pa_add]
  rw [show a.2 * num + -a.2 * num = 0 by ring,
    show -a.2 * den + a.2 * den = 0 by ring]
  rw [ca_zero, pa_zero]

theorem cancel_s (den : Int) (t : ConsensusGraphInner) (a : Nat × Int) :
    resSStep den (subSStep den t a) a = t := by
  unfold resSStep subSStep
  dsimp only
  rw [pa_add, show -a.2 * den + a.2 * den = 0 by ring, pa_zero]

theorem cp_comm (t : ConsensusGraphInner) (a b : Nat × Int) :
    cpResStep (cpSubStep t a) b = cpSubStep (cpResStep t b) a := by
  unfold cpResStep cpSubStep
  dsimp only
  rw [pa_pa_comm t.weight_tree]

theorem cp_cancel (t : ConsensusGraphInner) (a : Nat × Int) :
    cpResStep (cpSubStep t a) a = t := by
  unfold cpResStep cpSubStep
  dsimp only
  rw [pa_add, show -a.2 + a.2 = 0 by ring, pa_zero]

/-!  ## The subtract/restore phases cancel -/

theorem subtractDeltas_eq (s : ConsensusGraphInner)
    (wd iwd swd : List (Nat × Int)) :
    ConsensusGraphInner.subtractDeltas s wd iwd swd
      = swd.foldl (subSStep (s.inner_conf.adaptive_weight_alpha_den : Int))
          (iwd.foldl (subIStep (s.inner_conf.adaptive_weight_alpha_num : Int)
              (s.inner_conf.adaptive_weight_alpha_den : Int))
            (wd.foldl (subWStep (s.inner_conf.adaptive_weight_alpha_num : Int)
                (s.inner_conf.adaptive_weight_alpha_den : Int)) s)) := rfl

theorem restoreDeltas_eq (t : ConsensusGraphInner)
    (wd iwd swd : List (Nat × Int)) :
    ConsensusGraphInner.restoreDeltas t wd iwd swd
      = swd.foldl (resSStep (t.inner_conf.adaptive_weight_alpha_den : Int))
          (iwd.foldl (resIStep (t.inner_conf.adaptive_weight_alpha_num : Int)
              (t.inner_conf.adaptive_weight_alpha_den : Int))
            (wd.foldl (resWStep (t.inner_conf.adaptive_weight_alpha_num : Int)
                (t.inner_conf.adaptive_weight_alpha_den : Int)) t)) := rfl

theorem subtract_inner_conf (s : ConsensusGraphInner)
    (wd iwd swd : List (Nat × Int)) :
    (ConsensusGraphInner.subtractDeltas s wd iwd swd).inner_conf
      = s.inner_conf := by
  rw [subtractDeltas_eq]
  exact foldl_preserve
    (fun (t : ConsensusGraphInner) => t.inner_conf = s.inner_conf)
    (subSStep (s.inner_conf.adaptive_weight_alpha_den : Int))
    (fun t a h => h) swd _
    (foldl_preserve
      (fun (t : ConsensusGraphInner) => t.inner_conf = s.inner_conf)
      (subIStep (s.inner_conf.adaptive_weight_alpha_num : Int)
        (s.inner_conf.adaptive_weight_alpha_den : Int))
      (fun t a h => h) iwd _
      (foldl_preserve
        (fun (t : ConsensusGraphInner) => t.inner_conf = s.inner_conf)
        (subWStep (s.inner_conf.adaptive_weight_alpha_num : Int)
          (s.inner_conf.adaptive_weight_alpha_den : Int))
        (fun t a h => h) wd s rfl))

theorem restore_subtract_id (s : ConsensusGraphInner)
    (wd iwd swd : List (Nat × Int)) :
    ConsensusGraphInner.restoreDeltas
      (ConsensusGraphInner.subtractDeltas s wd iwd swd) wd iwd swd = s := by
  rw [restoreDeltas_eq, subtract_inner_conf, subtractDeltas_eq]
  rw [foldl_foldl_comm
      (subSStep (s.inner_conf.adaptive_weight_alpha_den : Int))
      (resWStep (s.inner_conf.adaptive_weight_alpha_num : Int)
        (s.inner_conf.adaptive_weight_alpha_den : Int))
      (fun t a b => comm_ws _ _ t a b)]
  rw [foldl_foldl_comm
      (subIStep (s.inner_conf.adaptive_weight_alpha_num : Int)
        (s.inner_conf.adaptive_weight_alpha_den : Int))
      (resWStep (s.inner_conf.adaptive_weight_alpha_num : Int)
        (s.inner_conf.adaptive_weight_alpha_den : Int))
      (fun t a b => comm_wi _ _ t a b)]
  rw [foldl_cancel
      (subWStep (s.inner_conf.adaptive_weight_alpha_num : Int)
        (s.inner_conf.adaptive_weight_alpha_den : Int))
      (resWStep (s.inner_conf.adaptive_weight_alpha_num : Int)
        (s.inner_conf.adaptive_weight_alpha_den : Int))
      (fun t a b => comm_ww _ _ t a b) (fun t a => cancel_w _ _ t a)]
  rw [foldl_foldl_comm
      (subSStep (s.inner_conf.adaptive_weight_alpha_den : Int))
      (resIStep (s.inner_conf.adaptive_weight_alpha_num : Int)
        (s.inner_conf.adaptive_weight_alpha_den : Int))
      (fun t a b => comm_is _ _ t a b)]
  rw [foldl_cancel
      (subIStep (s.inner_conf.adaptive_weight_alpha_num : Int)
        (s.inner_conf.adaptive_weight_alpha_den : Int))
      (resIStep (s.inner_conf.adaptive_weight_alpha_num : Int)
        (s.inner_conf.adaptive_weight_alpha_den : Int))
      (fun t a b => comm_ii _ _ t a b) (fun t a => cancel_i _ _ t a)]
  rw [foldl_cancel
      (subSStep (s.inner_conf.adaptive_weight_alpha_den : Int))
      (resSStep (s.inner_conf.adaptive_weight_alpha_den : Int))
      (fun t a b => comm_ss _ t a b) (fun t a => cancel_s _ t a)]

/-- Claim C6: the anticone-aware queries leave the six link-cut trees (and in
fact the whole inner state) unchanged: `adaptive_weight_impl` on its fast
path (`weight_tuple = None`, consensus/mod.rs lines 623-813) subtracts the
anticone-barrier contributions, queries, and restores them exactly, and
`check_correct_parent` (lines 1059-1129) does the same with the weight tree;
both return the state they were given. -/
theorem c6_trees_restored (s : ConsensusGraphInner) (parent_0 me : Nat)
    (anticone_barrier : List Nat) (difficulty : Int) :
    (ConsensusGraphInner.adaptive_weight_impl s parent_0 anticone_barrier
        none difficulty).2 = s
    ∧ (ConsensusGraphInner.check_correct_parent s me anticone_barrier
        none).2 = s := by
  constructor
  · exact restore_subtract_id s _ _ _
  · exact foldl_cancel cpSubStep cpResStep cp_comm cp_cancel _ s

/-- Counterexample to C7 as stated: blocks 0 (hash 9) and 1 (hash 3) are
mutually independent members of pivot 2's epoch blockset, yet after
`collect_blockset_in_own_view_of_epoch` the stored `ordered_epoch_blocks`
is `[1, 0, 2]` -- the hash-3 block before the hash-9 block, an ASCENDING
tie -- because the loop emits max-hash first into a list that is then
reversed.  The claim's descending-hash tie-break demands `[0, 1, 2]`. -/
theorem c7_counterexample :
    ((c7S.collect_blockset_in_own_view_of_epoch 2).node
        2).data.ordered_epoch_blocks = [1, 0, 2]
    ∧ (c7S.node 0).hash > (c7S.node 1).hash
    ∧ (c7S.node 0).parent ∉ [0, 1, 2] ∧ (c7S.node 1).parent ∉ [0, 1, 2]
    ∧ (c7S.node 0).referees = [] ∧ (c7S.node 1).referees = [] := by
  refine ⟨by decide, by decide, by decide, by decide, by decide, by decide⟩

/-!  ## Association-list and list utilities for the Kahn proof -/

theorem alGet_alSet_self (l : List (Nat × Nat)) (k v d : Nat) :
    alGet (alSet l k v) k d = v := by
  unfold alGet alSet
  by_cases ha : l.any (fun p => p.1 = k)
  · rw [if_pos ha]
    rw [List.any_eq_true] at ha
    obtain ⟨p, hp, hpk⟩ := ha
    simp only [decide_eq_true_eq] at hpk
    induction l with
    | nil => cases hp
    | cons a l ih =>
      rcases List.mem_cons.mp hp with h | h
      · subst h
        simp [hpk]
      · by_cases hak : a.1 = k
        · simp [hak]
        · simp only [List.map_cons, List.find?_cons, hak]
          simp only [decide_False, if_false]
          have := ih h
          simpa [hak] using this
  · rw [if_neg ha]
    simp

theorem alGet_alSet_ne (l : List (Nat × Nat)) (k v d y : Nat) (h : y ≠ k) :
    alGet (alSet l k v) y d = alGet l y d := by
  unfold alGet alSet
  by_cases ha : l.any (fun p => p.1 = k)
  · rw [if_pos ha]
    rw [find?_map_keyfix]
    · intro p
      by_cases hp : p.1 = k <;> simp [hp]
    · intro p hp
      have : ¬(p.1 = k) := by
        rw [hp]
        exact fun hc => h hc
      simp [this]
  · rw [if_neg ha]
    simp only [List.find?_cons]
    have : ¬((k, v).1 = y) := fun hc => h (hc.symm)
    simp [this]

theorem alGet_alEntryOr_zero (l : List (Nat × Nat)) (k y : Nat) :
    alGet (alEntryOr l k 0) y 0 = alGet l y 0 := by
  unfold alGet alEntryOr
  by_cases ha : l.any (fun p => p.1 = k)
  · rw [if_pos ha]
  · rw [if_neg ha]
    by_cases hyk : y = k
    · subst hyk
      have hnone : l.find? (fun p => p.1 = y) = none := by
        rw [List.find?_eq_none]
        intro p hp
        intro hc
        exact ha (List.any_eq_true.mpr ⟨p, hp, hc⟩)
      simp [hnone]
    · simp only [List.find?_cons]
      have : ¬((k, 0).1 = y) := fun hc => hyk (hc.symm)
      simp [this]

theorem list_max_exists (l : List Nat) (h : l ≠ []) :
    ∃ m ∈ l, ∀ x ∈ l, x ≤ m := by
  induction l with
  | nil => exact absurd rfl h
  | cons a l ih =>
    cases l with
    | nil =>
      exact ⟨a, List.mem_cons_self a [], by
        intro x hx
        rcases List.mem_cons.mp hx with h | h
        · omega
        · cases h⟩
    | cons b l' =>
      obtain ⟨m, hm, hmax⟩ := ih (by simp)
      by_cases ham : a ≤ m
      · exact ⟨m, List.mem_cons_of_mem a hm, by
          intro x hx
          rcases List.mem_cons.mp hx with h | h
          · omega
          · exact hmax x h⟩
      · exact ⟨a, List.mem_cons_self a _, by
          intro x hx
          rcases List.mem_cons.mp hx with h | h
          · omega
          · have := hmax x h
            omega⟩

theorem maxByHash_mem (s : ConsensusGraphInner) (l : List Nat) (h : l ≠ []) :
    ConsensusGraphInner.maxByHash s l ∈ l := by
  cases l with
  | nil => exact absurd rfl h
  | cons x xs =>
    unfold ConsensusGraphInner.maxByHash
    have key : ∀ (ys : List Nat) (b : Nat), b ∈ x :: xs →
        (∀ y ∈ ys, y ∈ x :: xs) →
        ys.foldl (fun best c =>
          if (s.node c).hash > (s.node best).hash then c else best) b ∈ x :: xs := by
      intro ys
      induction ys with
      | nil => intro b hb _; exact hb
      | cons y ys ih =>
        intro b hb hys
        simp only [List.foldl_cons]
        refine ih _ ?_ ?_
        · by_cases hc : (s.node y).hash > (s.node b).hash
          · rw [if_pos hc]
            exact hys y (List.mem_cons_self y ys)
          · rw [if_neg hc]
            exact hb
        · intro z hz
          exact hys z (List.mem_cons_of_mem y hz)
    exact key xs x (List.mem_cons_self x xs) (fun y hy => List.mem_cons_of_mem x hy)

theorem slInsert_mem (l : List Nat) (x z : Nat) :
    z ∈ slInsert l x ↔ z ∈ l ∨ z = x := by
  unfold slInsert
  by_cases h : x ∈ l
  · rw [if_pos h]
    constructor
    · exact Or.inl
    · intro hc
      rcases hc with hc | hc
      · exact hc
      · rw [hc]; exact h
  · rw [if_neg h]
    simp

theorem slInsert_nodup (l : List Nat) (x : Nat) (h : l.Nodup) :
    (slInsert l x).Nodup := by
  unfold slInsert
  by_cases hm : x ∈ l
  · rw [if_pos hm]; exact h
  · rw [if_neg hm]
    rw [List.nodup_append]
    exact ⟨h, List.nodup_singleton x, by
      intro a ha hb
      rw [List.mem_singleton] at hb
      rw [hb] at ha
      exact hm ha⟩

theorem remDeps_append (s : ConsensusGraphInner) (S R : List Nat) (me y : Nat)
    (hS : S.Nodup) (hme : me ∈ S) (hR : me ∉ R) :
    remDeps s S R y = remDeps s S (R ++ [me]) y
      + (if (s.node me).parent = y ∨ y ∈ (s.node me).referees then 1
        else 0) := by
  unfold remDeps
  induction S with
  | nil => cases hme
  | cons a S ih =>
    rw [List.nodup_cons] at hS
    simp only [List.filter_cons]
    by_cases ham : a = me
    · subst ham
      have hfeq : S.filter (fun x => decide (x ∉ R
            ∧ ((s.node x).parent = y ∨ y ∈ (s.node x).referees)))
          = S.filter (fun x => decide (x ∉ R ++ [a]
            ∧ ((s.node x).parent = y ∨ y ∈ (s.node x).referees))) := by
        refine List.filter_congr ?_
        intro x hx
        have hxa : x ≠ a := fun hc => hS.1 (hc ▸ hx)
        have : x ∉ R ++ [a] ↔ x ∉ R := by
          simp [List.mem_append, hxa]
        simp only [decide_eq_decide]
        rw [this]
      rw [hfeq]
      have hina : a ∈ R ++ [a] := by simp
      by_cases hd : (s.node a).parent = y ∨ y ∈ (s.node a).referees
      · have hp1 : decide (a ∉ R
            ∧ ((s.node a).parent = y ∨ y ∈ (s.node a).referees)) = true := by
          simp [hR, hd]
        have hp2 : decide (a ∉ R ++ [a]
            ∧ ((s.node a).parent = y ∨ y ∈ (s.node a).referees)) = false := by
          simp [hina]
        rw [hp1, hp2, if_pos hd]
        simp [Nat.add_comm]
      · have hp1 : decide (a ∉ R
            ∧ ((s.node a).parent = y ∨ y ∈ (s.node a).referees)) = false := by
          simp [hd]
        have hp2 : decide (a ∉ R ++ [a]
            ∧ ((s.node a).parent = y ∨ y ∈ (s.node a).referees)) = false := by
          simp [hina]
        rw [hp1, hp2, if_neg hd]
        simp
    · have hmem : me ∈ S := by
        rcases List.mem_cons.mp hme with h | h
        · exact absurd h.symm ham
        · exact h
      have heq : (decide (a ∉ R ++ [me]
            ∧ ((s.node a).parent = y ∨ y ∈ (s.node a).referees)))
          = (decide (a ∉ R
            ∧ ((s.node a).parent = y ∨ y ∈ (s.node a).referees))) := by
        have : a ∉ R ++ [me] ↔ a ∉ R := by
          simp [List.mem_append, ham]
        simp only [decide_eq_decide]
        rw [this]
      rw [heq]
      by_cases hp : decide (a ∉ R
          ∧ ((s.node a).parent = y ∨ y ∈ (s.node a).referees)) = true
      · rw [if_pos hp, if_pos hp]
        simp only [List.length_cons]
        have := ih hS.2 hmem
        omega
      · rw [if_neg hp, if_neg hp]
        exact ih hS.2 hmem

theorem remDeps_mono (s : ConsensusGraphInner) (S R : List Nat) (me y : Nat) :
    remDeps s S (R ++ [me]) y ≤ remDeps s S R y := by
  unfold remDeps
  induction S with
  | nil => exact Nat.le_refl _
  | cons a S ih =>
    simp only [List.filter_cons]
    by_cases hp2 : a ∉ R ++ [me]
        ∧ ((s.node a).parent = y ∨ y ∈ (s.node a).referees)
    · have hp1 : a ∉ R
          ∧ ((s.node a).parent = y ∨ y ∈ (s.node a).referees) := by
        refine ⟨?_, hp2.2⟩
        intro hc
        exact hp2.1 (by simp [List.mem_append, hc])
      rw [if_pos (decide_eq_true hp2), if_pos (decide_eq_true hp1)]
      simp only [List.length_cons]
      omega
    · rw [if_neg (by simpa using hp2)]
      by_cases hp1 : a ∉ R
          ∧ ((s.node a).parent = y ∨ y ∈ (s.node a).referees)
      · rw [if_pos (decide_eq_true hp1)]
        simp only [List.length_cons]
        omega
      · rw [if_neg (by simpa using hp1)]
        exact ih

theorem remDeps_zero_iff (s : ConsensusGraphInner) (S R : List Nat) (y : Nat) :
    remDeps s S R y = 0 ↔ ∀ x ∈ S, x ∉ R →
      ¬((s.node x).parent = y ∨ y ∈ (s.node x).referees) := by
  unfold remDeps
  rw [List.length_eq_zero, List.filter_eq_nil]
  constructor
  · intro h x hx hxR hd
    exact h x hx (by simp [hxR, hd])
  · intro h x hx
    simp only [decide_eq_true_eq, not_and]
    intro hxR
    exact h x hx hxR

theorem refDecFold_spec (s : ConsensusGraphInner) (S : List Nat) :
    ∀ (refs : List Nat), refs.Nodup → ∀ (N : List (Nat × Nat)) (C : List Nat),
    (∀ y, y ∈ refs → y ∈ S →
      alGet (refs.foldl
        (fun (acc : List (Nat × Nat) × List Nat) referee =>
          if referee ∈ S then
            let n := alGet acc.1 referee 0 - 1
            let acc1 := alSet acc.1 referee n
            if n = 0 then (acc1, slInsert acc.2 referee)
            else (acc1, acc.2)
          else acc) (N, C)).1 y 0 = alGet N y 0 - 1)
    ∧ (∀ y, (y ∉ refs ∨ y ∉ S) →
      alGet (refs.foldl
        (fun (acc : List (Nat × Nat) × List Nat) referee =>
          if referee ∈ S then
            let n := alGet acc.1 referee 0 - 1
            let acc1 := alSet acc.1 referee n
            if n = 0 then (acc1, slInsert acc.2 referee)
            else (acc1, acc.2)
          else acc) (N, C)).1 y 0 = alGet N y 0)
    ∧ (∀ z, z ∈ (refs.foldl
        (fun (acc : List (Nat × Nat) × List Nat) referee =>
          if referee ∈ S then
            let n := alGet acc.1 referee 0 - 1
            let acc1 := alSet acc.1 referee n
            if n = 0 then (acc1, slInsert acc.2 referee)
            else (acc1, acc.2)
          else acc) (N, C)).2
      ↔ z ∈ C ∨ (z ∈ refs ∧ z ∈ S ∧ alGet N z 0 - 1 = 0))
    ∧ (C.Nodup → (refs.foldl
        (fun (acc : List (Nat × Nat) × List Nat) referee =>
          if referee ∈ S then
            let n := alGet acc.1 referee 0 - 1
            let acc1 := alSet acc.1 referee n
            if n = 0 then (acc1, slInsert acc.2 referee)
            else (acc1, acc.2)
          else acc) (N, C)).2.Nodup) := by
  intro refs
  induction refs with
  | nil =>
    intro _ N C
    refine ⟨?_, ?_, ?_, ?_⟩
    · intro y hy; cases hy
    · intro y _; rfl
    · intro z
      simp
    · intro h; exact h
  | cons r refs ih =>
    intro hnd N C
    rw [List.nodup_cons] at hnd
    simp only [List.foldl_cons]
    by_cases hrS : r ∈ S
    · rw [if_pos hrS]
      by_cases hz : alGet N r 0 - 1 = 0
      · rw [if_pos hz]
        obtain ⟨ih1, ih2, ih3, ih4⟩ :=
          ih hnd.2 (alSet N r (alGet N r 0 - 1)) (slInsert C r)
        refine ⟨?_, ?_, ?_, ?_⟩
        · intro y hy hyS
          rcases List.mem_cons.mp hy with h | h
          · subst h
            rw [ih2 y (Or.inl hnd.1), alGet_alSet_self]
          · have hyr : y ≠ r := fun hc => hnd.1 (hc ▸ h)
            rw [ih1 y h hyS, alGet_alSet_ne _ _ _ _ _ hyr]
        · intro y hy
          have hyr : y ∉ refs ∨ y ∉ S := by
            rcases hy with h | h
            · exact Or.inl (fun hc => h (List.mem_cons_of_mem r hc))
            · exact Or.inr h
          rw [ih2 y hyr]
          have hne : y ≠ r := by
            rcases hy with h | h
            · intro hc; exact h (hc ▸ List.mem_cons_self r refs)
            · intro hc; exact h (hc ▸ hrS)
          rw [alGet_alSet_ne _ _ _ _ _ hne]
        · intro z
          rw [ih3 z, slInsert_mem]
          constructor
          · intro h
            rcases h with (h | h) | h
            · exact Or.inl h
            · exact Or.inr ⟨h ▸ List.mem_cons_self r refs, h ▸ hrS, h ▸ hz⟩
            · have hzr : z ≠ r := fun hc => hnd.1 (hc ▸ h.1)
              rw [alGet_alSet_ne _ _ _ _ _ hzr] at h
              exact Or.inr ⟨List.mem_cons_of_mem r h.1, h.2⟩
          · intro h
            rcases h with h | ⟨h1, h2, h3⟩
            · exact Or.inl (Or.inl h)
            · rcases List.mem_cons.mp h1 with h | h
              · exact Or.inl (Or.inr h)
              · have hzr : z ≠ r := fun hc => hnd.1 (hc ▸ h)
                rw [← alGet_alSet_ne N r (alGet N r 0 - 1) 0 z hzr] at h3
                exact Or.inr ⟨h, h2, h3⟩
        · intro h
          exact ih4 (slInsert_nodup _ _ h)
      · rw [if_neg hz]
        obtain ⟨ih1, ih2, ih3, ih4⟩ :=
          ih hnd.2 (alSet N r (alGet N r 0 - 1)) C
        refine ⟨?_, ?_, ?_, ?_⟩
        · intro y hy hyS
          rcases List.mem_cons.mp hy with h | h
          · subst h
            rw [ih2 y (Or.inl hnd.1), alGet_alSet_self]
          · have hyr : y ≠ r := fun hc => hnd.1 (hc ▸ h)
            rw [ih1 y h hyS, alGet_alSet_ne _ _ _ _ _ hyr]
        · intro y hy
          have hyr : y ∉ refs ∨ y ∉ S := by
            rcases hy with h | h
            · exact Or.inl (fun hc => h (List.mem_cons_of_mem r hc))
            · exact Or.inr h
          rw [ih2 y hyr]
          have hne : y ≠ r := by
            rcases hy with h | h
            · intro hc; exact h (hc ▸ List.mem_cons_self r refs)
            · intro hc; exact h (hc ▸ hrS)
          rw [alGet_alSet_ne _ _ _ _ _ hne]
        · intro z
          rw [ih3 z]
          constructor
          · intro h
            rcases h with h | h
            · exact Or.inl h
            · have hzr : z ≠ r := fun hc => hnd.1 (hc ▸ h.1)
              rw [alGet_alSet_ne _ _ _ _ _ hzr] at h
              exact Or.inr ⟨List.mem_cons_of_mem r h.1, h.2⟩
          · intro h
            rcases h with h | ⟨h1, h2, h3⟩
            · exact Or.inl h
            · rcases List.mem_cons.mp h1 with h | h
              · exact absurd (h ▸ h3) hz
              · have hzr : z ≠ r := fun hc => hnd.1 (hc ▸ h)
                rw [← alGet_alSet_ne N r (alGet N r 0 - 1) 0 z hzr] at h3
                exact Or.inr ⟨h, h2, h3⟩
        · exact ih4
    · rw [if_neg hrS]
      obtain ⟨ih1, ih2, ih3, ih4⟩ := ih hnd.2 N C
      refine ⟨?_, ?_, ?_, ?_⟩
      · intro y hy hyS
        rcases List.mem_cons.mp hy with h | h
        · exact absurd (h ▸ hyS) hrS
        · exact ih1 y h hyS
      · intro y hy
        refine ih2 y ?_
        rcases hy with h | h
        · exact Or.inl (fun hc => h (List.mem_cons_of_mem r hc))
        · exact Or.inr h
      · intro z
        rw [ih3 z]
        constructor
        · intro h
          rcases h with h | h
          · exact Or.inl h
          · exact Or.inr ⟨List.mem_cons_of_mem r h.1, h.2⟩
        · intro h
          rcases h with h | ⟨h1, h2, h3⟩
          · exact Or.inl h
          · rcases List.mem_cons.mp h1 with h | h
            · exact absurd (h ▸ h2) hrS
            · exact Or.inr ⟨h, h2, h3⟩
      · exact ih4

theorem parentPhase_spec (s : ConsensusGraphInner) (S : List Nat)
    (N : List (Nat × Nat)) (C₀ : List Nat) (me : Nat) :
    (∀ y, y ≠ (s.node me).parent →
      alGet (if (s.node me).parent ∈ S then
          let n := alGet N (s.node me).parent 0 - 1
          let N' := alSet N (s.node me).parent n
          if n = 0 then (N', slInsert C₀ (s.node me).parent) else (N', C₀)
        else (N, C₀)).1 y 0 = alGet N y 0)
    ∧ ((s.node me).parent ∈ S →
      alGet (if (s.node me).parent ∈ S then
          let n := alGet N (s.node me).parent 0 - 1
          let N' := alSet N (s.node me).parent n
          if n = 0 then (N', slInsert C₀ (s.node me).parent) else (N', C₀)
        else (N, C₀)).1 (s.node me).parent 0
        = alGet N (s.node me).parent 0 - 1)
    ∧ ((s.node me).parent ∉ S →
      (if (s.node me).parent ∈ S then
          let n := alGet N (s.node me).parent 0 - 1
          let N' := alSet N (s.node me).parent n
          if n = 0 then (N', slInsert C₀ (s.node me).parent) else (N', C₀)
        else (N, C₀)).1 = N)
    ∧ (∀ z, z ∈ (if (s.node me).parent ∈ S then
          let n := alGet N (s.node me).parent 0 - 1
          let N' := alSet N (s.node me).parent n
          if n = 0 then (N', slInsert C₀ (s.node me).parent) else (N', C₀)
        else (N, C₀)).2
      ↔ z ∈ C₀ ∨ (z = (s.node me).parent ∧ (s.node me).parent ∈ S
          ∧ alGet N (s.node me).parent 0 - 1 = 0))
    ∧ (C₀.Nodup → (if (s.node me).parent ∈ S then
          let n := alGet N (s.node me).parent 0 - 1
          let N' := alSet N (s.node me).parent n
          if n = 0 then (N', slInsert C₀ (s.node me).parent) else (N', C₀)
        else (N, C₀)).2.Nodup) := by
  by_cases hpS : (s.node me).parent ∈ S
  · rw [if_pos hpS]
    by_cases hp0 : alGet N (s.node me).parent 0 - 1 = 0
    · rw [if_pos hp0]
      refine ⟨?_, ?_, ?_, ?_, ?_⟩
      · intro y hy
        exact alGet_alSet_ne _ _ _ _ _ hy
      · intro _
        rw [alGet_alSet_self]
      · intro hc
        exact absurd hpS hc
      · intro z
        rw [slInsert_mem]
        constructor
        · intro h
          rcases h with h | h
          · exact Or.inl h
          · exact Or.inr ⟨h, hpS, hp0⟩
        · intro h
          rcases h with h | h
          · exact Or.inl h
          · exact Or.inr h.1
      · intro h
        exact slInsert_nodup _ _ h
    · rw [if_neg hp0]
      refine ⟨?_, ?_, ?_, ?_, ?_⟩
      · intro y hy
        exact alGet_alSet_ne _ _ _ _ _ hy
      · intro _
        rw [alGet_alSet_self]
      · intro hc
        exact absurd hpS hc
      · intro z
        constructor
        · exact Or.inl
        · intro h
          rcases h with h | h
          · exact h
          · exact absurd h.2.2 hp0
      · intro h
        exact h
  · rw [if_neg hpS]
    refine ⟨fun y _ => rfl, fun h => absurd h hpS, fun _ => rfl, ?_, fun h => h⟩
    intro z
    constructor
    · exact Or.inl
    · intro h
      rcases h with h | h
      · exact h
      · exact absurd h.2.1 hpS

theorem filter_notmem_append (S R : List Nat) (me : Nat) (hS : S.Nodup)
    (hme : me ∈ S) (hR : me ∉ R) :
    (S.filter (fun x => x ∉ R)).length
      = (S.filter (fun x => x ∉ R ++ [me])).length + 1 := by
  induction S with
  | nil => cases hme
  | cons a S ih =>
    rw [List.nodup_cons] at hS
    simp only [List.filter_cons]
    by_cases ham : a = me
    · subst ham
      have hfeq : S.filter (fun x => decide (x ∉ R))
          = S.filter (fun x => decide (x ∉ R ++ [a])) := by
        refine List.filter_congr ?_
        intro x hx
        have hxa : x ≠ a := fun hc => hS.1 (hc ▸ hx)
        simp only [decide_eq_decide]
        simp [List.mem_append, hxa]
      rw [hfeq]
      rw [if_pos (decide_eq_true hR),
        if_neg (by simp : ¬(decide (a ∉ R ++ [a]) = true))]
      simp
    · have hmem : me ∈ S := by
        rcases List.mem_cons.mp hme with h | h
        · exact absurd h.symm ham
        · exact h
      have heq : (decide (a ∉ R ++ [me])) = (decide (a ∉ R)) := by
        simp only [decide_eq_decide]
        simp [List.mem_append, ham]
      rw [heq]
      by_cases hp : decide (a ∉ R) = true
      · rw [if_pos hp, if_pos hp]
        simp only [List.length_cons]
        rw [ih hS.2 hmem]
      · rw [if_neg hp, if_neg hp]
        exact ih hS.2 hmem

theorem topoStep_inv (s : ConsensusGraphInner) (S : List Nat) (hS : S.Nodup)
    (hlt : ∀ x ∈ S, ∀ y ∈ S,
      ((s.node x).parent = y ∨ y ∈ (s.node x).referees) → y < x)
    (hsimple : ∀ x ∈ S, (s.node x).referees.Nodup
      ∧ (s.node x).parent ∉ (s.node x).referees)
    (N : List (Nat × Nat)) (C R : List Nat) (hinv : TopoInv s S N C R)
    (me : Nat) (hmeC : me ∈ C)
    (N₁ : List (Nat × Nat)) (C₁ : List Nat)
    (hP1 : ∀ y, y ≠ (s.node me).parent → alGet N₁ y 0 = alGet N y 0)
    (hP2 : (s.node me).parent ∈ S →
      alGet N₁ (s.node me).parent 0 = alGet N (s.node me).parent 0 - 1)
    (hP4 : ∀ z, z ∈ C₁ ↔ z ∈ C.erase me
      ∨ (z = (s.node me).parent ∧ (s.node me).parent ∈ S
          ∧ alGet N (s.node me).parent 0 - 1 = 0))
    (hC₁nd : C₁.Nodup) :
    TopoInv s S
      ((s.node me).referees.foldl
        (fun (acc : List (Nat × Nat) × List Nat) referee =>
          if referee ∈ S then
            let n := alGet acc.1 referee 0 - 1
            let acc1 := alSet acc.1 referee n
            if n = 0 then (acc1, slInsert acc.2 referee)
            else (acc1, acc.2)
          else acc) (N₁, C₁)).1
      ((s.node me).referees.foldl
        (fun (acc : List (Nat × Nat) × List Nat) referee =>
          if referee ∈ S then
            let n := alGet acc.1 referee 0 - 1
            let acc1 := alSet acc.1 referee n
            if n = 0 then (acc1, slInsert acc.2 referee)
            else (acc1, acc.2)
          else acc) (N₁, C₁)).2
      (R ++ [me]) := by
  obtain ⟨hI1, hCnd, hCsound, hCcomp, hRnd, hRsub, hI4, hI5⟩ := hinv
  obtain ⟨hmeS, hmeR, hme0⟩ := hCsound me hmeC
  obtain ⟨hrefnd, hrefpar⟩ := hsimple me hmeS
  obtain ⟨hF1, hF2, hF3, hF4⟩ := refDecFold_spec s S (s.node me).referees
    hrefnd N₁ C₁
  have hC₀mem : ∀ z, z ∈ C.erase me ↔ z ≠ me ∧ z ∈ C := by
    intro z
    exact hCnd.mem_erase_iff
  -- the post-step count at any set member
  have hra := fun y => remDeps_append s S R me y hS hmeS hmeR
  have hcount : ∀ y ∈ S,
      alGet ((s.node me).referees.foldl
        (fun (acc : List (Nat × Nat) × List Nat) referee =>
          if referee ∈ S then
            let n := alGet acc.1 referee 0 - 1
            let acc1 := alSet acc.1 referee n
            if n = 0 then (acc1, slInsert acc.2 referee)
            else (acc1, acc.2)
          else acc) (N₁, C₁)).1 y 0 = remDeps s S (R ++ [me]) y := by
    intro y hyS
    by_cases hyp : y = (s.node me).parent
    · have hpy : (s.node me).parent = y := hyp.symm
      have hynr : y ∉ (s.node me).referees := hyp ▸ hrefpar
      rw [hF2 y (Or.inl hynr)]
      rw [hyp, hP2 (hyp ▸ hyS)]
      have h1 := hI1 _ (hyp ▸ hyS)
      have h2 := hra (s.node me).parent
      rw [if_pos (Or.inl rfl)] at h2
      omega
    · by_cases hyr : y ∈ (s.node me).referees
      · rw [hF1 y hyr hyS, hP1 y hyp]
        have h1 := hI1 y hyS
        have h2 := hra y
        rw [if_pos (Or.inr hyr)] at h2
        omega
      · rw [hF2 y (Or.inl hyr), hP1 y hyp]
        have h1 := hI1 y hyS
        have h2 := hra y
        rw [if_neg (by
          intro hc
          rcases hc with hc | hc
          · exact hyp hc.symm
          · exact hyr hc)] at h2
        omega
  -- candidate membership after the step
  have hmemC₂ : ∀ z, z ∈ ((s.node me).referees.foldl
      (fun (acc : List (Nat × Nat) × List Nat) referee =>
        if referee ∈ S then
          let n := alGet acc.1 referee 0 - 1
          let acc1 := alSet acc.1 referee n
          if n = 0 then (acc1, slInsert acc.2 referee)
          else (acc1, acc.2)
        else acc) (N₁, C₁)).2
      ↔ (z ≠ me ∧ z ∈ C)
        ∨ (z = (s.node me).parent ∧ (s.node me).parent ∈ S
            ∧ alGet N (s.node me).parent 0 - 1 = 0)
        ∨ (z ∈ (s.node me).referees ∧ z ∈ S ∧ alGet N z 0 - 1 = 0) := by
    intro z
    rw [hF3 z, hP4 z, hC₀mem z]
    constructor
    · intro h
      rcases h with (h | h) | ⟨h1, h2, h3⟩
      · exact Or.inl h
      · exact Or.inr (Or.inl h)
      · have hzp : z ≠ (s.node me).parent := fun hc => hrefpar (hc ▸ h1)
        rw [hP1 z hzp] at h3
        exact Or.inr (Or.inr ⟨h1, h2, h3⟩)
    · intro h
      rcases h with h | h | ⟨h1, h2, h3⟩
      · exact Or.inl (Or.inl h)
      · exact Or.inl (Or.inr h)
      · have hzp : z ≠ (s.node me).parent := fun hc => hrefpar (hc ▸ h1)
        rw [← hP1 z hzp] at h3
        exact Or.inr ⟨h1, h2, h3⟩
  have hmeR' : ∀ z, z ∈ R ++ [me] ↔ z ∈ R ∨ z = me := by
    intro z
    simp [List.mem_append]
  refine ⟨hcount, hF4 hC₁nd, ?_, ?_, ?_, ?_, ?_, ?_⟩
  · -- soundness of candidates
    intro c hc
    rw [hmemC₂ c] at hc
    rcases hc with ⟨hne, hcC⟩ | ⟨hcp, hpS, hcz⟩ | ⟨hcr, hcS, hcz⟩
    · obtain ⟨hcS, hcR, hc0⟩ := hCsound c hcC
      refine ⟨hcS, ?_, ?_⟩
      · rw [hmeR' c]
        intro hd
        rcases hd with hd | hd
        · exact hcR hd
        · exact hne hd
      · have := remDeps_mono s S R me c
        omega
    · have hcS : c ∈ S := hcp ▸ hpS
      have hdep : (s.node me).parent = c ∨ c ∈ (s.node me).referees :=
        Or.inl hcp.symm
      have hclt := hlt me hmeS c hcS hdep
      have hcR : c ∉ R := by
        intro hcR
        exact hmeR (hI4 c hcR me hmeS hdep)
      have hcz2 : alGet N c 0 - 1 = 0 := by
        rw [hcp]
        exact hcz
      refine ⟨hcS, ?_, ?_⟩
      · rw [hmeR' c]
        intro hd
        rcases hd with hd | hd
        · exact hcR hd
        · omega
      · have h1 := hI1 c hcS
        have h2 := hra c
        rw [if_pos hdep] at h2
        omega
    · have hdep : (s.node me).parent = c ∨ c ∈ (s.node me).referees :=
        Or.inr hcr
      have hclt := hlt me hmeS c hcS hdep
      have hcR : c ∉ R := by
        intro hcR
        exact hmeR (hI4 c hcR me hmeS hdep)
      refine ⟨hcS, ?_, ?_⟩
      · rw [hmeR' c]
        intro hd
        rcases hd with hd | hd
        · exact hcR hd
        · omega
      · have h1 := hI1 c hcS
        have h2 := hra c
        rw [if_pos hdep] at h2
        omega
  · -- completeness of candidates
    intro y hyS hyR' hy0
    have hyR : y ∉ R := by
      intro hc
      exact hyR' ((hmeR' y).mpr (Or.inl hc))
    have hyme : y ≠ me := by
      intro hc
      exact hyR' ((hmeR' y).mpr (Or.inr hc))
    rw [hmemC₂ y]
    by_cases hdep : (s.node me).parent = y ∨ y ∈ (s.node me).referees
    · have h2 := hra y
      rw [if_pos hdep] at h2
      have h1 := hI1 y hyS
      rcases hdep with hd | hd
      · refine Or.inr (Or.inl ⟨hd.symm, ?_, ?_⟩)
        · rw [hd]
          exact hyS
        · rw [hd]
          omega
      · exact Or.inr (Or.inr ⟨hd, hyS, by omega⟩)
    · have h2 := hra y
      rw [if_neg hdep] at h2
      have : remDeps s S R y = 0 := by omega
      exact Or.inl ⟨hyme, hCcomp y hyS hyR this⟩
  · -- R' nodup
    rw [List.nodup_append]
    refine ⟨hRnd, List.nodup_singleton me, ?_⟩
    intro a ha hb
    rw [List.mem_singleton] at hb
    rw [hb] at ha
    exact hmeR ha
  · -- R' ⊆ S
    intro a ha
    rcases (hmeR' a).mp ha with h | h
    · exact hRsub a h
    · exact h ▸ hmeS
  · -- dependants closure
    intro a ha x hx hdep
    rcases (hmeR' a).mp ha with h | h
    · exact (hmeR' x).mpr (Or.inl (hI4 a h x hx hdep))
    · have hxR : x ∈ R := by
        by_contra hxR
        exact ((remDeps_zero_iff s S R me).mp hme0 x hx hxR) (h ▸ hdep)
      exact (hmeR' x).mpr (Or.inl hxR)
  · -- pairwise order
    rw [List.pairwise_append]
    refine ⟨hI5, List.pairwise_singleton _ _, ?_⟩
    intro a ha b hb
    rw [List.mem_singleton] at hb
    intro hdep
    exact hmeR (hI4 a ha me hmeS (hb ▸ hdep))

theorem refIncFold_spec (s : ConsensusGraphInner) (S : List Nat) :
    ∀ (refs : List Nat), refs.Nodup → ∀ (N : List (Nat × Nat)),
    (∀ y, y ∈ refs → y ∈ S →
      alGet (refs.foldl
        (fun acc referee =>
          if referee ∈ S then alSet acc referee (alGet acc referee 0 + 1)
          else acc) N) y 0 = alGet N y 0 + 1)
    ∧ (∀ y, (y ∉ refs ∨ y ∉ S) →
      alGet (refs.foldl
        (fun acc referee =>
          if referee ∈ S then alSet acc referee (alGet acc referee 0 + 1)
          else acc) N) y 0 = alGet N y 0) := by
  intro refs
  induction refs with
  | nil =>
    intro _ N
    exact ⟨fun y hy => absurd hy (List.not_mem_nil y), fun y _ => rfl⟩
  | cons r refs ih =>
    intro hnd N
    rw [List.nodup_cons] at hnd
    simp only [List.foldl_cons]
    by_cases hrS : r ∈ S
    · rw [if_pos hrS]
      obtain ⟨ih1, ih2⟩ := ih hnd.2 (alSet N r (alGet N r 0 + 1))
      refine ⟨?_, ?_⟩
      · intro y hy hyS
        rcases List.mem_cons.mp hy with h | h
        · subst h
          rw [ih2 y (Or.inl hnd.1), alGet_alSet_self]
        · have hyr : y ≠ r := fun hc => hnd.1 (hc ▸ h)
          rw [ih1 y h hyS, alGet_alSet_ne _ _ _ _ _ hyr]
      · intro y hy
        have hyr : y ∉ refs ∨ y ∉ S := by
          rcases hy with h | h
          · exact Or.inl (fun hc => h (List.mem_cons_of_mem r hc))
          · exact Or.inr h
        rw [ih2 y hyr]
        have hne : y ≠ r := by
          rcases hy with h | h
          · intro hc; exact h (hc ▸ List.mem_cons_self r refs)
          · intro hc; exact h (hc ▸ hrS)
        rw [alGet_alSet_ne _ _ _ _ _ hne]
    · rw [if_neg hrS]
      obtain ⟨ih1, ih2⟩ := ih hnd.2 N
      refine ⟨?_, ?_⟩
      · intro y hy hyS
        rcases List.mem_cons.mp hy with h | h
        · exact absurd (h ▸ hyS) hrS
        · exact ih1 y h hyS
      · intro y hy
        refine ih2 y ?_
        rcases hy with h | h
        · exact Or.inl (fun hc => h (List.mem_cons_of_mem r hc))
        · exact Or.inr h

theorem topoCounts_step (s : ConsensusGraphInner) (S : List Nat) (me : Nat)
    (hnd : (s.node me).referees.Nodup)
    (hpar : (s.node me).parent ∉ (s.node me).referees)
    (N : List (Nat × Nat)) :
    ∀ y ∈ S,
      alGet ((s.node me).referees.foldl
        (fun acc referee =>
          if referee ∈ S then alSet acc referee (alGet acc referee 0 + 1)
          else acc)
        (if (s.node me).parent ∈ S then
          alSet (alEntryOr N me 0) (s.node me).parent
            (alGet (alEntryOr N me 0) (s.node me).parent 0 + 1)
        else alEntryOr N me 0)) y 0
      = alGet N y 0
        + (if (s.node me).parent = y ∨ y ∈ (s.node me).referees then 1
          else 0) := by
  intro y hyS
  obtain ⟨hf1, hf2⟩ := refIncFold_spec s S (s.node me).referees hnd
    (if (s.node me).parent ∈ S then
      alSet (alEntryOr N me 0) (s.node me).parent
        (alGet (alEntryOr N me 0) (s.node me).parent 0 + 1)
    else alEntryOr N me 0)
  by_cases hyp : y = (s.node me).parent
  · have hynr : y ∉ (s.node me).referees := hyp ▸ hpar
    rw [hf2 y (Or.inl hynr)]
    rw [if_pos (Or.inl hyp.symm)]
    rw [if_pos (hyp ▸ hyS), hyp, alGet_alSet_self, alGet_alEntryOr_zero]
  · by_cases hyr : y ∈ (s.node me).referees
    · rw [hf1 y hyr hyS, if_pos (Or.inr hyr)]
      by_cases hpS : (s.node me).parent ∈ S
      · rw [if_pos hpS,
          alGet_alSet_ne _ _ _ _ _ (fun hc => hyp hc),
          alGet_alEntryOr_zero]
      · rw [if_neg hpS, alGet_alEntryOr_zero]
    · rw [hf2 y (Or.inl hyr)]
      have hnd2 : ¬((s.node me).parent = y ∨ y ∈ (s.node me).referees) := by
        intro hc
        rcases hc with hc | hc
        · exact hyp hc.symm
        · exact hyr hc
      rw [if_neg hnd2]
      by_cases hpS : (s.node me).parent ∈ S
      · rw [if_pos hpS,
          alGet_alSet_ne _ _ _ _ _ (fun hc => hyp hc),
          alGet_alEntryOr_zero]
        omega
      · rw [if_neg hpS, alGet_alEntryOr_zero]
        omega

theorem remDeps_nil (s : ConsensusGraphInner) (S : List Nat) (y : Nat) :
    remDeps s S [] y = (S.filter (fun x =>
      (s.node x).parent = y ∨ y ∈ (s.node x).referees)).length := by
  unfold remDeps
  congr 1
  refine List.filter_congr ?_
  intro x _
  simp only [decide_eq_decide]
  simp

theorem topoCounts_spec (s : ConsensusGraphInner) (S : List Nat)
    (hsimple : ∀ x ∈ S, (s.node x).referees.Nodup
      ∧ (s.node x).parent ∉ (s.node x).referees) :
    ∀ y ∈ S, alGet (ConsensusGraphInner.topoCounts s S) y 0
      = remDeps s S [] y := by
  have key : ∀ (L : List Nat), (∀ x ∈ L, (s.node x).referees.Nodup
      ∧ (s.node x).parent ∉ (s.node x).referees) →
      ∀ (N : List (Nat × Nat)), ∀ y ∈ S,
      alGet (L.foldl (fun num_incoming_edges me =>
        let num_incoming_edges := alEntryOr num_incoming_edges me 0
        let parent := (s.node me).parent
        let num_incoming_edges :=
          if parent ∈ S then
            alSet num_incoming_edges parent
              (alGet num_incoming_edges parent 0 + 1)
          else num_incoming_edges
        (s.node me).referees.foldl
          (fun acc referee =>
            if referee ∈ S then alSet acc referee (alGet acc referee 0 + 1)
            else acc)
          num_incoming_edges) N) y 0
      = alGet N y 0 + (L.filter (fun x =>
          (s.node x).parent = y ∨ y ∈ (s.node x).referees)).length := by
    intro L
    induction L with
    | nil => intro _ N y _; simp
    | cons a L ih =>
      intro hL N y hyS
      simp only [List.foldl_cons, List.filter_cons]
      obtain ⟨hand, hapar⟩ := hL a (List.mem_cons_self a L)
      have hstep := topoCounts_step s S a hand hapar N y hyS
      rw [ih (fun x hx => hL x (List.mem_cons_of_mem a hx)) _ y hyS]
      rw [hstep]
      by_cases hd : (s.node a).parent = y ∨ y ∈ (s.node a).referees
      · rw [if_pos hd, if_pos (decide_eq_true hd)]
        simp only [List.length_cons]
        omega
      · rw [if_neg hd, if_neg (by simpa using hd)]
        omega
  intro y hyS
  unfold ConsensusGraphInner.topoCounts
  rw [key S hsimple [] y hyS, remDeps_nil]
  simp [alGet]

theorem topoLoop_correct (s : ConsensusGraphInner) (S : List Nat)
    (hS : S.Nodup)
    (hlt : ∀ x ∈ S, ∀ y ∈ S,
      ((s.node x).parent = y ∨ y ∈ (s.node x).referees) → y < x)
    (hsimple : ∀ x ∈ S, (s.node x).referees.Nodup
      ∧ (s.node x).parent ∉ (s.node x).referees) :
    ∀ (fuel : Nat) (N : List (Nat × Nat)) (C R : List Nat),
      TopoInv s S N C R →
      (S.filter (fun x => x ∉ R)).length < fuel →
      (∀ a ∈ S, a ∈ ConsensusGraphInner.topoLoop s S fuel N C R)
      ∧ (∀ a ∈ ConsensusGraphInner.topoLoop s S fuel N C R, a ∈ S)
      ∧ (ConsensusGraphInner.topoLoop s S fuel N C R).Nodup
      ∧ (ConsensusGraphInner.topoLoop s S fuel N C R).Pairwise (fun a b =>
          ¬((s.node b).parent = a ∨ a ∈ (s.node b).referees)) := by
  intro fuel
  induction fuel with
  | zero =>
    intro N C R _ hlen
    exact absurd hlen (Nat.not_lt_zero _)
  | succ fuel ih =>
    intro N C R hinv hlen
    cases C with
    | nil =>
      obtain ⟨hI1, hCnd, hCsound, hCcomp, hRnd, hRsub, hI4, hI5⟩ := hinv
      have hout : ConsensusGraphInner.topoLoop s S (fuel + 1) N [] R = R := rfl
      rw [hout]
      have hSR : ∀ a ∈ S, a ∈ R := by
        by_contra hcon
        push_neg at hcon
        obtain ⟨a, haS, haR⟩ := hcon
        have hne : S.filter (fun x => x ∉ R) ≠ [] := by
          intro hc
          have hmem : a ∈ S.filter (fun x => x ∉ R) := by
            rw [List.mem_filter]
            exact ⟨haS, by simpa using haR⟩
          rw [hc] at hmem
          cases hmem
        obtain ⟨m, hm, hmax⟩ := list_max_exists _ hne
        rw [List.mem_filter] at hm
        have hmS : m ∈ S := hm.1
        have hmR : m ∉ R := by simpa using hm.2
        have hm0 : remDeps s S R m = 0 := by
          rw [remDeps_zero_iff]
          intro x hx hxR hdep
          have hxlt := hlt x hx m hmS hdep
          have hxf : x ∈ S.filter (fun x => x ∉ R) := by
            rw [List.mem_filter]
            exact ⟨hx, by simpa using hxR⟩
          have := hmax x hxf
          omega
        cases hCcomp m hmS hmR hm0
      exact ⟨hSR, hRsub, hRnd, hI5⟩
    | cons c cs =>
      have hCne : (c :: cs) ≠ ([] : List Nat) := by simp
      have hmeC : ConsensusGraphInner.maxByHash s (c :: cs) ∈ c :: cs :=
        maxByHash_mem s (c :: cs) hCne
      obtain ⟨hmeS, hmeR, hme0⟩ := hinv.2.2.1 _ hmeC
      obtain ⟨hP1, hP2, hP3, hP4, hP5⟩ := parentPhase_spec s S N
        ((c :: cs).erase (ConsensusGraphInner.maxByHash s (c :: cs)))
        (ConsensusGraphInner.maxByHash s (c :: cs))
      have hC₁nd := hP5 (hinv.2.1.sublist (List.erase_sublist _ _))
      have hstep := topoStep_inv s S hS hlt hsimple N (c :: cs) R hinv
        (ConsensusGraphInner.maxByHash s (c :: cs)) hmeC _ _ hP1 hP2 hP4 hC₁nd
      have hflen := filter_notmem_append S R
        (ConsensusGraphInner.maxByHash s (c :: cs)) hS hmeS hmeR
      exact ih _ _ _ hstep (by omega)

theorem topological_sort_correct (s : ConsensusGraphInner) (S : List Nat)
    (hS : S.Nodup)
    (hlt : ∀ x ∈ S, ∀ y ∈ S,
      ((s.node x).parent = y ∨ y ∈ (s.node x).referees) → y < x)
    (hsimple : ∀ x ∈ S, (s.node x).referees.Nodup
      ∧ (s.node x).parent ∉ (s.node x).referees) :
    (s.topological_sort S).Perm S
    ∧ (s.topological_sort S).Pairwise (fun a b =>
        ¬((s.node a).parent = b ∨ b ∈ (s.node a).referees)) := by
  have hts := topoCounts_spec s S hsimple
  have hinv : TopoInv s S (ConsensusGraphInner.topoCounts s S)
      (S.filter (fun me => alGet (ConsensusGraphInner.topoCounts s S) me 0 = 0))
      [] := by
    refine ⟨?_, ?_, ?_, ?_, ?_, ?_, ?_, ?_⟩
    · intro y hy
      rw [hts y hy]
    · exact hS.filter _
    · intro cc hcc
      rw [List.mem_filter] at hcc
      refine ⟨hcc.1, List.not_mem_nil cc, ?_⟩
      have h0 := hcc.2
      simp only [decide_eq_true_eq] at h0
      rw [← hts cc hcc.1]
      exact h0
    · intro y hy _ h0
      rw [List.mem_filter]
      refine ⟨hy, ?_⟩
      simp only [decide_eq_true_eq]
      rw [hts y hy]
      exact h0
    · exact List.nodup_nil
    · intro a ha
      cases ha
    · intro a ha
      cases ha
    · exact List.Pairwise.nil
  have hflen : (S.filter (fun x => x ∉ ([] : List Nat))).length
      < S.length + 1 := by
    have heq : S.filter (fun x => x ∉ ([] : List Nat)) = S := by
      refine List.filter_eq_self.mpr ?_
      intro a _
      simp
    rw [heq]
    omega
  obtain ⟨h1, h2, h3, h4⟩ := topoLoop_correct s S hS hlt hsimple (S.length + 1)
    (ConsensusGraphInner.topoCounts s S)
    (S.filter (fun me => alGet (ConsensusGraphInner.topoCounts s S) me 0 = 0))
    [] hinv hflen
  have hts_eq : s.topological_sort S
      = (ConsensusGraphInner.topoLoop s S (S.length + 1)
          (ConsensusGraphInner.topoCounts s S)
          (S.filter (fun me =>
            alGet (ConsensusGraphInner.topoCounts s S) me 0 = 0))
          []).reverse := rfl
  rw [hts_eq]
  constructor
  · refine (List.reverse_perm _).trans ?_
    refine (List.perm_ext_iff_of_nodup h3 hS).mpr ?_
    intro a
    exact ⟨h2 a, h1 a⟩
  · rw [List.pairwise_reverse]
    exact h4

/-- Claim C7 (amended): for every pivot block, after
`collect_blockset_in_own_view_of_epoch` the pivot's `ordered_epoch_blocks`
equals the topological sort of its `blockset_in_own_view_of_epoch` followed by
the pivot itself, and that sort is a permutation of the blockset in which
every block precedes its parent's and referees' later positions — i.e. a
block's parent and referees never appear after a block that depends on them.
(Stated at the state reached after the collection BFS, under the reachable
invariants that the blockset is duplicate-free, dependencies point to smaller
arena indices, and referee lists are duplicate-free and exclude the parent.
Ties between independent blocks come out in ascending hash order, not
descending; the separate counterexample pins that direction.) -/
theorem c7_topological_order (s : ConsensusGraphInner) (pivot : Nat)
    (hpiv : pivot < s.arena.length)
    (s₁ : ConsensusGraphInner) (S : List Nat)
    (hs₁ : s₁ = ConsensusGraphInner.collectLoop pivot
      (s.arena.length * s.arena.length + s.arena.length + 1) s
      (s.node pivot).referees (s.node pivot).referees)
    (hSdef : S = (s₁.node pivot).data.blockset_in_own_view_of_epoch)
    (hS : S.Nodup)
    (hlt : ∀ x ∈ S, ∀ y ∈ S,
      ((s₁.node x).parent = y ∨ y ∈ (s₁.node x).referees) → y < x)
    (hsimple : ∀ x ∈ S, (s₁.node x).referees.Nodup
      ∧ (s₁.node x).parent ∉ (s₁.node x).referees) :
    ((s.collect_blockset_in_own_view_of_epoch pivot).node
        pivot).data.ordered_epoch_blocks
      = s₁.topological_sort S ++ [pivot]
    ∧ (s₁.topological_sort S).Perm S
    ∧ (s₁.topological_sort S).Pairwise (fun a b =>
        ¬((s₁.node a).parent = b ∨ b ∈ (s₁.node a).referees)) := by
  obtain ⟨hperm, hpw⟩ := topological_sort_correct s₁ S hS hlt hsimple
  refine ⟨?_, hperm, hpw⟩
  have hpiv₁ : pivot < s₁.arena.length := by
    rw [hs₁, collectLoop_arena_length]
    exact hpiv
  have hunf : s.collect_blockset_in_own_view_of_epoch pivot
      = s₁.setNode pivot (fun nd =>
        { nd with
          data := { nd.data with
            ordered_epoch_blocks := s₁.topological_sort S ++ [pivot] } }) := by
    rw [hSdef, hs₁]
    rfl
  rw [hunf, ConsensusGraphInner.node_setNode, if_pos ⟨rfl, hpiv₁⟩]

theorem c7_topological_order_witness :
    ((c7S.collect_blockset_in_own_view_of_epoch 2).node
        2).data.ordered_epoch_blocks
      = c7S1.topological_sort c7Set ++ [2]
    ∧ (c7S1.topological_sort c7Set).Perm c7Set
    ∧ (c7S1.topological_sort c7Set).Pairwise (fun a b =>
        ¬((c7S1.node a).parent = b ∨ b ∈ (c7S1.node a).referees)) :=
  c7_topological_order c7S 2 (by decide) c7S1 c7Set rfl rfl
    (by decide) (by decide) (by decide)

/-!  ## Heaviest-child selection and the pivot-chain update (claim C1) -/

theorem is_heavier_irrefl (a : Int × Nat) :
    ConsensusGraphInner.is_heavier a a = false := by
  unfold ConsensusGraphInner.is_heavier
  simp

theorem is_heavier_asymm (a b : Int × Nat)
    (h : ConsensusGraphInner.is_heavier a b = true) :
    ConsensusGraphInner.is_heavier b a = false := by
  unfold ConsensusGraphInner.is_heavier at h ⊢
  simp only [Bool.or_eq_true, Bool.and_eq_true, decide_eq_true_eq] at h
  simp only [Bool.or_eq_false_iff, Bool.and_eq_false_iff,
    decide_eq_false_iff_not, not_lt]
  rcases h with h | ⟨h1, h2⟩
  · constructor
    · omega
    · left
      omega
  · constructor
    · omega
    · right
      omega

theorem not_heavier_trans (a b c : Int × Nat)
    (h1 : ConsensusGraphInner.is_heavier a b = false)
    (h2 : ConsensusGraphInner.is_heavier b c = false) :
    ConsensusGraphInner.is_heavier a c = false := by
  unfold ConsensusGraphInner.is_heavier at h1 h2 ⊢
  simp only [Bool.or_eq_false_iff, Bool.and_eq_false_iff,
    decide_eq_false_iff_not, not_lt] at h1 h2 ⊢
  obtain ⟨h1a, h1b⟩ := h1
  obtain ⟨h2a, h2b⟩ := h2
  constructor
  · omega
  · rcases h1b with h | h
    · left
      omega
    · rcases h2b with h2c | h2c
      · left
        omega
      · right
        omega

theorem heaviestFold_spec (s : ConsensusGraphInner) :
    ∀ (l : List Nat) (acc : Nat × Int),
      (∀ c ∈ l, c ≠ NULL) → acc.1 ≠ NULL →
      acc.2 = s.weight_tree.get acc.1 →
      ((l.foldl (heaviestFoldStep s) acc).1 = acc.1
        ∨ (l.foldl (heaviestFoldStep s) acc).1 ∈ l)
      ∧ (l.foldl (heaviestFoldStep s) acc).1 ≠ NULL
      ∧ (l.foldl (heaviestFoldStep s) acc).2
          = s.weight_tree.get (l.foldl (heaviestFoldStep s) acc).1
      ∧ ConsensusGraphInner.is_heavier (acc.2, (s.node acc.1).hash)
          ((l.foldl (heaviestFoldStep s) acc).2,
            (s.node (l.foldl (heaviestFoldStep s) acc).1).hash) = false
      ∧ ∀ c ∈ l, ConsensusGraphInner.is_heavier
          (s.weight_tree.get c, (s.node c).hash)
          ((l.foldl (heaviestFoldStep s) acc).2,
            (s.node (l.foldl (heaviestFoldStep s) acc).1).hash) = false := by
  intro l
  induction l with
  | nil =>
    intro acc _ hacc1 hacc2
    refine ⟨Or.inl rfl, hacc1, hacc2, ?_, ?_⟩
    · show ConsensusGraphInner.is_heavier (acc.2, (s.node acc.1).hash)
        (acc.2, (s.node acc.1).hash) = false
      exact is_heavier_irrefl _
    · intro c hc
      cases hc
  | cons a l ih =>
    intro acc hNN hacc1 hacc2
    have haN : a ≠ NULL := hNN a (List.mem_cons_self a l)
    have hNN' : ∀ c ∈ l, c ≠ NULL :=
      fun c hc => hNN c (List.mem_cons_of_mem a hc)
    simp only [List.foldl_cons]
    by_cases hh : ConsensusGraphInner.is_heavier
        (s.weight_tree.get a, (s.node a).hash)
        (acc.2, (s.node acc.1).hash) = true
    · have hstep : heaviestFoldStep s acc a = (a, s.weight_tree.get a) := by
        unfold heaviestFoldStep
        rw [if_pos (by simp [hh])]
      rw [hstep]
      obtain ⟨hmem, hn, hw, hb, hall⟩ := ih (a, s.weight_tree.get a) hNN' haN rfl
      refine ⟨?_, hn, hw, ?_, ?_⟩
      · rcases hmem with h | h
        · refine Or.inr ?_
          rw [h]
          exact List.mem_cons_self a l
        · exact Or.inr (List.mem_cons_of_mem a h)
      · exact not_heavier_trans _ _ _ (is_heavier_asymm _ _ hh) hb
      · intro c hc
        rcases List.mem_cons.mp hc with h | h
        · rw [h]
          exact hb
        · exact hall c h
    · have hstep : heaviestFoldStep s acc a = acc := by
        unfold heaviestFoldStep
        rw [if_neg (by simp [hh, hacc1])]
      rw [hstep]
      obtain ⟨hmem, hn, hw, hb, hall⟩ := ih acc hNN' hacc1 hacc2
      refine ⟨?_, hn, hw, hb, ?_⟩
      · rcases hmem with h | h
        · exact Or.inl h
        · exact Or.inr (List.mem_cons_of_mem a h)
      · intro c hc
        rcases List.mem_cons.mp hc with h | h
        · rw [h]
          exact not_heavier_trans _ _ _ (Bool.eq_false_iff.mpr hh) hb
        · exact hall c h

theorem heaviestChild_spec (s : ConsensusGraphInner) (u : Nat)
    (hNN : NULL ∉ (s.node u).children)
    (hne : (s.node u).children ≠ []) :
    heaviestChild s u ∈ (s.node u).children
    ∧ ∀ c ∈ (s.node u).children,
      ConsensusGraphInner.is_heavier
        (s.weight_tree.get c, (s.node c).hash)
        (s.weight_tree.get (heaviestChild s u),
          (s.node (heaviestChild s u)).hash) = false := by
  have heq : heaviestChild s u
      = ((s.node u).children.foldl (heaviestFoldStep s) (NULL, 0)).1 := rfl
  rcases hch : (s.node u).children with _ | ⟨a, l⟩
  · exact absurd hch hne
  · have haN : a ≠ NULL := fun hc => hNN (by rw [hch, hc]; exact List.mem_cons_self _ _)
    have hNN' : ∀ c ∈ l, c ≠ NULL := by
      intro c hc hcN
      refine hNN ?_
      rw [hch]
      exact List.mem_cons_of_mem a (hcN ▸ hc)
    have hstep0 : heaviestFoldStep s (NULL, 0) a = (a, s.weight_tree.get a) := by
      unfold heaviestFoldStep
      rw [if_pos (by simp)]
    obtain ⟨hmem, hn, hw, hb, hall⟩ := heaviestFold_spec s l
      (a, s.weight_tree.get a) hNN' haN rfl
    have heq2 : heaviestChild s u
        = (l.foldl (heaviestFoldStep s) (a, s.weight_tree.get a)).1 := by
      rw [heq, hch, List.foldl_cons, hstep0]
    refine ⟨?_, ?_⟩
    · rw [heq2]
      rcases hmem with h | h
      · rw [h]
        exact List.mem_cons_self a l
      · exact List.mem_cons_of_mem a h
    · intro c hc
      rw [heq2, ← hw]
      rcases List.mem_cons.mp hc with h | h
      · rw [h]
        exact hb
      · exact hall c h

theorem pivotWalkdown_app (s : ConsensusGraphInner) :
    ∀ fuel u acc, ∃ t, pivotWalkdown s fuel u acc = acc ++ t := by
  intro fuel
  induction fuel with
  | zero =>
    intro u acc
    exact ⟨[], by simp [pivotWalkdown]⟩
  | succ fuel ih =>
    intro u acc
    unfold pivotWalkdown
    by_cases h : heaviestChild s u = NULL
    · rw [if_pos h]
      exact ⟨[u], rfl⟩
    · rw [if_neg h]
      obtain ⟨t, ht⟩ := ih (heaviestChild s u) (acc ++ [u])
      exact ⟨[u] ++ t, by rw [ht, List.append_assoc]⟩

theorem pivotWalkdown_chain (s : ConsensusGraphInner) :
    ∀ fuel u acc,
      List.Chain' (fun a b => b = heaviestChild s a) (acc ++ [u]) →
      List.Chain' (fun a b => b = heaviestChild s a)
        (pivotWalkdown s fuel u acc) := by
  intro fuel
  induction fuel with
  | zero =>
    intro u acc h
    exact ((List.chain'_append.mp h).1 : _)
  | succ fuel ih =>
    intro u acc h
    unfold pivotWalkdown
    by_cases hn : heaviestChild s u = NULL
    · rw [if_pos hn]
      exact h
    · rw [if_neg hn]
      refine ih (heaviestChild s u) (acc ++ [u]) ?_
      rw [List.append_assoc]
      rw [List.chain'_append]
      refine ⟨(List.chain'_append.mp h).1, ?_, ?_⟩
      · exact List.chain'_pair.mpr rfl
      · intro x hx y hy
        have hl := (List.chain'_append.mp h).2.2
        have hyu : y = u := by simpa using hy.symm
        rw [hyu]
        exact hl x hx u (by simp)

theorem pivotWalkdown_head (s : ConsensusGraphInner) (fuel u : Nat) :
    (pivotWalkdown s (fuel + 1) u []).head? = some u := by
  unfold pivotWalkdown
  by_cases hn : heaviestChild s u = NULL
  · rw [if_pos hn]
    rfl
  · rw [if_neg hn]
    obtain ⟨t, ht⟩ := pivotWalkdown_app s fuel (heaviestChild s u) ([] ++ [u])
    rw [ht]
    rfl

theorem pivotChainUpdate_extend (s : ConsensusGraphInner) (me L : Nat)
    (h : (s.node me).parent = (s.pivot_chain.getLast?).getD NULL) :
    ConsensusGraph.pivotChainUpdate s me L
      = ({ s with
            pivot_chain := s.pivot_chain ++ [me]
            pivot_chain_metadata := s.pivot_chain_metadata ++ [[]] },
         L, true) := by
  simp only [ConsensusGraph.pivotChainUpdate]
  rw [if_pos h]

theorem pivotWalkdown_pivot (s : ConsensusGraphInner) (p : List Nat) :
    ∀ fuel u acc,
      pivotWalkdown { s with pivot_chain := p } fuel u acc
        = pivotWalkdown s fuel u acc := by
  intro fuel
  induction fuel with
  | zero =>
    intro u acc
    rfl
  | succ fuel ih =>
    intro u acc
    unfold pivotWalkdown
    rw [show heaviestChild { s with pivot_chain := p } u
      = heaviestChild s u from rfl]
    by_cases h : heaviestChild s u = NULL
    · rw [if_pos h, if_pos h]
    · rw [if_neg h, if_neg h, ih]

theorem pivotChainUpdate_eq (s : ConsensusGraphInner) (me L : Nat) :
    ConsensusGraph.pivotChainUpdate s me L
      = (if (s.node me).parent = (s.pivot_chain.getLast?).getD NULL then
          ({ s with
             pivot_chain := s.pivot_chain ++ [me]
             pivot_chain_metadata := s.pivot_chain_metadata ++ [[]] },
           L, true)
        else if ConsensusGraphInner.is_heavier
            (s.weight_tree.get (pivotNewAncestor s me),
              (s.node (pivotNewAncestor s me)).hash)
            (s.weight_tree.get (pivotPrev s me),
              (s.node (pivotPrev s me)).hash) then
          ({ s with
             pivot_chain := s.pivot_chain.take (pivotForkAt s me)
              ++ pivotWalkdown
                  { s with
                    pivot_chain := s.pivot_chain.take (pivotForkAt s me) }
                  (s.arena.length + 1) (pivotNewAncestor s me) [] },
           pivotForkAt s me, false)
        else (s, L, false)) := rfl

theorem pivotChainUpdate_reorg (s : ConsensusGraphInner) (me L : Nat)
    (h : (s.node me).parent ≠ (s.pivot_chain.getLast?).getD NULL)
    (hh : ConsensusGraphInner.is_heavier
        (s.weight_tree.get (pivotNewAncestor s me),
          (s.node (pivotNewAncestor s me)).hash)
        (s.weight_tree.get (pivotPrev s me),
          (s.node (pivotPrev s me)).hash) = true) :
    (ConsensusGraph.pivotChainUpdate s me L).1.pivot_chain
      = s.pivot_chain.take (pivotForkAt s me)
        ++ pivotWalkdown s (s.arena.length + 1) (pivotNewAncestor s me) [] := by
  rw [pivotChainUpdate_eq, if_neg h, if_pos hh]
  rw [pivotWalkdown_pivot]

theorem pivotChainUpdate_stay (s : ConsensusGraphInner) (me L : Nat)
    (h : (s.node me).parent ≠ (s.pivot_chain.getLast?).getD NULL)
    (hh : ConsensusGraphInner.is_heavier
        (s.weight_tree.get (pivotNewAncestor s me),
          (s.node (pivotNewAncestor s me)).hash)
        (s.weight_tree.get (pivotPrev s me),
          (s.node (pivotPrev s me)).hash) = false) :
    ConsensusGraph.pivotChainUpdate s me L = (s, L, false) := by
  rw [pivotChainUpdate_eq, if_neg h,
    if_neg (by rw [hh]; exact Bool.false_ne_true)]

/-- Claim C1 (amended): the pivot chain follows the `is_heavier` heaviest-child
discipline only through `pivotChainUpdate`, which runs solely for fully valid
blocks: a block whose parent is the chain tip extends the chain by itself;
otherwise the chain reorganizes exactly when the fork subtree beats the
current chain block at the fork height under `is_heavier`, rebuilding from the
fork by the heaviest-child walk, in which every consecutive step descends to
the `is_heavier`-maximal child; and the walk's selection really is maximal: no
child of a node beats the selected `heaviestChild` under `is_heavier`.
Partially invalid blocks never reach `pivotChainUpdate`, so after such an
insertion `pivot_chain` can differ from the heaviest-subtree walk computed
from genesis over all arena children (see the counterexample). -/
theorem c1_pivot_chain_heaviest (s : ConsensusGraphInner) (me L : Nat) :
    ((s.node me).parent = (s.pivot_chain.getLast?).getD NULL →
      (ConsensusGraph.pivotChainUpdate s me L).1.pivot_chain
        = s.pivot_chain ++ [me])
    ∧ ((s.node me).parent ≠ (s.pivot_chain.getLast?).getD NULL →
      ConsensusGraphInner.is_heavier
          (s.weight_tree.get (pivotNewAncestor s me),
            (s.node (pivotNewAncestor s me)).hash)
          (s.weight_tree.get (pivotPrev s me),
            (s.node (pivotPrev s me)).hash) = true →
      (ConsensusGraph.pivotChainUpdate s me L).1.pivot_chain
        = s.pivot_chain.take (pivotForkAt s me)
          ++ pivotWalkdown s (s.arena.length + 1) (pivotNewAncestor s me) [])
    ∧ ((s.node me).parent ≠ (s.pivot_chain.getLast?).getD NULL →
      ConsensusGraphInner.is_heavier
          (s.weight_tree.get (pivotNewAncestor s me),
            (s.node (pivotNewAncestor s me)).hash)
          (s.weight_tree.get (pivotPrev s me),
            (s.node (pivotPrev s me)).hash) = false →
      (ConsensusGraph.pivotChainUpdate s me L).1.pivot_chain = s.pivot_chain)
    ∧ (∀ fuel u, List.Chain' (fun a b => b = heaviestChild s a)
        (pivotWalkdown s fuel u []))
    ∧ (∀ fuel u, (pivotWalkdown s (fuel + 1) u []).head? = some u)
    ∧ (∀ u, NULL ∉ (s.node u).children → (s.node u).children ≠ [] →
        heaviestChild s u ∈ (s.node u).children
        ∧ ∀ c ∈ (s.node u).children,
          ConsensusGraphInner.is_heavier
            (s.weight_tree.get c, (s.node c).hash)
            (s.weight_tree.get (heaviestChild s u),
              (s.node (heaviestChild s u)).hash) = false) := by
  refine ⟨?_, ?_, ?_, ?_, ?_, ?_⟩
  · intro h
    rw [pivotChainUpdate_extend s me L h]
  · intro h hh
    exact pivotChainUpdate_reorg s me L h hh
  · intro h hh
    rw [pivotChainUpdate_stay s me L h hh]
  · intro fuel u
    exact pivotWalkdown_chain s fuel u [] (by simp)
  · intro fuel u
    exact pivotWalkdown_head s fuel u
  · intro u hNN hne
    exact heaviestChild_spec s u hNN hne

set_option maxRecDepth 100000 in
/-- Counterexample to C1 as stated: on a genesis-only graph, `on_new_block`
processes a child of genesis whose deferred state root is wrong, so the block
is marked partially invalid and the pivot chain is left untouched at
`[genesis]`; yet the child sits in genesis's `children` with subtree weight 0,
so the heaviest-subtree walk from genesis (`pivotWalkdown` via
`heaviestChild`) is `[genesis, child]` -- the stored `pivot_chain` does not
equal the heaviest-subtree chain from genesis. -/
theorem c1_counterexample :
    ((ConsensusGraph.on_new_block c1G c1Block).map (fun g =>
      (g.inner.pivot_chain,
       (g.inner.node 1).data.partial_invalid,
       heaviestChild g.inner g.inner.genesis_block_index,
       pivotWalkdown g.inner (g.inner.arena.length + 1)
         g.inner.genesis_block_index [])))
      = some ([0], true, 1, [0, 1]) := by
  decide

set_option maxRecDepth 100000 in
theorem c1_pivot_chain_heaviest_witness :
    (c1After.inner.node 1).parent
        = (c1After.inner.pivot_chain.getLast?).getD NULL
    ∧ (ConsensusGraph.pivotChainUpdate c1After.inner 1 1).1.pivot_chain
        = c1After.inner.pivot_chain ++ [1]
    ∧ NULL ∉ (c1After.inner.node 0).children
    ∧ (c1After.inner.node 0).children ≠ []
    ∧ heaviestChild c1After.inner 0 ∈ (c1After.inner.node 0).children :=
  ⟨by decide,
   (c1_pivot_chain_heaviest c1After.inner 1 1).1 (by decide),
   by decide, by decide,
   ((c1_pivot_chain_heaviest c1After.inner 1 1).2.2.2.2.2 0 (by decide)
     (by decide)).1⟩

/-- Claim C3 (code_bug evidence): on a parent chain reaching height
`ERA_EPOCH_COUNT` (so `era_height = 10000` while `two_era_height = 0`) with
all-zero subtree weights, `adaptive_weight_impl_brutal` never returns, for
any fuel bound: its third loop tests its exit conditions on the same
unadvanced `parent` forever.  The claim asserts that the loop always reaches
`two_era_height` and exits; the code does not. -/
theorem c3_adaptive_weight_impl_brutal_diverges :
    ∀ fuel, ConsensusGraphInner.adaptive_weight_impl_brutal c3Inner
      ERA_EPOCH_COUNT c3Zeros c3Zeros c3Zeros 1 fuel = none := by
  intro fuel
  have hera : ConsensusGraphInner.get_era_height ERA_EPOCH_COUNT 0
      = ERA_EPOCH_COUNT := by decide
  have htwoera : ConsensusGraphInner.get_era_height ERA_EPOCH_COUNT
      ERA_EPOCH_COUNT = 0 := by decide
  have hloop3 : ∀ f, ConsensusGraphInner.brutalLoop3 c3Inner c3Zeros 0
      ((c3Inner.inner_conf.adaptive_weight_beta : Int) * 1) f ERA_EPOCH_COUNT
      = none := by
    refine brutalLoop3_stationary _ _ _ _ _ ?_ ?_
    · rw [c3_height]; unfold ERA_EPOCH_COUNT; omega
    · rw [c3Zeros_getD, c3Zeros_getD]
      intro hc
      have h0 : (0 : Int) > (c3Inner.inner_conf.adaptive_weight_beta : Int) * 1 :=
        hc.1
      revert h0
      decide
  match fuel with
  | 0 => rfl
  | f + 1 =>
    unfold ConsensusGraphInner.adaptive_weight_impl_brutal
    simp only [c3_height, hera, htwoera, c3_loop1]
    simp only [Bool.not_true, Bool.not_false, Bool.false_eq_true,
      eq_self_iff_true, if_true, if_false, ite_true, ite_false]
    rw [hloop3 (f + 1)]

/-!  ## Closure machinery for the anticone equivalence (claim C2) -/

theorem foldl_slInsert_mem (l : List Nat) :
    ∀ (acc : List Nat) (x : Nat), x ∈ l.foldl slInsert acc ↔ x ∈ acc ∨ x ∈ l := by
  induction l with
  | nil =>
    intro acc x
    simp
  | cons a l ih =>
    intro acc x
    rw [List.foldl_cons, ih, slInsert_mem]
    constructor
    · intro h
      rcases h with (h | h) | h
      · exact Or.inl h
      · exact Or.inr (h ▸ List.mem_cons_self a l)
      · exact Or.inr (List.mem_cons_of_mem a h)
    · intro h
      rcases h with h | h
      · exact Or.inl (Or.inl h)
      · rcases List.mem_cons.mp h with h | h
        · exact Or.inl (Or.inr h)
        · exact Or.inr h

theorem foldl_slInsert_nodup (l : List Nat) :
    ∀ acc : List Nat, acc.Nodup → (l.foldl slInsert acc).Nodup := by
  induction l with
  | nil =>
    intro acc h
    exact h
  | cons a l ih =>
    intro acc h
    exact ih _ (slInsert_nodup _ _ h)

theorem slInsert_pref (acc : List Nat) (x : Nat) : acc <+: slInsert acc x := by
  unfold slInsert
  by_cases h : x ∈ acc
  · rw [if_pos h]
  · rw [if_neg h]
    exact ⟨[x], rfl⟩

theorem foldl_slInsert_pref (l : List Nat) :
    ∀ acc : List Nat, acc <+: l.foldl slInsert acc := by
  induction l with
  | nil =>
    intro acc
    exact List.prefix_refl acc
  | cons a l ih =>
    intro acc
    exact (slInsert_pref acc a).trans (ih (slInsert acc a))

theorem expandOnce_mem_aux (nbr : Nat → List Nat) (l : List Nat) :
    ∀ (acc : List Nat) (y : Nat),
      y ∈ l.foldl (fun acc x => (nbr x).foldl slInsert acc) acc
        ↔ y ∈ acc ∨ ∃ x ∈ l, y ∈ nbr x := by
  induction l with
  | nil =>
    intro acc y
    simp
  | cons a l ih =>
    intro acc y
    rw [List.foldl_cons, ih, foldl_slInsert_mem]
    constructor
    · intro h
      rcases h with (h | h) | ⟨x, hx, hy⟩
      · exact Or.inl h
      · exact Or.inr ⟨a, List.mem_cons_self a l, h⟩
      · exact Or.inr ⟨x, List.mem_cons_of_mem a hx, hy⟩
    · intro h
      rcases h with h | ⟨x, hx, hy⟩
      · exact Or.inl (Or.inl h)
      · rcases List.mem_cons.mp hx with h | h
        · exact Or.inl (Or.inr (h ▸ hy))
        · exact Or.inr ⟨x, h, hy⟩

theorem expandOnce_mem (nbr : Nat → List Nat) (cur : List Nat) (y : Nat) :
    y ∈ expandOnce nbr cur ↔ y ∈ cur ∨ ∃ x ∈ cur, y ∈ nbr x :=
  expandOnce_mem_aux nbr cur cur y

theorem expandOnce_pref (nbr : Nat → List Nat) (cur : List Nat) :
    cur <+: expandOnce nbr cur := by
  unfold expandOnce
  have key : ∀ (l acc : List Nat),
      acc <+: l.foldl (fun acc x => (nbr x).foldl slInsert acc) acc := by
    intro l
    induction l with
    | nil =>
      intro acc
      exact List.prefix_refl acc
    | cons a l ih =>
      intro acc
      rw [List.foldl_cons]
      refine (foldl_slInsert_pref (nbr a) acc).trans ?_
      exact ih _
  exact key cur cur

theorem expandOnce_nodup (nbr : Nat → List Nat) (cur : List Nat)
    (h : cur.Nodup) : (expandOnce nbr cur).Nodup := by
  unfold expandOnce
  have key : ∀ (l acc : List Nat), acc.Nodup →
      (l.foldl (fun acc x => (nbr x).foldl slInsert acc) acc).Nodup := by
    intro l
    induction l with
    | nil =>
      intro acc h
      exact h
    | cons a l ih =>
      intro acc h
      exact ih _ (foldl_slInsert_nodup _ _ h)
  exact key cur cur h

theorem reachList_prefix_succ (nbr : Nat → List Nat) (k src : Nat) :
    reachList nbr k src <+: reachList nbr (k + 1) src :=
  expandOnce_pref nbr (reachList nbr k src)

theorem reachList_prefix_le (nbr : Nat → List Nat) (src : Nat) :
    ∀ {k m : Nat}, k ≤ m → reachList nbr k src <+: reachList nbr m src := by
  intro k m h
  induction m with
  | zero =>
    rw [Nat.le_zero.mp h]
  | succ m ih =>
    rcases Nat.lt_or_ge k (m + 1) with h2 | h2
    · exact (ih (Nat.lt_succ_iff.mp h2)).trans (reachList_prefix_succ nbr m src)
    · rw [Nat.le_antisymm h h2]

theorem reachList_src (nbr : Nat → List Nat) (k src : Nat) :
    src ∈ reachList nbr k src := by
  have h := reachList_prefix_le nbr src (Nat.zero_le k)
  exact h.subset (List.mem_singleton.mpr rfl)

theorem reachList_nodup (nbr : Nat → List Nat) (k src : Nat) :
    (reachList nbr k src).Nodup := by
  induction k with
  | zero => exact List.nodup_singleton src
  | succ k ih => exact expandOnce_nodup nbr _ ih

theorem reachList_lt (nbr : Nat → List Nat) (n src : Nat)
    (hb : ∀ x y, y ∈ nbr x → y < n) (hsrc : src < n) :
    ∀ k, ∀ y ∈ reachList nbr k src, y < n := by
  intro k
  induction k with
  | zero =>
    intro y hy
    rw [List.mem_singleton.mp hy]
    exact hsrc
  | succ k ih =>
    intro y hy
    rcases (expandOnce_mem nbr _ y).mp hy with h | ⟨x, _, hyx⟩
    · exact ih y h
    · exact hb x y hyx

theorem nodup_lt_length_le (n : Nat) (l : List Nat) (hnd : l.Nodup)
    (hlt : ∀ x ∈ l, x < n) : l.length ≤ n := by
  have hsub : l.toFinset ⊆ Finset.range n := by
    intro x hx
    rw [Finset.mem_range]
    exact hlt x (List.mem_toFinset.mp hx)
  have hcard := Finset.card_le_card hsub
  rw [Finset.card_range] at hcard
  rw [List.toFinset_card_of_nodup hnd] at hcard
  exact hcard

theorem reachList_fix_propagate (nbr : Nat → List Nat) (src : Nat) (k : Nat)
    (h : reachList nbr k src = reachList nbr (k + 1) src) :
    ∀ m, k ≤ m → reachList nbr m src = reachList nbr k src := by
  intro m hm
  induction m with
  | zero =>
    rw [Nat.le_zero.mp hm]
  | succ m ih =>
    rcases Nat.lt_or_ge k (m + 1) with h2 | h2
    · have hkm := Nat.lt_succ_iff.mp h2
      have heq := ih hkm
      show expandOnce nbr (reachList nbr m src) = _
      rw [heq]
      exact h.symm
    · rw [Nat.le_antisymm hm h2]

theorem reachList_stab (nbr : Nat → List Nat) (n src : Nat)
    (hb : ∀ x y, y ∈ nbr x → y < n) (hsrc : src < n) :
    ∃ k, k ≤ n ∧ reachList nbr k src = reachList nbr (k + 1) src := by
  by_contra hcon
  push_neg at hcon
  have grow : ∀ k, k ≤ n → (reachList nbr k src).length + 1
      ≤ (reachList nbr (k + 1) src).length := by
    intro k hk
    have hpre := reachList_prefix_succ nbr k src
    have hne := hcon k hk
    have hlt2 := Nat.lt_of_le_of_ne hpre.length_le
      (fun hc => hne (List.IsPrefix.eq_of_length hpre hc))
    omega
  have hlen : ∀ k, k ≤ n + 1 → k + 1 ≤ (reachList nbr k src).length := by
    intro k
    induction k with
    | zero =>
      intro _
      simp [reachList]
    | succ k ih =>
      intro hk
      have h1 := ih (by omega)
      have h2 := grow k (by omega)
      omega
  have hbig := hlen (n + 1) (Nat.le_refl _)
  have hsmall := nodup_lt_length_le n _ (reachList_nodup nbr (n + 1) src)
    (reachList_lt nbr n src hb hsrc (n + 1))
  omega

theorem reachList_closed (nbr : Nat → List Nat) (n src : Nat)
    (hb : ∀ x y, y ∈ nbr x → y < n) (hsrc : src < n) :
    ∀ x ∈ reachList nbr n src, ∀ y ∈ nbr x, y ∈ reachList nbr n src := by
  obtain ⟨k, hk, hfix⟩ := reachList_stab nbr n src hb hsrc
  have hn := reachList_fix_propagate nbr src k hfix n hk
  have hn1 := reachList_fix_propagate nbr src k hfix (n + 1) (by omega)
  intro x hx y hy
  rw [hn] at hx
  have : y ∈ expandOnce nbr (reachList nbr k src) :=
    (expandOnce_mem nbr _ y).mpr (Or.inr ⟨x, hx, hy⟩)
  have h2 : y ∈ reachList nbr (k + 1) src := this
  rw [← hfix] at h2
  rw [hn]
  exact h2

theorem reachList_bridge (nbr : Nat → List Nat) (n src : Nat)
    (hb : ∀ x y, y ∈ nbr x → y < n) (hsrc : src < n) :
    ∀ k, ∀ y ∈ reachList nbr k src, y ∈ reachList nbr n src := by
  intro k
  induction k with
  | zero =>
    intro y hy
    rw [List.mem_singleton.mp hy]
    exact reachList_src nbr n src
  | succ k ih =>
    intro y hy
    rcases (expandOnce_mem nbr _ y).mp hy with h | ⟨x, hx, hyx⟩
    · exact ih y h
    · exact reachList_closed nbr n src hb hsrc x (ih x hx) y hyx

theorem reachList_le_of_dec (nbr : Nat → List Nat) (src : Nat)
    (hdec : ∀ x y, y ∈ nbr x → y < x) :
    ∀ k, ∀ y ∈ reachList nbr k src, y ≤ src := by
  intro k
  induction k with
  | zero =>
    intro y hy
    rw [List.mem_singleton.mp hy]
  | succ k ih =>
    intro y hy
    rcases (expandOnce_mem nbr _ y).mp hy with h | ⟨x, hx, hyx⟩
    · exact ih y h
    · have := ih x hx
      have := hdec x y hyx
      omega

theorem reachList_ge_of_inc (nbr : Nat → List Nat) (src : Nat)
    (hinc : ∀ x y, y ∈ nbr x → x < y) :
    ∀ k, ∀ y ∈ reachList nbr k src, src ≤ y := by
  intro k
  induction k with
  | zero =>
    intro y hy
    rw [List.mem_singleton.mp hy]
  | succ k ih =>
    intro y hy
    rcases (expandOnce_mem nbr _ y).mp hy with h | ⟨x, hx, hyx⟩
    · exact ih y h
    · have := ih x hx
      have := hinc x y hyx
      omega

theorem bfNewsFold (s : ConsensusGraphInner) (L : Nat) (refs : List Nat) :
    ∀ (q v : List Nat),
      ∃ news : List Nat,
        (refs.foldl
          (fun (acc : List Nat × List Nat) referee =>
            if (s.node referee).data.epoch_number > L ∧ referee ∉ acc.2
            then (acc.1 ++ [referee], acc.2 ++ [referee])
            else acc) (q, v))
          = (q ++ news, v ++ news)
        ∧ news.Nodup
        ∧ (∀ y, y ∈ news ↔ y ∈ refs ∧ (s.node y).data.epoch_number > L
            ∧ y ∉ v) := by
  induction refs with
  | nil =>
    intro q v
    refine ⟨[], by simp, List.nodup_nil, ?_⟩
    intro y
    simp
  | cons r rest ih =>
    intro q v
    rw [List.foldl_cons]
    by_cases hc : (s.node r).data.epoch_number > L ∧ r ∉ v
    · rw [if_pos hc]
      obtain ⟨news, heq, hnd, hmem⟩ := ih (q ++ [r]) (v ++ [r])
      refine ⟨r :: news, ?_, ?_, ?_⟩
      · rw [heq]
        simp
      · rw [List.nodup_cons]
        refine ⟨?_, hnd⟩
        intro hr
        have := (hmem r).mp hr
        exact this.2.2 (by simp)
      · intro y
        rw [List.mem_cons, hmem y]
        constructor
        · intro h
          rcases h with h | ⟨h1, h2, h3⟩
          · exact ⟨h ▸ List.mem_cons_self r rest, h ▸ hc.1, h ▸ hc.2⟩
          · refine ⟨List.mem_cons_of_mem r h1, h2, ?_⟩
            intro hy
            exact h3 (List.mem_append_left _ hy)
        · intro ⟨h1, h2, h3⟩
          by_cases hyr : y = r
          · exact Or.inl hyr
          · refine Or.inr ⟨?_, h2, ?_⟩
            · rcases List.mem_cons.mp h1 with h | h
              · exact absurd h hyr
              · exact h
            · intro hy
              rcases List.mem_append.mp hy with h | h
              · exact h3 h
              · exact hyr (List.mem_singleton.mp h)
    · rw [if_neg hc]
      obtain ⟨news, heq, hnd, hmem⟩ := ih q v
      refine ⟨news, heq, hnd, ?_⟩
      intro y
      rw [hmem y]
      constructor
      · intro ⟨h1, h2, h3⟩
        exact ⟨List.mem_cons_of_mem r h1, h2, h3⟩
      · intro ⟨h1, h2, h3⟩
        refine ⟨?_, h2, h3⟩
        rcases List.mem_cons.mp h1 with h | h
        · exact absurd (h ▸ ⟨h2, h3⟩) hc
        · exact h

theorem filter_notmem_append_many (S : List Nat) (hS : S.Nodup) :
    ∀ (news R : List Nat), news.Nodup → (∀ y ∈ news, y ∈ S) →
      (∀ y ∈ news, y ∉ R) →
      (S.filter (fun x => x ∉ R)).length
        = (S.filter (fun x => x ∉ R ++ news)).length + news.length := by
  intro news
  induction news with
  | nil =>
    intro R _ _ _
    simp
  | cons m rest ih =>
    intro R hnd hsub hdis
    rw [List.nodup_cons] at hnd
    have h1 := filter_notmem_append S R m hS
      (hsub m (List.mem_cons_self m rest))
      (hdis m (List.mem_cons_self m rest))
    have h2 := ih (R ++ [m]) hnd.2
      (fun y hy => hsub y (List.mem_cons_of_mem m hy))
      (fun y hy => by
        intro hc
        rcases List.mem_append.mp hc with h | h
        · exact hdis y (List.mem_cons_of_mem m hy) h
        · exact hnd.1 (List.mem_singleton.mp h ▸ hy))
    have hassoc : R ++ [m] ++ rest = R ++ m :: rest := by
      simp
    rw [hassoc] at h2
    rw [h1, h2]
    simp only [List.length_cons]
    omega

theorem bruteforceLoop_spec (s : ConsensusGraphInner) (n L me : Nat)
    (hback : ∀ x, x < n → ∀ y ∈ (s.node x).referees, y < n)
    (hparwf : ∀ x, x < n → (s.node x).parent < n ∨ (s.node x).parent = NULL)
    (hgen : ∀ x, x < n → (s.node x).parent = NULL →
      (s.node x).data.epoch_number ≤ L)
    (hme : me < n) (hmep : (s.node me).parent < n) (hnN : n ≤ NULL) :
    ∀ fuel queue visited,
      (∀ v ∈ visited, v = me ∨ ((s.node v).data.epoch_number > L
        ∧ v ∈ reachList (backNbrB s n) n me)) →
      (∀ v ∈ visited, v < n) →
      (∀ q ∈ queue, q ∈ visited) →
      visited.Nodup → queue.Nodup →
      (∀ v ∈ visited, v ∉ queue → ∀ y,
        ((s.node v).parent = y ∨ y ∈ (s.node v).referees) →
        (s.node y).data.epoch_number > L → y ∈ visited) →
      queue.length
        + ((List.range n).filter (fun x => x ∉ visited)).length < fuel →
      (∀ y ∈ ConsensusGraphInner.bruteforceVisitLoop s L fuel queue visited,
        y = me ∨ ((s.node y).data.epoch_number > L
          ∧ y ∈ reachList (backNbrB s n) n me))
      ∧ (∀ v ∈ visited,
          v ∈ ConsensusGraphInner.bruteforceVisitLoop s L fuel queue visited)
      ∧ (∀ v ∈ ConsensusGraphInner.bruteforceVisitLoop s L fuel queue visited,
          ∀ y, ((s.node v).parent = y ∨ y ∈ (s.node v).referees) →
          (s.node y).data.epoch_number > L →
          y ∈ ConsensusGraphInner.bruteforceVisitLoop s L fuel queue visited)
      := by
  have hbb : ∀ x y, y ∈ backNbrB s n x → y < n := by
    intro x y hy
    unfold backNbrB at hy
    rw [List.mem_filter] at hy
    exact of_decide_eq_true hy.2
  intro fuel
  induction fuel with
  | zero =>
    intro queue visited _ _ _ _ _ _ hlen
    exact absurd hlen (Nat.not_lt_zero _)
  | succ fuel ih =>
    intro queue visited hsound hlt hqv hvnd hqnd hclosed hlen
    cases queue with
    | nil =>
      have hres : ConsensusGraphInner.bruteforceVisitLoop s L (fuel + 1) []
          visited = visited := rfl
      rw [hres]
      refine ⟨hsound, fun v hv => hv, ?_⟩
      intro v hv y hdep hadm
      exact hclosed v hv (List.not_mem_nil v) y hdep hadm
    | cons i rest =>
      have hiv : i ∈ visited := hqv i (List.mem_cons_self i rest)
      have hin : i < n := hlt i hiv
      have hipn : (s.node i).parent ≠ NULL := by
        rcases hsound i hiv with h | h
        · intro hc
          rw [h] at hc
          rw [hc] at hmep
          omega
        · intro hc
          have := hgen i hin hc
          omega
      have hipn2 : (s.node i).parent < n := by
        rcases hparwf i hin with h | h
        · exact h
        · exact absurd h hipn
      obtain ⟨news, hfold, hnewsnd, hnews⟩ :=
        bfNewsFold s L ((s.node i).parent :: (s.node i).referees) rest visited
      have hres : ConsensusGraphInner.bruteforceVisitLoop s L (fuel + 1)
          (i :: rest) visited
          = ConsensusGraphInner.bruteforceVisitLoop s L fuel
            (rest ++ news) (visited ++ news) := by
        show ConsensusGraphInner.bruteforceVisitLoop s L fuel
            (((s.node i).parent :: (s.node i).referees).foldl
              (fun (acc : List Nat × List Nat) referee =>
                if (s.node referee).data.epoch_number > L ∧ referee ∉ acc.2
                then (acc.1 ++ [referee], acc.2 ++ [referee])
                else acc) (rest, visited)).1
            (((s.node i).parent :: (s.node i).referees).foldl
              (fun (acc : List Nat × List Nat) referee =>
                if (s.node referee).data.epoch_number > L ∧ referee ∉ acc.2
                then (acc.1 ++ [referee], acc.2 ++ [referee])
                else acc) (rest, visited)).2
          = _
        rw [hfold]
      rw [hres]
      -- facts about news
      have hnews_lt : ∀ y ∈ news, y < n := by
        intro y hy
        obtain ⟨hy1, _, _⟩ := (hnews y).mp hy
        rcases List.mem_cons.mp hy1 with h | h
        · rw [h]
          exact hipn2
        · exact hback i hin y h
      have hnews_nv : ∀ y ∈ news, y ∉ visited := by
        intro y hy
        exact ((hnews y).mp hy).2.2
      have hiP : i ∈ reachList (backNbrB s n) n me := by
        rcases hsound i hiv with h | h
        · rw [h]
          exact reachList_src _ n me
        · exact h.2
      have hnews_reach : ∀ y ∈ news,
          y ∈ reachList (backNbrB s n) n me := by
        intro y hy
        obtain ⟨hy1, _, _⟩ := (hnews y).mp hy
        refine reachList_closed (backNbrB s n) n me hbb hme i hiP y ?_
        unfold backNbrB
        rw [List.mem_filter]
        exact ⟨hy1, decide_eq_true (hnews_lt y hy)⟩
      have hsound2 : ∀ v ∈ visited ++ news, v = me
          ∨ ((s.node v).data.epoch_number > L
            ∧ v ∈ reachList (backNbrB s n) n me) := by
        intro v hv
        rcases List.mem_append.mp hv with h | h
        · exact hsound v h
        · exact Or.inr ⟨((hnews v).mp h).2.1, hnews_reach v h⟩
      have hlt2 : ∀ v ∈ visited ++ news, v < n := by
        intro v hv
        rcases List.mem_append.mp hv with h | h
        · exact hlt v h
        · exact hnews_lt v h
      have hqv2 : ∀ q ∈ rest ++ news, q ∈ visited ++ news := by
        intro q hq
        rcases List.mem_append.mp hq with h | h
        · exact List.mem_append_left _ (hqv q (List.mem_cons_of_mem i h))
        · exact List.mem_append_right _ h
      have hvnd2 : (visited ++ news).Nodup :=
        hvnd.append hnewsnd (fun a ha hb => hnews_nv a hb ha)
      have hqnd2 : (rest ++ news).Nodup := by
        rw [List.nodup_cons] at hqnd
        refine hqnd.2.append hnewsnd ?_
        intro a ha hb
        exact hnews_nv a hb (hqv a (List.mem_cons_of_mem i ha))
      have hclosed2 : ∀ v ∈ visited ++ news, v ∉ rest ++ news → ∀ y,
          ((s.node v).parent = y ∨ y ∈ (s.node v).referees) →
          (s.node y).data.epoch_number > L → y ∈ visited ++ news := by
        intro v hv hvq y hdep hadm
        rcases List.mem_append.mp hv with h | h
        · by_cases hvi : v = i
          · subst hvi
            by_cases hyv : y ∈ visited
            · exact List.mem_append_left _ hyv
            · refine List.mem_append_right _ ?_
              rw [hnews y]
              refine ⟨?_, hadm, hyv⟩
              rcases hdep with hd | hd
              · rw [← hd]
                exact List.mem_cons_self _ _
              · exact List.mem_cons_of_mem _ hd
          · have hvq0 : v ∉ i :: rest := by
              intro hc
              rcases List.mem_cons.mp hc with h2 | h2
              · exact hvi h2
              · exact hvq (List.mem_append_left _ h2)
            exact List.mem_append_left _
              (hclosed v h hvq0 y hdep hadm)
        · exact absurd (List.mem_append_right rest h) hvq
      have hcount := filter_notmem_append_many (List.range n)
        (List.nodup_range n) news visited hnewsnd
        (fun y hy => List.mem_range.mpr (hnews_lt y hy)) hnews_nv
      have hlen2 : (rest ++ news).length
          + ((List.range n).filter (fun x => x ∉ visited ++ news)).length
          < fuel := by
        simp only [List.length_append] at *
        simp only [List.length_cons] at hlen
        omega
      obtain ⟨ha, hb, hc⟩ := ih (rest ++ news) (visited ++ news) hsound2
        hlt2 hqv2 hvnd2 hqnd2 hclosed2 hlen2
      exact ⟨ha, fun v hv => hb v (List.mem_append_left _ hv), hc⟩

theorem bruteforce_characterize (s : ConsensusGraphInner) (me : Nat)
    (hback : ∀ x, x < s.arena.length →
      ∀ y ∈ (s.node x).referees, y < s.arena.length)
    (hparwf : ∀ x, x < s.arena.length →
      (s.node x).parent < s.arena.length ∨ (s.node x).parent = NULL)
    (hgen : ∀ x, x < s.arena.length → (s.node x).parent = NULL →
      (s.node x).data.epoch_number ≤ lastInPivot s me)
    (hmono : ∀ x, x < s.arena.length →
      ∀ y ∈ backNbrB s s.arena.length x,
      (s.node y).data.epoch_number ≤ (s.node x).data.epoch_number)
    (hme : me < s.arena.length)
    (hmep : (s.node me).parent < s.arena.length)
    (hnN : s.arena.length ≤ NULL) :
    ∀ x, x ∈ ConsensusGraphInner.compute_anticone_bruteforce s me
      ↔ (x < s.arena.length
        ∧ (s.node x).data.epoch_number > lastInPivot s me
        ∧ x ∉ reachList (backNbrB s s.arena.length) s.arena.length me) := by
  have hbb : ∀ x y, y ∈ backNbrB s s.arena.length x → y < s.arena.length := by
    intro x y hy
    unfold backNbrB at hy
    rw [List.mem_filter] at hy
    exact of_decide_eq_true hy.2
  have hc1 : ((List.range s.arena.length).filter
      (fun x => x ∉ ([me] : List Nat))).length + 1 = s.arena.length := by
    have h1 := filter_notmem_append (List.range s.arena.length) [] me
      (List.nodup_range _) (List.mem_range.mpr hme) (List.not_mem_nil me)
    have h2 : (List.range s.arena.length).filter
        (fun x => x ∉ ([] : List Nat)) = List.range s.arena.length := by
      refine List.filter_eq_self.mpr ?_
      intro a _
      simp
    rw [h2] at h1
    have h3 : ([] : List Nat) ++ [me] = [me] := rfl
    rw [h3] at h1
    rw [← h1, List.length_range]
  obtain ⟨hsound, hsub, hclosed⟩ := bruteforceLoop_spec s s.arena.length
    (lastInPivot s me) me hback hparwf hgen hme hmep hnN
    (s.arena.length + 1) [me] [me]
    (fun v hv => Or.inl (List.mem_singleton.mp hv))
    (fun v hv => (List.mem_singleton.mp hv) ▸ hme)
    (fun q hq => hq)
    (List.nodup_singleton me) (List.nodup_singleton me)
    (fun v hv hvq => absurd hv hvq)
    (by
      simp only [List.length_singleton]
      omega)
  have hVmem : ∀ y,
      y ∈ ConsensusGraphInner.bruteforceVisitLoop s (lastInPivot s me)
        (s.arena.length + 1) [me] [me]
      ↔ (y = me ∨ ((s.node y).data.epoch_number > lastInPivot s me
        ∧ y ∈ reachList (backNbrB s s.arena.length) s.arena.length me)) := by
    intro y
    constructor
    · exact hsound y
    · intro h
      rcases h with h | ⟨hadm, hreach⟩
      · exact h ▸ hsub me (List.mem_singleton.mpr rfl)
      · -- induction over the closure fuel
        have key : ∀ k, ∀ z ∈ reachList (backNbrB s s.arena.length) k me,
            (s.node z).data.epoch_number > lastInPivot s me →
            z ∈ ConsensusGraphInner.bruteforceVisitLoop s (lastInPivot s me)
              (s.arena.length + 1) [me] [me] := by
          intro k
          induction k with
          | zero =>
            intro z hz _
            rw [List.mem_singleton.mp hz]
            exact hsub me (List.mem_singleton.mpr rfl)
          | succ k ihk =>
            intro z hz hadm2
            rcases (expandOnce_mem _ _ z).mp hz with h | ⟨x, hx, hzx⟩
            · exact ihk z h hadm2
            · have hxn : x < s.arena.length := by
                rcases Nat.lt_or_ge x s.arena.length with h2 | h2
                · exact h2
                · exact absurd (reachList_lt _ s.arena.length me hbb hme k x hx)
                    (by omega)
              have hxadm : (s.node x).data.epoch_number > lastInPivot s me :=
                lt_of_lt_of_le hadm2 (hmono x hxn z hzx)
              have hxV := ihk x hx hxadm
              refine hclosed x hxV z ?_ hadm2
              unfold backNbrB at hzx
              rw [List.mem_filter] at hzx
              rcases List.mem_cons.mp hzx.1 with h | h
              · exact Or.inl h.symm
              · exact Or.inr h
        exact key s.arena.length y hreach hadm
  intro x
  have hre : ConsensusGraphInner.compute_anticone_bruteforce s me
      = (List.range s.arena.length).filter
        (fun i => (s.node i).data.epoch_number > lastInPivot s me
          ∧ i ∉ ConsensusGraphInner.bruteforceVisitLoop s (lastInPivot s me)
              (s.arena.length + 1) [me] [me]) := rfl
  rw [hre, List.mem_filter, List.mem_range]
  simp only [decide_eq_true_eq]
  constructor
  · intro ⟨hxn, hadm, hxV⟩
    refine ⟨hxn, hadm, ?_⟩
    intro hc
    exact hxV ((hVmem x).mpr (Or.inr ⟨hadm, hc⟩))
  · intro ⟨hxn, hadm, hxP⟩
    refine ⟨hxn, hadm, ?_⟩
    intro hc
    rcases (hVmem x).mp hc with h | h
    · refine hxP ?_
      rw [h]
      exact reachList_src _ s.arena.length me
    · exact hxP h.2

theorem wsum_filter_notmem_append (w : Nat → Nat) (S R : List Nat) (m : Nat)
    (hS : S.Nodup) (hm : m ∈ S) (hR : m ∉ R) :
    ((S.filter (fun x => x ∉ R)).map w).sum
      = ((S.filter (fun x => x ∉ R ++ [m])).map w).sum + w m := by
  induction S with
  | nil => cases hm
  | cons a S ih =>
    rw [List.nodup_cons] at hS
    simp only [List.filter_cons]
    by_cases ham : a = m
    · subst ham
      have hfeq : S.filter (fun x => decide (x ∉ R))
          = S.filter (fun x => decide (x ∉ R ++ [a])) := by
        refine List.filter_congr ?_
        intro x hx
        have hxa : x ≠ a := fun hc => hS.1 (hc ▸ hx)
        simp only [decide_eq_decide]
        simp [List.mem_append, hxa]
      rw [hfeq]
      rw [if_pos (decide_eq_true hR),
        if_neg (by simp : ¬(decide (a ∉ R ++ [a]) = true))]
      simp only [List.map_cons, List.sum_cons]
      omega
    · have hmem : m ∈ S := by
        rcases List.mem_cons.mp hm with h | h
        · exact absurd h.symm ham
        · exact h
      have heq : (decide (a ∉ R ++ [m])) = (decide (a ∉ R)) := by
        simp only [decide_eq_decide]
        simp [List.mem_append, ham]
      rw [heq]
      by_cases hp : decide (a ∉ R) = true
      · rw [if_pos hp, if_pos hp]
        simp only [List.map_cons, List.sum_cons]
        rw [ih hS.2 hmem]
        omega
      · rw [if_neg hp, if_neg hp]
        exact ih hS.2 hmem

theorem futuresLoop_spec (s : ConsensusGraphInner) (n p me : Nat)
    (hfwd : ∀ x, x < n →
      ∀ y ∈ (s.node x).children ++ (s.node x).referrers, y < n)
    (hp : p < n) :
    ∀ fuel queue visited futures,
      (∀ v ∈ visited, v ∈ reachList (fwdNbrB s n) n p ∧ v < n) →
      (∀ q ∈ queue, q ∈ reachList (fwdNbrB s n) n p ∧ q < n) →
      visited.Nodup →
      (∀ y, y ∈ futures ↔ (y ∈ visited ∧ y ≠ p ∧ y ≠ me)) →
      futures.Nodup →
      (∀ v ∈ visited, ∀ y ∈ (s.node v).children ++ (s.node v).referrers,
        y ∈ visited ∨ y ∈ queue) →
      (p ∈ visited ∨ p ∈ queue) →
      queue.length + (((List.range n).filter (fun x => x ∉ visited)).map
        (fun x => 1 + ((s.node x).children ++ (s.node x).referrers).length)).sum
        < fuel →
      ∃ V : List Nat,
        (∀ y, y ∈ ConsensusGraphInner.futuresLoop s p me fuel queue visited
            futures
          ↔ (y ∈ V ∧ y ≠ p ∧ y ≠ me))
        ∧ (ConsensusGraphInner.futuresLoop s p me fuel queue visited
            futures).Nodup
        ∧ (∀ v ∈ visited, v ∈ V)
        ∧ (∀ v ∈ V, v ∈ reachList (fwdNbrB s n) n p ∧ v < n)
        ∧ (∀ v ∈ V, ∀ y ∈ (s.node v).children ++ (s.node v).referrers, y ∈ V)
        ∧ p ∈ V := by
  have hfb : ∀ x y, y ∈ fwdNbrB s n x → y < n := by
    intro x y hy
    unfold fwdNbrB at hy
    rw [List.mem_filter] at hy
    exact of_decide_eq_true hy.2
  intro fuel
  induction fuel with
  | zero =>
    intro queue visited futures _ _ _ _ _ _ _ hlen
    exact absurd hlen (Nat.not_lt_zero _)
  | succ fuel ih =>
    intro queue visited futures hvis hq hvnd hfut hfnd hclosed hpvq hlen
    cases queue with
    | nil =>
      have hres : ConsensusGraphInner.futuresLoop s p me (fuel + 1) [] visited
          futures = futures := rfl
      rw [hres]
      refine ⟨visited, hfut, hfnd, fun v hv => hv, hvis, ?_, ?_⟩
      · intro v hv y hy
        rcases hclosed v hv y hy with h | h
        · exact h
        · cases h
      · rcases hpvq with h | h
        · exact h
        · cases h
    | cons i rest =>
      by_cases hiv : i ∈ visited
      · have hres : ConsensusGraphInner.futuresLoop s p me (fuel + 1)
            (i :: rest) visited futures
            = ConsensusGraphInner.futuresLoop s p me fuel rest visited
              futures := by
          show (if i ∈ visited then _ else _) = _
          rw [if_pos hiv]
        rw [hres]
        refine ih rest visited futures hvis
          (fun q hq2 => hq q (List.mem_cons_of_mem i hq2)) hvnd hfut hfnd
          ?_ ?_ ?_
        · intro v hv y hy
          rcases hclosed v hv y hy with h | h
          · exact Or.inl h
          · rcases List.mem_cons.mp h with h2 | h2
            · exact Or.inl (h2 ▸ hiv)
            · exact Or.inr h2
        · rcases hpvq with h | h
          · exact Or.inl h
          · rcases List.mem_cons.mp h with h2 | h2
            · exact Or.inl (h2 ▸ hiv)
            · exact Or.inr h2
        · simp only [List.length_cons] at hlen
          omega
      · obtain ⟨hiF, hin⟩ := hq i (List.mem_cons_self i rest)
        have hres : ConsensusGraphInner.futuresLoop s p me (fuel + 1)
            (i :: rest) visited futures
            = ConsensusGraphInner.futuresLoop s p me fuel
              (rest ++ (s.node i).children ++ (s.node i).referrers)
              (visited ++ [i])
              (if i ≠ p ∧ i ≠ me then futures ++ [i] else futures) := by
          show (if i ∈ visited then _ else _) = _
          rw [if_neg hiv]
        rw [hres]
        have hvis2 : ∀ v ∈ visited ++ [i],
            v ∈ reachList (fwdNbrB s n) n p ∧ v < n := by
          intro v hv
          rcases List.mem_append.mp hv with h | h
          · exact hvis v h
          · rw [List.mem_singleton.mp h]
            exact ⟨hiF, hin⟩
        have hq2 : ∀ q ∈ rest ++ (s.node i).children ++ (s.node i).referrers,
            q ∈ reachList (fwdNbrB s n) n p ∧ q < n := by
          intro q hq2
          rcases List.mem_append.mp hq2 with h | h
          · rcases List.mem_append.mp h with h2 | h2
            · exact hq q (List.mem_cons_of_mem i h2)
            · have hqn : q < n := hfwd i hin q (List.mem_append_left _ h2)
              refine ⟨reachList_closed _ n p hfb hp i hiF q ?_, hqn⟩
              unfold fwdNbrB
              rw [List.mem_filter]
              exact ⟨List.mem_append_left _ h2, decide_eq_true hqn⟩
          · have hqn : q < n := hfwd i hin q (List.mem_append_right _ h)
            refine ⟨reachList_closed _ n p hfb hp i hiF q ?_, hqn⟩
            unfold fwdNbrB
            rw [List.mem_filter]
            exact ⟨List.mem_append_right _ h, decide_eq_true hqn⟩
        have hvnd2 : (visited ++ [i]).Nodup :=
          hvnd.append (List.nodup_singleton i)
            (fun a ha hb => (List.mem_singleton.mp hb ▸ hiv) (List.mem_singleton.mp hb ▸ ha))
        have hfut2 : ∀ y, y ∈ (if i ≠ p ∧ i ≠ me then futures ++ [i]
            else futures) ↔ (y ∈ visited ++ [i] ∧ y ≠ p ∧ y ≠ me) := by
          intro y
          by_cases hc : i ≠ p ∧ i ≠ me
          · rw [if_pos hc]
            rw [List.mem_append, List.mem_append, hfut y]
            constructor
            · intro h
              rcases h with ⟨h1, h2⟩ | h
              · exact ⟨Or.inl h1, h2⟩
              · have hyi := List.mem_singleton.mp h
                exact ⟨Or.inr h, hyi ▸ hc⟩
            · intro ⟨h1, h2⟩
              rcases h1 with h | h
              · exact Or.inl ⟨h, h2⟩
              · exact Or.inr h
          · rw [if_neg hc]
            rw [hfut y, List.mem_append]
            constructor
            · intro ⟨h1, h2⟩
              exact ⟨Or.inl h1, h2⟩
            · intro ⟨h1, h2⟩
              rcases h1 with h | h
              · exact ⟨h, h2⟩
              · exact absurd (List.mem_singleton.mp h ▸ h2) (by
                  intro hcc
                  exact hc hcc)
        have hfnd2 : (if i ≠ p ∧ i ≠ me then futures ++ [i]
            else futures).Nodup := by
          by_cases hc : i ≠ p ∧ i ≠ me
          · rw [if_pos hc]
            refine hfnd.append (List.nodup_singleton i) ?_
            intro a ha hb
            rw [List.mem_singleton.mp hb] at ha
            exact hiv ((hfut i).mp ha).1
          · rw [if_neg hc]
            exact hfnd
        have hclosed2 : ∀ v ∈ visited ++ [i],
            ∀ y ∈ (s.node v).children ++ (s.node v).referrers,
            y ∈ visited ++ [i]
              ∨ y ∈ rest ++ (s.node i).children ++ (s.node i).referrers := by
          intro v hv y hy
          rcases List.mem_append.mp hv with h | h
          · rcases hclosed v h y hy with h2 | h2
            · exact Or.inl (List.mem_append_left _ h2)
            · rcases List.mem_cons.mp h2 with h3 | h3
              · exact Or.inl (List.mem_append_right _ (by
                  rw [h3]
                  exact List.mem_singleton.mpr rfl))
              · exact Or.inr (List.mem_append_left _ (List.mem_append_left _ h3))
          · rw [List.mem_singleton.mp h] at hy
            rcases List.mem_append.mp hy with h2 | h2
            · exact Or.inr (List.mem_append_left _ (List.mem_append_right _ h2))
            · exact Or.inr (List.mem_append_right _ h2)
        have hpvq2 : p ∈ visited ++ [i]
            ∨ p ∈ rest ++ (s.node i).children ++ (s.node i).referrers := by
          rcases hpvq with h | h
          · exact Or.inl (List.mem_append_left _ h)
          · rcases List.mem_cons.mp h with h2 | h2
            · exact Or.inl (List.mem_append_right _ (by
                rw [h2]
                exact List.mem_singleton.mpr rfl))
            · exact Or.inr (List.mem_append_left _ (List.mem_append_left _ h2))
        have hws := wsum_filter_notmem_append
          (fun x => 1 + ((s.node x).children ++ (s.node x).referrers).length)
          (List.range n) [] i (List.nodup_range n) (List.mem_range.mpr hin)
          (List.not_mem_nil i)
        have hlen2 : (rest ++ (s.node i).children
            ++ (s.node i).referrers).length
            + (((List.range n).filter (fun x => x ∉ visited ++ [i])).map
              (fun x => 1
                + ((s.node x).children ++ (s.node x).referrers).length)).sum
            < fuel := by
          have hws2 := wsum_filter_notmem_append
            (fun x => 1 + ((s.node x).children ++ (s.node x).referrers).length)
            (List.range n) visited i (List.nodup_range n)
            (List.mem_range.mpr hin) hiv
          simp only [List.length_append, List.length_cons] at *
          omega
        obtain ⟨V, hV1, hV2, hV3, hV4, hV5, hV6⟩ := ih _ _ _ hvis2 hq2 hvnd2
          hfut2 hfnd2 hclosed2 hpvq2 hlen2
        exact ⟨V, hV1, hV2,
          fun v hv => hV3 v (List.mem_append_left _ hv), hV4, hV5, hV6⟩

theorem futures_characterize (s : ConsensusGraphInner) (me : Nat)
    (hfwd : ∀ x, x < s.arena.length →
      ∀ y ∈ (s.node x).children ++ (s.node x).referrers, y < s.arena.length)
    (hp : (s.node me).parent < s.arena.length)
    (hdeg : 1 + (((List.range s.arena.length).filter
        (fun x => x ∉ ([] : List Nat))).map
      (fun x => 1 + ((s.node x).children ++ (s.node x).referrers).length)).sum
      < s.arena.length * s.arena.length + 2 * s.arena.length + 2) :
    (∀ y, y ∈ ConsensusGraphInner.futuresLoop s (s.node me).parent me
        (s.arena.length * s.arena.length + 2 * s.arena.length + 2)
        [(s.node me).parent] [] []
      ↔ (y ∈ reachList (fwdNbrB s s.arena.length) s.arena.length
          (s.node me).parent
        ∧ y ≠ (s.node me).parent ∧ y ≠ me))
    ∧ (ConsensusGraphInner.futuresLoop s (s.node me).parent me
        (s.arena.length * s.arena.length + 2 * s.arena.length + 2)
        [(s.node me).parent] [] []).Nodup := by
  have hfb : ∀ x y, y ∈ fwdNbrB s s.arena.length x → y < s.arena.length := by
    intro x y hy
    unfold fwdNbrB at hy
    rw [List.mem_filter] at hy
    exact of_decide_eq_true hy.2
  obtain ⟨V, hV1, hV2, hV3, hV4, hV5, hV6⟩ := futuresLoop_spec s
    s.arena.length (s.node me).parent me hfwd hp
    (s.arena.length * s.arena.length + 2 * s.arena.length + 2)
    [(s.node me).parent] [] []
    (fun v hv => absurd hv (List.not_mem_nil v))
    (fun q hq => by
      rw [List.mem_singleton.mp hq]
      exact ⟨reachList_src _ _ _, hp⟩)
    List.nodup_nil
    (fun y => by simp)
    List.nodup_nil
    (fun v hv => absurd hv (List.not_mem_nil v))
    (Or.inr (List.mem_singleton.mpr rfl))
    (by
      simp only [List.length_singleton]
      omega)
  have hVFn : ∀ y, y ∈ V ↔ y ∈ reachList (fwdNbrB s s.arena.length)
      s.arena.length (s.node me).parent := by
    intro y
    constructor
    · intro h
      exact (hV4 y h).1
    · intro h
      have key : ∀ k, ∀ z ∈ reachList (fwdNbrB s s.arena.length) k
          (s.node me).parent, z ∈ V := by
        intro k
        induction k with
        | zero =>
          intro z hz
          rw [List.mem_singleton.mp hz]
          exact hV6
        | succ k ihk =>
          intro z hz
          rcases (expandOnce_mem _ _ z).mp hz with h2 | ⟨x, hx, hzx⟩
          · exact ihk z h2
          · refine hV5 x (ihk x hx) z ?_
            unfold fwdNbrB at hzx
            rw [List.mem_filter] at hzx
            exact hzx.1
      exact key s.arena.length y h
  refine ⟨?_, hV2⟩
  intro y
  rw [hV1 y, hVFn y]

theorem foldl_enqueue_filter (PA F : List Nat) (refs : List Nat) :
    ∀ q : List Nat,
      refs.foldl (fun q referee =>
        if referee ∈ PA ∨ referee ∈ F then q ++ [referee] else q) q
      = q ++ refs.filter (fun r => r ∈ PA ∨ r ∈ F) := by
  induction refs with
  | nil =>
    intro q
    simp
  | cons r rest ih =>
    intro q
    rw [List.foldl_cons, List.filter_cons]
    by_cases hc : r ∈ PA ∨ r ∈ F
    · rw [if_pos hc, if_pos (decide_eq_true hc), ih]
      simp
    · rw [if_neg hc, if_neg (by simpa using hc), ih]

theorem myPastLoop_spec (s : ConsensusGraphInner) (n me : Nat)
    (PA F : List Nat)
    (hPAn : ∀ y ∈ PA, y < n) (hFn : ∀ y ∈ F, y < n)
    (hmePA : me ∉ PA) (hmeF : me ∉ F)
    (hme : me < n) :
    ∀ fuel queue my_past,
      (∀ v ∈ my_past, v ∈ reachList (backNbrB s n) n me ∧ v ≠ me
        ∧ (v ∈ PA ∨ v ∈ F) ∧ v < n) →
      (∀ q ∈ queue, q ∈ reachList (backNbrB s n) n me ∧ q ≠ me
        ∧ (q ∈ PA ∨ q ∈ F) ∧ q < n) →
      my_past.Nodup →
      (∀ v, (v ∈ my_past ∨ v = me) → ∀ y,
        ((s.node v).parent = y ∨ y ∈ (s.node v).referees) →
        (y ∈ PA ∨ y ∈ F) → y ∈ my_past ∨ y ∈ queue) →
      queue.length + (((List.range n).filter (fun x => x ∉ my_past)).map
        (fun x => 1 + ((s.node x).parent :: (s.node x).referees).length)).sum
        < fuel →
      (∀ y ∈ ConsensusGraphInner.myPastLoop s me PA F fuel queue my_past,
        y ∈ reachList (backNbrB s n) n me ∧ y ≠ me
          ∧ (y ∈ PA ∨ y ∈ F) ∧ y < n)
      ∧ (∀ v ∈ my_past,
          v ∈ ConsensusGraphInner.myPastLoop s me PA F fuel queue my_past)
      ∧ (ConsensusGraphInner.myPastLoop s me PA F fuel queue my_past).Nodup
      ∧ (∀ v, (v ∈ ConsensusGraphInner.myPastLoop s me PA F fuel queue my_past
            ∨ v = me) → ∀ y,
          ((s.node v).parent = y ∨ y ∈ (s.node v).referees) →
          (y ∈ PA ∨ y ∈ F) →
          y ∈ ConsensusGraphInner.myPastLoop s me PA F fuel queue my_past)
      := by
  have hbb : ∀ x y, y ∈ backNbrB s n x → y < n := by
    intro x y hy
    unfold backNbrB at hy
    rw [List.mem_filter] at hy
    exact of_decide_eq_true hy.2
  intro fuel
  induction fuel with
  | zero =>
    intro queue my_past _ _ _ _ hlen
    exact absurd hlen (Nat.not_lt_zero _)
  | succ fuel ih =>
    intro queue my_past hmp hq hnd hclosed hlen
    cases queue with
    | nil =>
      have hres : ConsensusGraphInner.myPastLoop s me PA F (fuel + 1) []
          my_past = my_past := rfl
      rw [hres]
      refine ⟨hmp, fun v hv => hv, hnd, ?_⟩
      intro v hv y hdep hPAF
      rcases hclosed v hv y hdep hPAF with h | h
      · exact h
      · cases h
    | cons i rest =>
      by_cases hip : i ∈ my_past
      · have hres : ConsensusGraphInner.myPastLoop s me PA F (fuel + 1)
            (i :: rest) my_past
            = ConsensusGraphInner.myPastLoop s me PA F fuel rest my_past := by
          show (if i ∈ my_past then _ else _) = _
          rw [if_pos hip]
        rw [hres]
        refine ih rest my_past hmp
          (fun q hq2 => hq q (List.mem_cons_of_mem i hq2)) hnd ?_ ?_
        · intro v hv y hdep hPAF
          rcases hclosed v hv y hdep hPAF with h | h
          · exact Or.inl h
          · rcases List.mem_cons.mp h with h2 | h2
            · exact Or.inl (h2 ▸ hip)
            · exact Or.inr h2
        · have hlc : (i :: rest).length = rest.length + 1 :=
            List.length_cons i rest
          omega
      · obtain ⟨hiP, hime, hiPAF, hin⟩ := hq i (List.mem_cons_self i rest)
        have henq := foldl_enqueue_filter PA F
          ((s.node i).parent :: (s.node i).referees) rest
        have hres : ConsensusGraphInner.myPastLoop s me PA F (fuel + 1)
            (i :: rest) my_past
            = ConsensusGraphInner.myPastLoop s me PA F fuel
              (rest ++ ((s.node i).parent :: (s.node i).referees).filter
                (fun r => r ∈ PA ∨ r ∈ F))
              (my_past ++ [i]) := by
          show (if i ∈ my_past then _ else _) = _
          rw [if_neg hip]
          show ConsensusGraphInner.myPastLoop s me PA F fuel
            (((s.node i).parent :: (s.node i).referees).foldl
              (fun q referee =>
                if referee ∈ PA ∨ referee ∈ F then q ++ [referee] else q)
              rest)
            (if i ≠ me then my_past ++ [i] else my_past) = _
          rw [henq, if_pos hime]
        rw [hres]
        have hmp2 : ∀ v ∈ my_past ++ [i],
            v ∈ reachList (backNbrB s n) n me ∧ v ≠ me
              ∧ (v ∈ PA ∨ v ∈ F) ∧ v < n := by
          intro v hv
          rcases List.mem_append.mp hv with h | h
          · exact hmp v h
          · rw [List.mem_singleton.mp h]
            exact ⟨hiP, hime, hiPAF, hin⟩
        have hq2 : ∀ q ∈ rest
            ++ ((s.node i).parent :: (s.node i).referees).filter
              (fun r => r ∈ PA ∨ r ∈ F),
            q ∈ reachList (backNbrB s n) n me ∧ q ≠ me
              ∧ (q ∈ PA ∨ q ∈ F) ∧ q < n := by
          intro q hq2
          rcases List.mem_append.mp hq2 with h | h
          · exact hq q (List.mem_cons_of_mem i h)
          · rw [List.mem_filter] at h
            have hqPAF : q ∈ PA ∨ q ∈ F := of_decide_eq_true h.2
            have hqn : q < n := by
              rcases hqPAF with h2 | h2
              · exact hPAn q h2
              · exact hFn q h2
            have hqme : q ≠ me := by
              intro hc
              rcases hqPAF with h2 | h2
              · exact hmePA (hc ▸ h2)
              · exact hmeF (hc ▸ h2)
            refine ⟨reachList_closed _ n me hbb hme i hiP q ?_, hqme,
              hqPAF, hqn⟩
            unfold backNbrB
            rw [List.mem_filter]
            exact ⟨h.1, decide_eq_true hqn⟩
        have hnd2 : (my_past ++ [i]).Nodup :=
          hnd.append (List.nodup_singleton i)
            (fun a ha hb => (List.mem_singleton.mp hb ▸ hip)
              (List.mem_singleton.mp hb ▸ ha))
        have hclosed2 : ∀ v, (v ∈ my_past ++ [i] ∨ v = me) → ∀ y,
            ((s.node v).parent = y ∨ y ∈ (s.node v).referees) →
            (y ∈ PA ∨ y ∈ F) →
            y ∈ my_past ++ [i]
              ∨ y ∈ rest ++ ((s.node i).parent :: (s.node i).referees).filter
                (fun r => r ∈ PA ∨ r ∈ F) := by
          intro v hv y hdep hPAF
          have hold : v ∈ my_past ∨ v = me → (v ≠ i) →
              y ∈ my_past ++ [i]
              ∨ y ∈ rest ++ ((s.node i).parent :: (s.node i).referees).filter
                (fun r => r ∈ PA ∨ r ∈ F) := by
            intro hv2 _
            rcases hclosed v hv2 y hdep hPAF with h | h
            · exact Or.inl (List.mem_append_left _ h)
            · rcases List.mem_cons.mp h with h2 | h2
              · refine Or.inl (List.mem_append_right _ ?_)
                rw [h2]
                exact List.mem_singleton.mpr rfl
              · exact Or.inr (List.mem_append_left _ h2)
          rcases hv with hv | hv
          · rcases List.mem_append.mp hv with h | h
            · by_cases hvi : v = i
              · subst hvi
                refine Or.inr (List.mem_append_right _ ?_)
                rw [List.mem_filter]
                refine ⟨?_, decide_eq_true hPAF⟩
                rcases hdep with hd | hd
                · rw [← hd]
                  exact List.mem_cons_self _ _
                · exact List.mem_cons_of_mem _ hd
              · exact hold (Or.inl h) hvi
            · have hvi2 := List.mem_singleton.mp h
              subst hvi2
              refine Or.inr (List.mem_append_right _ ?_)
              rw [List.mem_filter]
              refine ⟨?_, decide_eq_true hPAF⟩
              rcases hdep with hd | hd
              · rw [← hd]
                exact List.mem_cons_self _ _
              · exact List.mem_cons_of_mem _ hd
          · by_cases hvi : v = i
            · exact absurd (hvi ▸ hv.symm).symm hime
            · exact hold (Or.inr hv) hvi
        have hlen2 : (rest ++ ((s.node i).parent :: (s.node i).referees).filter
              (fun r => r ∈ PA ∨ r ∈ F)).length
            + (((List.range n).filter (fun x => x ∉ my_past ++ [i])).map
              (fun x => 1
                + ((s.node x).parent :: (s.node x).referees).length)).sum
            < fuel := by
          have hws := wsum_filter_notmem_append
            (fun x => 1 + ((s.node x).parent :: (s.node x).referees).length)
            (List.range n) my_past i (List.nodup_range n)
            (List.mem_range.mpr hin) hip
          have hfl : (((s.node i).parent :: (s.node i).referees).filter
              (fun r => r ∈ PA ∨ r ∈ F)).length
              ≤ ((s.node i).parent :: (s.node i).referees).length :=
            List.length_filter_le _ _
          simp only [List.length_append, List.length_cons] at *
          omega
        obtain ⟨ha, hb, hc, hd⟩ := ih _ _ hmp2 hq2 hnd2 hclosed2 hlen2
        refine ⟨ha, ?_, hc, hd⟩
        intro v hv
        exact hb v (List.mem_append_left _ hv)

theorem node_default (s : ConsensusGraphInner) (x : Nat)
    (h : s.arena.length ≤ x) : s.node x = defaultConsensusNode := by
  unfold ConsensusGraphInner.node
  rw [List.getD_eq_getElem?_getD, List.getElem?_eq_none (by omega)]
  rfl

theorem backNbrB_ge (s : ConsensusGraphInner) (n x : Nat)
    (hx : s.arena.length ≤ x) (hnN : n ≤ NULL) : backNbrB s n x = [] := by
  unfold backNbrB
  rw [node_default s x hx]
  have hnn : ¬(NULL < n) := by omega
  show List.filter (fun y => decide (y < n)) (NULL :: []) = []
  rw [List.filter_cons, if_neg (by simpa using hnn)]
  rfl

theorem fwdNbrB_ge (s : ConsensusGraphInner) (n x : Nat)
    (hx : s.arena.length ≤ x) : fwdNbrB s n x = [] := by
  unfold fwdNbrB
  rw [node_default s x hx]
  rfl

theorem myPast_characterize (s : ConsensusGraphInner) (me : Nat)
    (PA F : List Nat)
    (hme : me < s.arena.length)
    (hp : (s.node me).parent < s.arena.length)
    (hpm : me ∈ (s.node (s.node me).parent).children)
    (hPAn : ∀ x ∈ PA, x < s.arena.length)
    (hPAiff : ∀ x, x < s.arena.length → (x ∈ PA
      ↔ (x ∉ reachList (backNbrB s s.arena.length) s.arena.length
          (s.node me).parent
      ∧ x ∉ reachList (fwdNbrB s s.arena.length) s.arena.length
          (s.node me).parent)))
    (hF : ∀ y, y ∈ F ↔ (y ∈ reachList (fwdNbrB s s.arena.length)
        s.arena.length (s.node me).parent
      ∧ y ≠ (s.node me).parent ∧ y ≠ me))
    (hdecb : ∀ x, ∀ y ∈ backNbrB s s.arena.length x, y < x)
    (hincf : ∀ x, ∀ y ∈ fwdNbrB s s.arena.length x, x < y)
    (hdegb : (1 + (s.node me).referees.length)
      + (((List.range s.arena.length).filter
          (fun x => x ∉ ([] : List Nat))).map
        (fun x => 1 + ((s.node x).parent :: (s.node x).referees).length)).sum
      < s.arena.length * s.arena.length + 2 * s.arena.length + 1) :
    ∀ y, y ∈ ConsensusGraphInner.myPastLoop s me PA F
        (s.arena.length * s.arena.length + 2 * s.arena.length + 2) [me] []
      ↔ (y ∈ reachList (backNbrB s s.arena.length) s.arena.length me
        ∧ y ≠ me ∧ (y ∈ PA ∨ y ∈ F)) := by
  have hbb : ∀ x y, y ∈ backNbrB s s.arena.length x → y < s.arena.length := by
    intro x y hy
    unfold backNbrB at hy
    rw [List.mem_filter] at hy
    exact of_decide_eq_true hy.2
  have hfb : ∀ x y, y ∈ fwdNbrB s s.arena.length x → y < s.arena.length := by
    intro x y hy
    unfold fwdNbrB at hy
    rw [List.mem_filter] at hy
    exact of_decide_eq_true hy.2
  have hFn : ∀ y ∈ F, y < s.arena.length := by
    intro y hy
    exact reachList_lt _ _ _ hfb hp s.arena.length y ((hF y).mp hy).1
  have hmefwd : me ∈ reachList (fwdNbrB s s.arena.length) s.arena.length
      (s.node me).parent := by
    refine reachList_closed _ _ _ hfb hp (s.node me).parent
      (reachList_src _ _ _) me ?_
    unfold fwdNbrB
    rw [List.mem_filter]
    exact ⟨List.mem_append_left _ hpm, decide_eq_true hme⟩
  have hmePA : me ∉ PA := by
    intro hc
    exact ((hPAiff me hme).mp hc).2 hmefwd
  have hmeF : me ∉ F := by
    intro hc
    exact ((hF me).mp hc).2.2 rfl
  have hqfilter : ∀ q ∈ ((s.node me).parent :: (s.node me).referees).filter
      (fun r => r ∈ PA ∨ r ∈ F),
      q ∈ reachList (backNbrB s s.arena.length) s.arena.length me ∧ q ≠ me
        ∧ (q ∈ PA ∨ q ∈ F) ∧ q < s.arena.length := by
    intro q hq
    rw [List.mem_filter] at hq
    have hqPAF : q ∈ PA ∨ q ∈ F := of_decide_eq_true hq.2
    have hqn : q < s.arena.length := by
      rcases hqPAF with h | h
      · exact hPAn q h
      · exact hFn q h
    have hqme : q ≠ me := by
      intro hc
      rcases hqPAF with h | h
      · exact hmePA (hc ▸ h)
      · exact hmeF (hc ▸ h)
    refine ⟨?_, hqme, hqPAF, hqn⟩
    refine reachList_closed _ _ _ hbb hme me (reachList_src _ _ _) q ?_
    unfold backNbrB
    rw [List.mem_filter]
    exact ⟨hq.1, decide_eq_true hqn⟩
  have hres : ConsensusGraphInner.myPastLoop s me PA F
      (s.arena.length * s.arena.length + 2 * s.arena.length + 2) [me] []
      = ConsensusGraphInner.myPastLoop s me PA F
        (s.arena.length * s.arena.length + 2 * s.arena.length + 1)
        (((s.node me).parent :: (s.node me).referees).filter
          (fun r => r ∈ PA ∨ r ∈ F)) [] := by
    have h1 : ConsensusGraphInner.myPastLoop s me PA F
        (s.arena.length * s.arena.length + 2 * s.arena.length + 2) [me] []
        = ConsensusGraphInner.myPastLoop s me PA F
          (s.arena.length * s.arena.length + 2 * s.arena.length + 1)
          (((s.node me).parent :: (s.node me).referees).foldl
            (fun q referee =>
              if referee ∈ PA ∨ referee ∈ F then q ++ [referee] else q)
            [])
          (if me ≠ me then [] ++ [me] else []) := rfl
    rw [h1, foldl_enqueue_filter, if_neg (by
      intro hc
      exact hc rfl)]
    rw [List.nil_append]
  rw [hres]
  obtain ⟨ha, hb, hcnd, hd⟩ := myPastLoop_spec s s.arena.length me PA F
    hPAn hFn hmePA hmeF hme
    (s.arena.length * s.arena.length + 2 * s.arena.length + 1)
    (((s.node me).parent :: (s.node me).referees).filter
      (fun r => r ∈ PA ∨ r ∈ F)) []
    (fun v hv => absurd hv (List.not_mem_nil v))
    hqfilter
    List.nodup_nil
    (by
      intro v hv y hdep hPAF
      rcases hv with hv | hv
      · exact absurd hv (List.not_mem_nil v)
      · refine Or.inr ?_
        rw [List.mem_filter]
        refine ⟨?_, decide_eq_true hPAF⟩
        subst hv
        rcases hdep with hd2 | hd2
        · rw [← hd2]
          exact List.mem_cons_self _ _
        · exact List.mem_cons_of_mem _ hd2)
    (by
      have hfl := List.length_filter_le
        (fun r => decide (r ∈ PA ∨ r ∈ F))
        ((s.node me).parent :: (s.node me).referees)
      have hlc : ((s.node me).parent :: (s.node me).referees).length
          = (s.node me).referees.length + 1 :=
        List.length_cons _ _
      omega)
  intro y
  constructor
  · intro h
    obtain ⟨h1, h2, h3, _⟩ := ha y h
    exact ⟨h1, h2, h3⟩
  · intro ⟨hyP, hyme, hyPAF⟩
    have key : ∀ k, ∀ z ∈ reachList (backNbrB s s.arena.length) k me,
        z ≠ me → (z ∈ PA ∨ z ∈ F) →
        z ∈ ConsensusGraphInner.myPastLoop s me PA F
          (s.arena.length * s.arena.length + 2 * s.arena.length + 1)
          (((s.node me).parent :: (s.node me).referees).filter
            (fun r => r ∈ PA ∨ r ∈ F)) [] := by
      intro k
      induction k with
      | zero =>
        intro z hz hzme _
        exact absurd (List.mem_singleton.mp hz) hzme
      | succ k ihk =>
        intro z hz hzme hzPAF
        rcases (expandOnce_mem _ _ z).mp hz with h | ⟨x, hx, hzx⟩
        · exact ihk z h hzme hzPAF
        · have hdep : (s.node x).parent = z ∨ z ∈ (s.node x).referees := by
            unfold backNbrB at hzx
            rw [List.mem_filter] at hzx
            rcases List.mem_cons.mp hzx.1 with h2 | h2
            · exact Or.inl h2.symm
            · exact Or.inr h2
          by_cases hxme : x = me
          · exact hd me (Or.inr rfl) z (hxme ▸ hdep) hzPAF
          · have hxn : x < s.arena.length := by
              rcases Nat.lt_or_ge x s.arena.length with h2 | h2
              · exact h2
              · exact absurd
                  (reachList_lt _ s.arena.length me hbb hme k x hx)
                  (by omega)
            have hxPAF : x ∈ PA ∨ x ∈ F := by
              by_contra hc
              push_neg at hc
              have hxpf : x ∈ reachList (backNbrB s s.arena.length)
                  s.arena.length (s.node me).parent
                  ∨ x ∈ reachList (fwdNbrB s s.arena.length) s.arena.length
                    (s.node me).parent := by
                by_contra hc2
                push_neg at hc2
                exact hc.1 ((hPAiff x hxn).mpr ⟨hc2.1, hc2.2⟩)
              rcases hxpf with hxp | hxp
              · -- x in parent's past: z too, so z cannot be in PA or F
                have hzp : z ∈ reachList (backNbrB s s.arena.length)
                    s.arena.length (s.node me).parent :=
                  reachList_closed _ _ _ hbb hp x hxp z hzx
                rcases hzPAF with h2 | h2
                · exact ((hPAiff z (hPAn z h2)).mp h2).1 hzp
                · have hzfwd := ((hF z).mp h2).1
                  have hle := reachList_le_of_dec _ (s.node me).parent
                    (fun a b hb2 => hdecb a b hb2) s.arena.length z hzp
                  have hge := reachList_ge_of_inc _ (s.node me).parent
                    (fun a b hb2 => hincf a b hb2) s.arena.length z hzfwd
                  exact ((hF z).mp h2).2.1 (by omega)
              · -- x in parent's future but not in F: x = parent or x = me
                rcases eq_or_ne x (s.node me).parent with hxp2 | hxp2
                · have hxpast : x ∈ reachList (backNbrB s s.arena.length)
                      s.arena.length (s.node me).parent := by
                    rw [hxp2]
                    exact reachList_src _ _ _
                  have hzp : z ∈ reachList (backNbrB s s.arena.length)
                      s.arena.length (s.node me).parent :=
                    reachList_closed _ _ _ hbb hp x hxpast z hzx
                  rcases hzPAF with h2 | h2
                  · exact ((hPAiff z (hPAn z h2)).mp h2).1 hzp
                  · have hzfwd := ((hF z).mp h2).1
                    have hle := reachList_le_of_dec _ (s.node me).parent
                      (fun a b hb2 => hdecb a b hb2) s.arena.length z hzp
                    have hge := reachList_ge_of_inc _ (s.node me).parent
                      (fun a b hb2 => hincf a b hb2) s.arena.length z hzfwd
                    exact ((hF z).mp h2).2.1 (by omega)
                · exact hc.2 ((hF x).mpr ⟨hxp, hxp2, hxme⟩)
            exact hd x (Or.inl (ihk x hx hxme hxPAF)) z hdep hzPAF
    exact key s.arena.length y hyP hyme hyPAF

theorem foldl_erase_mem (l : List Nat) :
    ∀ pf : List Nat, pf.Nodup →
      ∀ x, x ∈ l.foldl (fun pf i => pf.erase i) pf ↔ (x ∈ pf ∧ x ∉ l) := by
  induction l with
  | nil =>
    intro pf _ x
    simp
  | cons i rest ih =>
    intro pf hnd x
    rw [List.foldl_cons, ih (pf.erase i) (hnd.erase i),
      List.Nodup.mem_erase_iff hnd]
    constructor
    · intro ⟨⟨h1, h2⟩, h3⟩
      refine ⟨h2, ?_⟩
      intro hc
      rcases List.mem_cons.mp hc with h | h
      · exact h1 h
      · exact h3 h
    · intro ⟨h1, h2⟩
      refine ⟨⟨?_, h1⟩, ?_⟩
      · intro hc
        exact h2 (hc ▸ List.mem_cons_self i rest)
      · intro hc
        exact h2 (List.mem_cons_of_mem i hc)

/-- Claim C2: for a newly inserted block `me` whose parent's anticone is
cached, the cache-based derivation of `compute_anticone` (parent's cached
anticone plus the parent's future set, minus `me`'s past) computes exactly
the same set as `compute_anticone_bruteforce` (every block whose epoch number
exceeds `me`'s last pivot in past and which is not backward-reachable from
`me`), and hence the anticone barrier produced by `compute_anticone` is the
same set that the brute-force anticone would induce.  Stated under the
reachable-state invariants: arena edges stay inside the arena and are
index-monotone, epoch numbers are monotone along dependency edges, every
block at or below the last-pivot epoch lies in `me`'s past, the cached entry
is exactly the parent's anticone, `me` is a fresh child of its parent, and
the arena is sparse enough for the embedded BFS fuels. -/
theorem c2_anticone_cache_equiv (s : ConsensusGraphInner) (me : Nat)
    (PA : List Nat)
    (hme : me < s.arena.length)
    (hp : (s.node me).parent < s.arena.length)
    (hpm : me ∈ (s.node (s.node me).parent).children)
    (hcache : ConsensusGraphInner.cacheGet s.anticone_cache
      (s.node me).parent = some PA)
    (hPAn : ∀ x ∈ PA, x < s.arena.length)
    (hPAiff : ∀ x, x < s.arena.length → (x ∈ PA
      ↔ (x ∉ reachList (backNbrB s s.arena.length) s.arena.length
          (s.node me).parent
      ∧ x ∉ reachList (fwdNbrB s s.arena.length) s.arena.length
          (s.node me).parent)))
    (hback : ∀ x, x < s.arena.length →
      ∀ y ∈ (s.node x).referees, y < s.arena.length)
    (hparwf : ∀ x, x < s.arena.length →
      (s.node x).parent < s.arena.length ∨ (s.node x).parent = NULL)
    (hfwd : ∀ x, x < s.arena.length →
      ∀ y ∈ (s.node x).children ++ (s.node x).referrers, y < s.arena.length)
    (hgen : ∀ x, x < s.arena.length → (s.node x).parent = NULL →
      (s.node x).data.epoch_number ≤ lastInPivot s me)
    (hmono : ∀ x, x < s.arena.length →
      ∀ y ∈ backNbrB s s.arena.length x,
      (s.node y).data.epoch_number ≤ (s.node x).data.epoch_number)
    (hL : ∀ x, x < s.arena.length →
      (s.node x).data.epoch_number ≤ lastInPivot s me →
      x ∈ reachList (backNbrB s s.arena.length) s.arena.length me)
    (hdecb0 : ∀ x, x < s.arena.length →
      ∀ y ∈ backNbrB s s.arena.length x, y < x)
    (hincf0 : ∀ x, x < s.arena.length →
      ∀ y ∈ fwdNbrB s s.arena.length x, x < y)
    (hnN : s.arena.length ≤ NULL)
    (hdegf : 1 + (((List.range s.arena.length).filter
        (fun x => x ∉ ([] : List Nat))).map
      (fun x => 1 + ((s.node x).children ++ (s.node x).referrers).length)).sum
      < s.arena.length * s.arena.length + 2 * s.arena.length + 2)
    (hdegb : (1 + (s.node me).referees.length)
      + (((List.range s.arena.length).filter
          (fun x => x ∉ ([] : List Nat))).map
        (fun x => 1 + ((s.node x).parent :: (s.node x).referees).length)).sum
      < s.arena.length * s.arena.length + 2 * s.arena.length + 1) :
    (∀ x, x ∈ cachedAnticone s me PA
      ↔ x ∈ ConsensusGraphInner.compute_anticone_bruteforce s me)
    ∧ (∀ x, x ∈ (ConsensusGraphInner.compute_anticone s me).1
      ↔ (x ∈ ConsensusGraphInner.compute_anticone_bruteforce s me
        ∧ (s.node x).parent
          ∉ ConsensusGraphInner.compute_anticone_bruteforce s me)) := by
  have hbb : ∀ x y, y ∈ backNbrB s s.arena.length x → y < s.arena.length := by
    intro x y hy
    unfold backNbrB at hy
    rw [List.mem_filter] at hy
    exact of_decide_eq_true hy.2
  have hdecb : ∀ x, ∀ y ∈ backNbrB s s.arena.length x, y < x := by
    intro x y hy
    rcases Nat.lt_or_ge x s.arena.length with h | h
    · exact hdecb0 x h y hy
    · rw [backNbrB_ge s s.arena.length x h hnN] at hy
      cases hy
  have hincf : ∀ x, ∀ y ∈ fwdNbrB s s.arena.length x, x < y := by
    intro x y hy
    rcases Nat.lt_or_ge x s.arena.length with h | h
    · exact hincf0 x h y hy
    · rw [fwdNbrB_ge s s.arena.length x h] at hy
      cases hy
  obtain ⟨hFiff, hFnd⟩ := futures_characterize s me hfwd hp hdegf
  have hmp := myPast_characterize s me PA
    (ConsensusGraphInner.futuresLoop s (s.node me).parent me
      (s.arena.length * s.arena.length + 2 * s.arena.length + 2)
      [(s.node me).parent] [] [])
    hme hp hpm hPAn hPAiff hFiff hdecb hincf hdegb
  have hbf := bruteforce_characterize s me hback hparwf hgen hmono hme hp hnN
  -- abbreviations
  set F := ConsensusGraphInner.futuresLoop s (s.node me).parent me
    (s.arena.length * s.arena.length + 2 * s.arena.length + 2)
    [(s.node me).parent] [] [] with hFdef
  set MP := ConsensusGraphInner.myPastLoop s me PA F
    (s.arena.length * s.arena.length + 2 * s.arena.length + 2) [me] []
    with hMPdef
  have hceq : cachedAnticone s me PA
      = MP.foldl (fun pf i => pf.erase i) (PA.foldl slInsert F) := rfl
  have hpfnd : (PA.foldl slInsert F).Nodup := foldl_slInsert_nodup PA F hFnd
  have hcmem : ∀ x, x ∈ cachedAnticone s me PA
      ↔ ((x ∈ F ∨ x ∈ PA) ∧ x ∉ MP) := by
    intro x
    rw [hceq, foldl_erase_mem MP _ hpfnd x, foldl_slInsert_mem]
  -- p's past is inside me's past
  have hpPn : (s.node me).parent
      ∈ reachList (backNbrB s s.arena.length) s.arena.length me := by
    refine reachList_closed _ _ _ hbb hme me (reachList_src _ _ _) _ ?_
    unfold backNbrB
    rw [List.mem_filter]
    exact ⟨List.mem_cons_self _ _, decide_eq_true hp⟩
  have hpastp_sub : ∀ k, ∀ z ∈ reachList (backNbrB s s.arena.length) k
      (s.node me).parent,
      z ∈ reachList (backNbrB s s.arena.length) s.arena.length me := by
    intro k
    induction k with
    | zero =>
      intro z hz
      rw [List.mem_singleton.mp hz]
      exact hpPn
    | succ k ih =>
      intro z hz
      rcases (expandOnce_mem _ _ z).mp hz with h | ⟨x, hx, hzx⟩
      · exact ih z h
      · exact reachList_closed _ _ _ hbb hme x (ih x hx) z hzx
  have hmePn : me ∈ reachList (backNbrB s s.arena.length) s.arena.length me :=
    reachList_src _ _ _
  -- main set equivalence
  have hset : ∀ x, x ∈ cachedAnticone s me PA
      ↔ (x < s.arena.length
        ∧ (s.node x).data.epoch_number > lastInPivot s me
        ∧ x ∉ reachList (backNbrB s s.arena.length) s.arena.length me) := by
    intro x
    rw [hcmem x]
    constructor
    · intro ⟨hPAF, hxMP⟩
      have hxn : x < s.arena.length := by
        rcases hPAF with h | h
        · have := ((hFiff x).mp h).1
          exact reachList_lt _ _ _ (by
            intro a b hb
            unfold fwdNbrB at hb
            rw [List.mem_filter] at hb
            exact of_decide_eq_true hb.2) hp s.arena.length x this
        · exact hPAn x h
      have hxme : x ≠ me := by
        intro hc
        subst hc
        rcases hPAF with h | h
        · exact ((hFiff x).mp h).2.2 rfl
        · exact ((hPAiff x (hPAn x h)).mp h).2 (by
            refine reachList_closed _ _ _ (by
              intro a b hb
              unfold fwdNbrB at hb
              rw [List.mem_filter] at hb
              exact of_decide_eq_true hb.2) hp (s.node x).parent
              (reachList_src _ _ _) x ?_
            unfold fwdNbrB
            rw [List.mem_filter]
            exact ⟨List.mem_append_left _ hpm, decide_eq_true hxn⟩)
      have hxPn : x ∉ reachList (backNbrB s s.arena.length) s.arena.length
          me := by
        intro hc
        exact hxMP ((hmp x).mpr ⟨hc, hxme, by
          rcases hPAF with h | h
          · exact Or.inr h
          · exact Or.inl h⟩)
      refine ⟨hxn, ?_, hxPn⟩
      by_contra hc
      push_neg at hc
      exact hxPn (hL x hxn hc)
    · intro ⟨hxn, hadm, hxPn⟩
      have hxpp : x ∉ reachList (backNbrB s s.arena.length) s.arena.length
          (s.node me).parent := by
        intro hc
        exact hxPn (hpastp_sub s.arena.length x hc)
      have hPAF : x ∈ F ∨ x ∈ PA := by
        by_cases hxf : x ∈ reachList (fwdNbrB s s.arena.length)
            s.arena.length (s.node me).parent
        · refine Or.inl ((hFiff x).mpr ⟨hxf, ?_, ?_⟩)
          · intro hc
            exact hxPn (hc ▸ hpPn)
          · intro hc
            exact hxPn (hc ▸ hmePn)
        · exact Or.inr ((hPAiff x hxn).mpr ⟨hxpp, hxf⟩)
      refine ⟨hPAF, ?_⟩
      intro hc
      exact hxPn ((hmp x).mp hc).1
  have hmain : ∀ x, x ∈ cachedAnticone s me PA
      ↔ x ∈ ConsensusGraphInner.compute_anticone_bruteforce s me := by
    intro x
    rw [hset x, hbf x]
  refine ⟨hmain, ?_⟩
  have hca : (ConsensusGraphInner.compute_anticone s me).1
      = (cachedAnticone s me PA).filter
        (fun index => (s.node index).parent ∉ cachedAnticone s me PA) := by
    simp only [ConsensusGraphInner.compute_anticone]
    rw [hcache]
    rfl
  rw [hca]
  intro x
  rw [List.mem_filter]
  simp only [decide_eq_true_eq]
  rw [hmain x]
  constructor
  · intro ⟨h1, h2⟩
    refine ⟨h1, ?_⟩
    intro hc
    exact h2 ((hmain _).mpr hc)
  · intro ⟨h1, h2⟩
    refine ⟨h1, ?_⟩
    intro hc
    exact h2 ((hmain _).mp hc)

set_option maxRecDepth 1000000 in
theorem c2_anticone_cache_equiv_witness :
    (∀ x, x ∈ cachedAnticone c2S c2Me c2PA
      ↔ x ∈ ConsensusGraphInner.compute_anticone_bruteforce c2S c2Me)
    ∧ (∀ x, x ∈ (ConsensusGraphInner.compute_anticone c2S c2Me).1
      ↔ (x ∈ ConsensusGraphInner.compute_anticone_bruteforce c2S c2Me
        ∧ (c2S.node x).parent
          ∉ ConsensusGraphInner.compute_anticone_bruteforce c2S c2Me)) :=
  c2_anticone_cache_equiv c2S c2Me c2PA (by decide) (by decide) (by decide)
    (by decide) (by decide) (by decide) (by decide) (by decide) (by decide)
    (by decide) (by decide) (by decide) (by decide) (by decide) (by decide)
    (by decide) (by decide)

/-!  ## Claim C4: the GRAPH_READY promotion discipline -/

theorem sync_node_default (s : SynchronizationGraphInner) (x : Nat)
    (h : s.arena.length ≤ x) : s.node x = defaultSyncNode := by
  unfold SynchronizationGraphInner.node
  rw [List.getD_eq_getElem?_getD, List.getElem?_eq_none (by omega)]
  rfl

theorem sync_status_lt (s : SynchronizationGraphInner) (x : Nat)
    (h : BLOCK_GRAPH_READY ≤ (s.node x).graph_status) :
    x < s.arena.length := by
  by_contra hc
  rw [sync_node_default s x (by omega)] at h
  exact absurd h (by decide)

theorem new_to_be_block_graph_ready_iff (s : SynchronizationGraphInner)
    (index : Nat) :
    s.new_to_be_block_graph_ready index = true ↔
      ((s.node index).block_ready = true ∧
        (s.node index).graph_status < BLOCK_GRAPH_READY ∧
        BLOCK_HEADER_GRAPH_READY ≤ (s.node index).graph_status ∧
        ((s.node index).parent_reclaimed = true ∨
          ((s.node index).parent ≠ NULL ∧
            BLOCK_GRAPH_READY ≤ (s.node (s.node index).parent).graph_status)) ∧
        ∀ r ∈ (s.node index).referees,
          BLOCK_GRAPH_READY ≤ (s.node r).graph_status) := by
  unfold SynchronizationGraphInner.new_to_be_block_graph_ready
  by_cases hbr : (s.node index).block_ready = true
  · have hc1 : ¬ ((!(s.node index).block_ready) = true) := by
      rw [hbr]
      decide
    rw [if_neg hc1]
    by_cases hst : (s.node index).graph_status ≥ BLOCK_GRAPH_READY
    · rw [if_pos hst]
      simp only [Bool.false_eq_true, false_iff]
      rintro ⟨-, hlt2, -⟩
      omega
    · rw [if_neg hst]
      simp only [Bool.and_eq_true, Bool.or_eq_true, decide_eq_true_eq,
        Bool.not_eq_true', List.any_eq_false, not_lt, ge_iff_le]
      constructor
      · rintro ⟨⟨h3, hpar⟩, href⟩
        refine ⟨hbr, by omega, h3, hpar, fun r hr => ?_⟩
        simpa using href r hr
      · rintro ⟨-, -, h3, hpar, href⟩
        exact ⟨⟨h3, hpar⟩, fun r hr => by simpa using href r hr⟩
  · have hc1 : (!(s.node index).block_ready) = true := by
      cases hb2 : (s.node index).block_ready
      · rfl
      · exact absurd hb2 hbr
    rw [if_pos hc1]
    simp only [Bool.false_eq_true, false_iff]
    rintro ⟨hb, -⟩
    exact hbr hb

theorem promoteAt_node (s : SynchronizationGraphInner) (index x : Nat) :
    (s.promoteAt index).node x =
      (s.setNode index (fun nd =>
        { nd with graph_status := BLOCK_GRAPH_READY })).node x := by
  simp only [SynchronizationGraphInner.promoteAt]
  split
  · rfl
  · rfl

theorem promoteAt_length (s : SynchronizationGraphInner) (index : Nat) :
    (s.promoteAt index).arena.length = s.arena.length := by
  simp only [SynchronizationGraphInner.promoteAt]
  split
  · simp [SynchronizationGraphInner.setNode]
  · simp [SynchronizationGraphInner.setNode]

theorem insertBlockLoop_zero (me : Nat) (s : SynchronizationGraphInner)
    (queue invalid_set sent : List Nat) :
    SynchronizationGraph.insertBlockLoop me 0 s queue invalid_set sent =
      (s, invalid_set, sent) := rfl

theorem insertBlockLoop_nil (me fuel : Nat) (s : SynchronizationGraphInner)
    (invalid_set sent : List Nat) :
    SynchronizationGraph.insertBlockLoop me (fuel + 1) s [] invalid_set sent =
      (s, invalid_set, sent) := rfl

theorem insertBlockLoop_skip (me fuel index : Nat)
    (s : SynchronizationGraphInner) (rest invalid_set sent : List Nat)
    (h0 : ¬ (s.node index).graph_status = BLOCK_INVALID)
    (h1 : ¬ s.new_to_be_block_graph_ready index = true) :
    SynchronizationGraph.insertBlockLoop me (fuel + 1) s (index :: rest)
        invalid_set sent =
      SynchronizationGraph.insertBlockLoop me fuel s rest invalid_set sent := by
  simp only [SynchronizationGraph.insertBlockLoop]
  rw [if_neg h0, if_neg h1]

theorem insertBlockLoop_promote (me fuel index : Nat)
    (s : SynchronizationGraphInner) (rest invalid_set sent : List Nat)
    (h0 : ¬ (s.node index).graph_status = BLOCK_INVALID)
    (h1 : s.new_to_be_block_graph_ready index = true) :
    SynchronizationGraph.insertBlockLoop me (fuel + 1) s (index :: rest)
        invalid_set sent =
      SynchronizationGraph.insertBlockLoop me fuel (s.promoteAt index)
        (rest ++ ((s.promoteAt index).node index).children
          ++ ((s.promoteAt index).node index).referrers)
        invalid_set
        (sent ++ [((s.promoteAt index).node index).block_header.hash]) := by
  simp only [SynchronizationGraph.insertBlockLoop]
  rw [if_neg h0, if_pos h1]
  rfl

theorem insertBlockLoop_invariant (me : Nat) (s0 : SynchronizationGraphInner)
    (hninv : ∀ x, x < s0.arena.length →
      (s0.node x).graph_status ≠ BLOCK_INVALID)
    (hedge : ∀ x, x < s0.arena.length →
      (∀ c ∈ (s0.node x).children, c < s0.arena.length) ∧
      ∀ r ∈ (s0.node x).referrers, r < s0.arena.length) :
    ∀ fuel s queue invalid_set sent,
      SynchronizationGraphInner.StatusStep s0 s →
      SynchronizationGraphInner.ReadyInv s →
      (∀ i ∈ queue, i < s.arena.length) →
      SynchronizationGraphInner.SentCover s0 s sent →
      SynchronizationGraphInner.SentAncestorsOk s0 s sent →
      SynchronizationGraphInner.StatusStep s0
        (SynchronizationGraph.insertBlockLoop me fuel s queue invalid_set sent).1 ∧
      SynchronizationGraphInner.ReadyInv
        (SynchronizationGraph.insertBlockLoop me fuel s queue invalid_set sent).1 ∧
      (SynchronizationGraph.insertBlockLoop me fuel s queue invalid_set sent).2.1
        = invalid_set ∧
      SynchronizationGraphInner.SentCover s0
        (SynchronizationGraph.insertBlockLoop me fuel s queue invalid_set sent).1
        (SynchronizationGraph.insertBlockLoop me fuel s queue invalid_set sent).2.2 ∧
      SynchronizationGraphInner.SentAncestorsOk s0
        (SynchronizationGraph.insertBlockLoop me fuel s queue invalid_set sent).1
        (SynchronizationGraph.insertBlockLoop me fuel s queue invalid_set sent).2.2 := by
  intro fuel
  induction fuel with
  | zero =>
    intro s queue invalid_set sent hss hri _ hsc hsa
    rw [insertBlockLoop_zero]
    exact ⟨hss, hri, rfl, hsc, hsa⟩
  | succ fuel ih =>
    intro s queue invalid_set sent hss hri hq hsc hsa
    cases queue with
    | nil =>
      rw [insertBlockLoop_nil]
      exact ⟨hss, hri, rfl, hsc, hsa⟩
    | cons index rest =>
      have hx : index < s.arena.length := hq index (List.mem_cons_self _ _)
      have hlen : s.arena.length = s0.arena.length := hss.1
      have h0 : ¬ (s.node index).graph_status = BLOCK_INVALID := by
        have ha := hninv index (by omega)
        have hb := (hss.2 index).1
        simp only [BLOCK_INVALID] at ha ⊢
        omega
      by_cases h1 : s.new_to_be_block_graph_ready index = true
      · rw [insertBlockLoop_promote me fuel index s rest invalid_set sent h0 h1]
        obtain ⟨hbr, hlt, h3, hpar, href⟩ :=
          (new_to_be_block_graph_ready_iff s index).mp h1
        have hnode : ∀ x, (s.promoteAt index).node x =
            if index = x ∧ index < s.arena.length then
              { s.node index with graph_status := BLOCK_GRAPH_READY }
            else s.node x := fun x => by
          rw [promoteAt_node, sync_node_setNode]
        have hlen' : (s.promoteAt index).arena.length = s.arena.length :=
          promoteAt_length s index
        have hkeep : ∀ x,
            ((s.promoteAt index).node x).block_header = (s.node x).block_header ∧
            ((s.promoteAt index).node x).parent = (s.node x).parent ∧
            ((s.promoteAt index).node x).parent_reclaimed
              = (s.node x).parent_reclaimed ∧
            ((s.promoteAt index).node x).referees = (s.node x).referees ∧
            ((s.promoteAt index).node x).children = (s.node x).children ∧
            ((s.promoteAt index).node x).referrers = (s.node x).referrers := by
          intro x
          rw [hnode x]
          by_cases hix : index = x ∧ index < s.arena.length
          · rw [if_pos hix]
            rcases hix with ⟨hexx, _⟩
            subst hexx
            exact ⟨rfl, rfl, rfl, rfl, rfl, rfl⟩
          · rw [if_neg hix]
            exact ⟨rfl, rfl, rfl, rfl, rfl, rfl⟩
        have hmono' : ∀ x, (s.node x).graph_status ≤
            ((s.promoteAt index).node x).graph_status := by
          intro x
          rw [hnode x]
          by_cases hix : index = x ∧ index < s.arena.length
          · rw [if_pos hix]
            rcases hix with ⟨hexx, _⟩
            subst hexx
            show (s.node index).graph_status ≤ BLOCK_GRAPH_READY
            omega
          · rw [if_neg hix]
        have hsidx : ((s.promoteAt index).node index).graph_status
            = BLOCK_GRAPH_READY := by
          rw [hnode index, if_pos ⟨rfl, hx⟩]
        have hdown : ∀ x,
            BLOCK_GRAPH_READY ≤ ((s.promoteAt index).node x).graph_status →
            x = index ∨ BLOCK_GRAPH_READY ≤ (s.node x).graph_status := by
          intro x hxr
          rw [hnode x] at hxr
          by_cases hix : index = x ∧ index < s.arena.length
          · exact Or.inl hix.1.symm
          · rw [if_neg hix] at hxr
            exact Or.inr hxr
        have hss' : SynchronizationGraphInner.StatusStep s0 (s.promoteAt index) := by
          refine ⟨by rw [hlen']; exact hss.1, fun x => ?_⟩
          obtain ⟨ha, hb, hc, hd, he, hf, hg⟩ := hss.2 x
          obtain ⟨k1, k2, k3, k4, k5, k6⟩ := hkeep x
          exact ⟨le_trans ha (hmono' x), k1.trans hb, k2.trans hc, k3.trans hd,
            k4.trans he, k5.trans hf, k6.trans hg⟩
        have hri' : SynchronizationGraphInner.ReadyInv (s.promoteAt index) := by
          intro x hxl hxr
          rcases hdown x hxr with hxi | hxs
          · subst hxi
            constructor
            · rcases hpar with hrc | ⟨hpn, hps⟩
              · exact Or.inr (Or.inl (((hkeep x).2.2.1).trans hrc))
              · refine Or.inr (Or.inr ?_)
                rw [(hkeep x).2.1]
                exact le_trans hps (hmono' (s.node x).parent)
            · rw [(hkeep x).2.2.2.1]
              intro r hr
              exact le_trans (href r hr) (hmono' r)
          · have hxl' : x < s.arena.length := by
              rw [hlen'] at hxl
              exact hxl
            obtain ⟨hp, hr⟩ := hri x hxl' hxs
            constructor
            · rcases hp with hN | hrc | hps
              · exact Or.inl (((hkeep x).2.1).trans hN)
              · exact Or.inr (Or.inl (((hkeep x).2.2.1).trans hrc))
              · refine Or.inr (Or.inr ?_)
                rw [(hkeep x).2.1]
                exact le_trans hps (hmono' (s.node x).parent)
            · rw [(hkeep x).2.2.2.1]
              intro r hrr
              exact le_trans (hr r hrr) (hmono' r)
        have hq' : ∀ i ∈ rest ++ ((s.promoteAt index).node index).children
            ++ ((s.promoteAt index).node index).referrers,
            i < (s.promoteAt index).arena.length := by
          intro i hi
          rw [hlen']
          rcases List.mem_append.mp hi with hi2 | hiref
          · rcases List.mem_append.mp hi2 with hir | hic
            · exact hq i (List.mem_cons_of_mem _ hir)
            · rw [(hkeep index).2.2.2.2.1, (hss.2 index).2.2.2.2.2.1] at hic
              have := (hedge index (by omega)).1 i hic
              omega
          · rw [(hkeep index).2.2.2.2.2, (hss.2 index).2.2.2.2.2.2] at hiref
            have := (hedge index (by omega)).2 i hiref
            omega
        have hhash : ∀ x, ((s.promoteAt index).node x).block_header.hash
            = (s.node x).block_header.hash := by
          intro x
          rw [(hkeep x).1]
        have hsc' : SynchronizationGraphInner.SentCover s0 (s.promoteAt index)
            (sent ++ [((s.promoteAt index).node index).block_header.hash]) := by
          intro x hxl hxr
          rcases hdown x hxr with hxi | hxs
          · subst hxi
            exact Or.inr (List.mem_append_right _ (List.mem_singleton_self _))
          · have hxl' : x < s.arena.length := by
              rw [hlen'] at hxl
              exact hxl
            rcases hsc x hxl' hxs with h0r | hmem
            · exact Or.inl h0r
            · refine Or.inr (List.mem_append_left _ ?_)
              rw [hhash x]
              exact hmem
        have hsa' : SynchronizationGraphInner.SentAncestorsOk s0
            (s.promoteAt index)
            (sent ++ [((s.promoteAt index).node index).block_header.hash]) := by
          intro i hi
          rw [List.length_append, List.length_singleton] at hi
          rcases Nat.lt_or_ge i sent.length with hilt | hige
          · obtain ⟨x, hxl, hxh, hxr, hxp, hxref⟩ := hsa i hilt
            refine ⟨x, by omega, ?_, le_trans hxr (hmono' x), ?_, ?_⟩
            · rw [List.getD_append _ _ _ _ hilt, hhash x]
              exact hxh
            · rcases hxp with hrc | ⟨hpn, hpo⟩
              · exact Or.inl (((hkeep x).2.2.1).trans hrc)
              · refine Or.inr ⟨by rw [(hkeep x).2.1]; exact hpn, ?_⟩
                rw [(hkeep x).2.1]
                rcases hpo with h0r | hmem
                · exact Or.inl h0r
                · refine Or.inr ?_
                  rw [List.take_append_of_le_length (by omega), hhash]
                  exact hmem
            · rw [(hkeep x).2.2.2.1]
              intro r hrr
              rcases hxref r hrr with h0r | hmem
              · exact Or.inl h0r
              · refine Or.inr ?_
                rw [List.take_append_of_le_length (by omega), hhash r]
                exact hmem
          · have hieq : i = sent.length := by omega
            subst hieq
            refine ⟨index, by omega, ?_, by rw [hsidx], ?_, ?_⟩
            · rw [List.getD_append_right _ _ _ _ (le_refl _), Nat.sub_self]
              rfl
            · rcases hpar with hrc | ⟨hpn, hps⟩
              · exact Or.inl (((hkeep index).2.2.1).trans hrc)
              · refine Or.inr ⟨by rw [(hkeep index).2.1]; exact hpn, ?_⟩
                rw [(hkeep index).2.1]
                have hplt : (s.node index).parent < s.arena.length :=
                  sync_status_lt s _ hps
                rcases hsc _ hplt hps with h0r | hmem
                · exact Or.inl h0r
                · refine Or.inr ?_
                  rw [List.take_append_of_le_length (le_refl _),
                    List.take_length, hhash]
                  exact hmem
            · rw [(hkeep index).2.2.2.1]
              intro r hrr
              have hr4 := href r hrr
              have hrlt : r < s.arena.length := sync_status_lt s r hr4
              rcases hsc r hrlt hr4 with h0r | hmem
              · exact Or.inl h0r
              · refine Or.inr ?_
                rw [List.take_append_of_le_length (le_refl _),
                  List.take_length, hhash r]
                exact hmem
        exact ih (s.promoteAt index) _ invalid_set _ hss' hri' hq' hsc' hsa'
      · rw [insertBlockLoop_skip me fuel index s rest invalid_set sent h0 h1]
        exact ih s rest invalid_set sent hss hri
          (fun i hi => hq i (List.mem_cons_of_mem _ hi)) hsc hsa

/-- **C4.**  In the synchronization graph, a node is promoted to
`BLOCK_GRAPH_READY` if and only if `new_to_be_block_graph_ready` holds: its
body is present (`block_ready`), it is not yet `BLOCK_GRAPH_READY`, its
status is at least `BLOCK_HEADER_GRAPH_READY`, its parent is
`BLOCK_GRAPH_READY` (or `parent_reclaimed` is set), and every referee is
`BLOCK_GRAPH_READY`.  Consequently the promotion loop of `insert_block`
preserves the readiness invariant and hands hashes to the Consensus worker
ancestors-first: every hash it sends names a node whose parent (unless
reclaimed) and referees were either already `BLOCK_GRAPH_READY` before the
loop or were sent strictly earlier in the same loop. -/
theorem c4_graph_ready_promotion (s : SynchronizationGraphInner)
    (me fuel : Nat) (queue : List Nat)
    (hninv : ∀ x, x < s.arena.length →
      (s.node x).graph_status ≠ BLOCK_INVALID)
    (hedge : ∀ x, x < s.arena.length →
      (∀ c ∈ (s.node x).children, c < s.arena.length) ∧
      ∀ r ∈ (s.node x).referrers, r < s.arena.length)
    (hq : ∀ i ∈ queue, i < s.arena.length)
    (hready : SynchronizationGraphInner.ReadyInv s) :
    (∀ index, s.new_to_be_block_graph_ready index = true ↔
      ((s.node index).block_ready = true ∧
        (s.node index).graph_status < BLOCK_GRAPH_READY ∧
        BLOCK_HEADER_GRAPH_READY ≤ (s.node index).graph_status ∧
        ((s.node index).parent_reclaimed = true ∨
          ((s.node index).parent ≠ NULL ∧
            BLOCK_GRAPH_READY ≤ (s.node (s.node index).parent).graph_status)) ∧
        ∀ r ∈ (s.node index).referees,
          BLOCK_GRAPH_READY ≤ (s.node r).graph_status)) ∧
    SynchronizationGraphInner.ReadyInv
      (SynchronizationGraph.insertBlockLoop me fuel s queue [] []).1 ∧
    (SynchronizationGraph.insertBlockLoop me fuel s queue [] []).2.1 = [] ∧
    SynchronizationGraphInner.SentAncestorsOk s
      (SynchronizationGraph.insertBlockLoop me fuel s queue [] []).1
      (SynchronizationGraph.insertBlockLoop me fuel s queue [] []).2.2 := by
  have hstep : SynchronizationGraphInner.StatusStep s s :=
    ⟨rfl, fun x => ⟨le_refl _, rfl, rfl, rfl, rfl, rfl, rfl⟩⟩
  have hcov : SynchronizationGraphInner.SentCover s s [] :=
    fun x _ hr => Or.inl hr
  have hanc : SynchronizationGraphInner.SentAncestorsOk s s [] :=
    fun i hi => absurd hi (Nat.not_lt_zero i)
  obtain ⟨_, h2, h3, _, h5⟩ := insertBlockLoop_invariant me s hninv hedge
    fuel s queue [] [] hstep hready hq hcov hanc
  exact ⟨fun index => new_to_be_block_graph_ready_iff s index, h2, h3, h5⟩

theorem c4_graph_ready_promotion_witness :
    (∀ index, c4S.new_to_be_block_graph_ready index = true ↔
      ((c4S.node index).block_ready = true ∧
        (c4S.node index).graph_status < BLOCK_GRAPH_READY ∧
        BLOCK_HEADER_GRAPH_READY ≤ (c4S.node index).graph_status ∧
        ((c4S.node index).parent_reclaimed = true ∨
          ((c4S.node index).parent ≠ NULL ∧
            BLOCK_GRAPH_READY ≤ (c4S.node (c4S.node index).parent).graph_status)) ∧
        ∀ r ∈ (c4S.node index).referees,
          BLOCK_GRAPH_READY ≤ (c4S.node r).graph_status)) ∧
    SynchronizationGraphInner.ReadyInv
      (SynchronizationGraph.insertBlockLoop 1 5 c4S [1] [] []).1 ∧
    (SynchronizationGraph.insertBlockLoop 1 5 c4S [1] [] []).2.1 = [] ∧
    SynchronizationGraphInner.SentAncestorsOk c4S
      (SynchronizationGraph.insertBlockLoop 1 5 c4S [1] [] []).1
      (SynchronizationGraph.insertBlockLoop 1 5 c4S [1] [] []).2.2 :=
  c4_graph_ready_promotion c4S 1 5 [1] (by decide) (by decide) (by decide)
    (by decide)

end Conflux
